import Mathlib

/-!
# Verification of the Page-Spark generation-sanitization pipeline

This file is a shallow embedding, in Lean 4, of the core pipeline of the
Page-Spark backend (`core/services.py`, `core/meta_prompt.py`):

* `HtmlSanitizationService.sanitize` — modelled as a pipeline of tree
  transformations over a `Node` tree (the mutable structural tree that
  BeautifulSoup's `html.parser` produces), followed by the exact string-level
  serialization and DOCTYPE normalization of the source.  Since the parser
  itself is an external library (bs4), theorems about "every raw input"
  quantify over all parse trees, i.e. over all values of `List Node`.
* `MetaPromptService.construct_prompt` — a faithful, purely functional
  translation, including Python's `str.title`, `str.replace` and truthiness.
* `OpenRouterService.generate_html` / `get_fallback_html` — the provider call
  is abstracted as its observable result (transport error / HTTP status /
  decoded `choices` payload); the fallback document is the literal template.
* `GenericPageService.generate_page` — the bounded retry orchestrator,
  parametric in per-attempt oracles for the generator, the sanitizer and the
  CDN verifier (each of which may raise, modelled with `Except`).

Python strings are modelled as Lean `String`s (`len` = `String.length`,
slicing/stripping as explicit `List Char` operations).
-/

set_option maxHeartbeats 1600000
set_option maxRecDepth 4096

/-! ## Python string primitives -/

/-- The whitespace characters stripped by Python's `str.strip()`
(ASCII portion, which is all the pipeline ever produces). -/
def isPyWs (c : Char) : Bool :=
  c = ' ' || c = '\t' || c = '\n' || c = '\r' || c = '\x0b' || c = '\x0c'

/-- `str.strip()` on a character list. -/
def pyStripL (l : List Char) : List Char :=
  ((l.dropWhile isPyWs).reverse.dropWhile isPyWs).reverse

/-- `str.strip()`. -/
def pyStrip (s : String) : String := ⟨pyStripL s.data⟩

/-- `pat` is a leading segment of `l`. -/
def leadsWith : List Char → List Char → Bool
  | [], _ => true
  | _ :: _, [] => false
  | p :: ps, c :: cs => p == c && leadsWith ps cs

/-- Python's substring test `sub in hay` (character lists). -/
def containsL (pat : List Char) : List Char → Bool
  | [] => pat.isEmpty
  | c :: rest => leadsWith pat (c :: rest) || containsL pat rest

/-- Python's substring test `sub in hay`. -/
def strContains (hay sub : String) : Bool := containsL sub.data hay.data

/-- Python's `str.lower()` (ASCII portion). -/
def lowerL (l : List Char) : List Char := l.map Char.toLower

/-- Python's `s.startswith(pat)`. -/
def pyStartsWith (s pat : String) : Bool := leadsWith pat.data s.data

/-- Python's `s.endswith(pat)`. -/
def pyEndsWith (s pat : String) : Bool := leadsWith pat.data.reverse s.data.reverse

/-! ## The structural tree (BeautifulSoup document model)

`elem` is a `Tag` (name, attributes in insertion order, children),
`text` a `NavigableString`, `doctype` a `Doctype` node (rendered as
`<!DOCTYPE d>`).  `html.parser` lowercases tag and attribute names, so
parse trees of real inputs use lowercase names. -/

inductive Node where
  | elem (tag : String) (attrs : List (String × String)) (children : List Node)
  | text (s : String)
  | doctype (d : String)
deriving Repr

mutual
def Node.beq : Node → Node → Bool
  | .elem t a cs, .elem t' a' cs' => t == t' && a == a' && Node.beqL cs cs'
  | .text s, .text s' => s == s'
  | .doctype d, .doctype d' => d == d'
  | _, _ => false
def Node.beqL : List Node → List Node → Bool
  | [], [] => true
  | n :: ns, m :: ms => Node.beq n m && Node.beqL ns ms
  | _, _ => false
end

mutual
theorem Node.beq_iff : ∀ a b : Node, Node.beq a b = true ↔ a = b
  | .elem t a cs, .elem t' a' cs' => by
    simp only [Node.beq, Bool.and_eq_true, beq_iff_eq, Node.beqL_iff cs cs', Node.elem.injEq]
    tauto
  | .elem _ _ _, .text _ => by simp [Node.beq]
  | .elem _ _ _, .doctype _ => by simp [Node.beq]
  | .text _, .elem _ _ _ => by simp [Node.beq]
  | .text _, .text _ => by simp [Node.beq]
  | .text _, .doctype _ => by simp [Node.beq]
  | .doctype _, .elem _ _ _ => by simp [Node.beq]
  | .doctype _, .text _ => by simp [Node.beq]
  | .doctype _, .doctype _ => by simp [Node.beq]
theorem Node.beqL_iff : ∀ as bs : List Node, Node.beqL as bs = true ↔ as = bs
  | [], [] => by simp [Node.beqL]
  | [], _ :: _ => by simp [Node.beqL]
  | _ :: _, [] => by simp [Node.beqL]
  | a :: as, b :: bs => by
    simp [Node.beqL, Node.beq_iff a b, Node.beqL_iff as bs]
end

instance : DecidableEq Node := fun a b =>
  decidable_of_iff (Node.beq a b = true) (Node.beq_iff a b)

/-! ### Generic tree operations (the bs4 search / mutate calls the source uses)

All searches are preorder (document order), exactly like `soup.find` /
`soup.find_all`. -/

/- `Tag.decompose` driven removal: drop every (sub)tree whose root satisfies
`q`; inside kept nodes keep filtering (bs4's `find_all` collects matches at
every depth and decomposes each). -/
mutual
def filterTree (q : Node → Bool) : Node → Option Node
  | .elem t a cs =>
    if q (.elem t a cs) then none else some (.elem t a (filterForest q cs))
  | n => if q n then none else some n
def filterForest (q : Node → Bool) : List Node → List Node
  | [] => []
  | n :: ns =>
    match filterTree q n with
    | some n' => n' :: filterForest q ns
    | none => filterForest q ns
end

/- `soup.find(...)`: first node in document order satisfying `p`. -/
mutual
def findNode (p : Node → Bool) : List Node → Option Node
  | [] => none
  | n :: ns =>
    if p n then some n
    else
      match findIn p n with
      | some r => some r
      | none => findNode p ns
def findIn (p : Node → Bool) : Node → Option Node
  | .elem _ _ cs => findNode p cs
  | _ => none
end

/- `soup.find_all(...)`: all nodes in document order satisfying `p`. -/
mutual
def findAllNodes (p : Node → Bool) : List Node → List Node
  | [] => []
  | n :: ns => findAllIn p n ++ findAllNodes p ns
def findAllIn (p : Node → Bool) : Node → List Node
  | .elem t a cs =>
    (if p (.elem t a cs) then [Node.elem t a cs] else []) ++ findAllNodes p cs
  | n => if p n then [n] else []
end

/-- Number of nodes in document order satisfying `p`. -/
def countNodes (p : Node → Bool) (F : List Node) : Nat := (findAllNodes p F).length

/- Mutate (via `f`) the first node in document order satisfying `p` —
this is how the source holds a Python reference obtained from `soup.find`
and mutates it in place. -/
mutual
def updateFirstA (p : Node → Bool) (f : Node → Node) : List Node → Option (List Node)
  | [] => none
  | n :: ns =>
    if p n then some (f n :: ns)
    else
      match updateInA p f n with
      | some n' => some (n' :: ns)
      | none => (updateFirstA p f ns).map (n :: ·)
def updateInA (p : Node → Bool) (f : Node → Node) : Node → Option Node
  | .elem t a cs => (updateFirstA p f cs).map (.elem t a ·)
  | _ => none
end

def updateFirst (p : Node → Bool) (f : Node → Node) (F : List Node) : List Node :=
  (updateFirstA p f F).getD F

/- `tag.extract()` applied to the first node in document order satisfying
`p`: the forest without that node. -/
mutual
def extractFirstA (p : Node → Bool) : List Node → Option (List Node)
  | [] => none
  | n :: ns =>
    if p n then some ns
    else
      match extractInA p n with
      | some n' => some (n' :: ns)
      | none => (extractFirstA p ns).map (n :: ·)
def extractInA (p : Node → Bool) : Node → Option Node
  | .elem t a cs => (extractFirstA p cs).map (.elem t a ·)
  | _ => none
end

def extractFirst (p : Node → Bool) (F : List Node) : List Node :=
  (extractFirstA p F).getD F

/- `.parent` of the first node in document order satisfying `p`:
`some none` = it is a root child (its parent is the soup itself),
`some (some q)` = its parent tag is `q`, `none` = no match. -/
mutual
def parentOfFirst (p : Node → Bool) : List Node → Option (Option Node)
  | [] => none
  | n :: ns =>
    if p n then some none
    else
      match parentIn p n with
      | some r => some r
      | none => parentOfFirst p ns
def parentIn (p : Node → Bool) : Node → Option (Option Node)
  | .elem t a cs =>
    match parentOfFirst p cs with
    | some none => some (some (.elem t a cs))
    | some (some q) => some (some q)
    | none => none
  | _ => none
end

/- Every node of the forest (document order) satisfies `p`. -/
mutual
def allNodes (p : Node → Bool) : List Node → Bool
  | [] => true
  | n :: ns => allIn p n && allNodes p ns
def allIn (p : Node → Bool) : Node → Bool
  | .elem t a cs => p (.elem t a cs) && allNodes p cs
  | n => p n
end

/-- Python `list.insert(i, x)` (clamps an out-of-range index). -/
def pyInsertIdx (x : Node) : Nat → List Node → List Node
  | 0, l => x :: l
  | _ + 1, [] => [x]
  | n + 1, a :: l => a :: pyInsertIdx x n l

/-! ## `HtmlSanitizationService.sanitize` (core/services.py, lines 268–378) -/

namespace HtmlSanitizationService

/-- Allowed Tailwind CDN URL. -/
def TAILWIND_CDN : String := "https://cdn.tailwindcss.com"

/-- The script allow-list of step 2. -/
def ALLOWED_SCRIPTS : List String :=
  [TAILWIND_CDN, "cdnjs.cloudflare.com", "kit.fontawesome.com"]

/-- `tag.attrs`. -/
def attrsOf : Node → List (String × String)
  | .elem _ a _ => a
  | _ => []

/-- `tag.get(k)` (first binding, like a dict read on parse output). -/
def getAttr (n : Node) (k : String) : Option String :=
  ((attrsOf n).find? (fun kv => kv.1 == k)).map (·.2)

/-- `script.get('src', '')`. -/
def srcOf (n : Node) : String := (getAttr n "src").getD ""

def isScriptTag : Node → Bool
  | .elem t _ _ => t == "script"
  | _ => false

def isStyleTag : Node → Bool
  | .elem t _ _ => t == "style"
  | _ => false

def isHtmlTag : Node → Bool
  | .elem t _ _ => t == "html"
  | _ => false

def isHeadTag : Node → Bool
  | .elem t _ _ => t == "head"
  | _ => false

def isBodyTag : Node → Bool
  | .elem t _ _ => t == "body"
  | _ => false

/-- `soup.find('meta', charset=True)`: a meta tag carrying a `charset`
attribute (any value). -/
def isCharsetMeta (n : Node) : Bool :=
  match n with
  | .elem t _ _ => t == "meta" && (getAttr n "charset").isSome
  | _ => false

/-- `soup.find('meta', attrs={'name': 'viewport'})`. -/
def isViewportMeta (n : Node) : Bool :=
  match n with
  | .elem t _ _ => t == "meta" && getAttr n "name" == some "viewport"
  | _ => false

/-- Step 2's removal condition: a script tag is decomposed when its `src`
contains the Tailwind URL (it gets re-injected canonically in step 7), or
when its `src` contains none of the allow-listed substrings (which covers
inline scripts, whose `src` defaults to `''`). -/
def scriptRemovable (n : Node) : Bool :=
  isScriptTag n &&
    (let src := srcOf n
     if strContains src TAILWIND_CDN then true
     else !(ALLOWED_SCRIPTS.any (fun allowed => strContains src allowed)))

/-- The predicate of `soup.find('script', src=lambda x: x and TAILWIND_CDN in x)`:
an `src` attribute that is present, truthy, and contains the Tailwind URL. -/
def isTwScript (n : Node) : Bool :=
  isScriptTag n &&
    (match getAttr n "src" with
     | some x => !(x == "") && strContains x TAILWIND_CDN
     | none => false)

/-- Step 2: remove every script tag except allowed CDNs (Tailwind ones are
removed here and re-injected in step 7). -/
def step2 (F : List Node) : List Node := filterForest scriptRemovable F

/- Step 3: remove every attribute whose name starts with `on` on every tag. -/
mutual
def stripOnNode : Node → Node
  | .elem t a cs =>
    .elem t (a.filter fun kv => !(pyStartsWith kv.1 "on")) (stripOnForest cs)
  | n => n
def stripOnForest : List Node → List Node
  | [] => []
  | n :: ns => stripOnNode n :: stripOnForest ns
end

def step3 (F : List Node) : List Node := stripOnForest F

/-- Step 4: remove style tags. -/
def step4 (F : List Node) : List Node := filterForest isStyleTag F

/-- Step 5: ensure a root `html` element exists; if absent, move every root
child into a fresh `<html lang="en">`. -/
def step5 (F : List Node) : List Node :=
  match findNode isHtmlTag F with
  | some _ => F
  | none => [.elem "html" [("lang", "en")] F]

/-- `tag.insert(0, x)`. -/
def insertChild0 (x : Node) : Node → Node
  | .elem t a cs => .elem t a (x :: cs)
  | n => n

/-- `tag.append(x)`. -/
def appendChild (x : Node) : Node → Node
  | .elem t a cs => .elem t a (cs ++ [x])
  | n => n

/-- `tag.insert(i, x)`. -/
def insertChildAt (i : Nat) (x : Node) : Node → Node
  | .elem t a cs => .elem t a (pyInsertIdx x i cs)
  | n => n

/-- Step 6: ensure a head exists; if absent, create one and insert it as the
first child of the html tag found/created in step 5. -/
def step6 (F : List Node) : List Node :=
  match findNode isHeadTag F with
  | some _ => F
  | none => updateFirst isHtmlTag (insertChild0 (.elem "head" [] [])) F

/-- `soup.new_tag('script', src=TAILWIND_CDN)`. -/
def twNew : Node := .elem "script" [("src", TAILWIND_CDN)] []

/-- Step 7: ensure the Tailwind CDN script is in head.  If one is found it is
moved to head unless already there (dead in practice: step 2 removed them
all); otherwise a fresh one is appended to head. -/
def step7 (F : List Node) : List Node :=
  match findNode isTwScript F with
  | some s =>
    match parentOfFirst isTwScript F, findNode isHeadTag F with
    | some par, some h =>
      if par = some h then F
      else updateFirst isHeadTag (appendChild s) (extractFirst isTwScript F)
    | _, _ => F
  | none => updateFirst isHeadTag (appendChild twNew) F

/-- `soup.new_tag('meta', charset='UTF-8')`. -/
def charsetNew : Node := .elem "meta" [("charset", "UTF-8")] []

/-- Step 8: ensure a charset meta tag, inserted first in head if missing
(the search for an existing one scans the whole document). -/
def step8 (F : List Node) : List Node :=
  match findNode isCharsetMeta F with
  | some _ => F
  | none => updateFirst isHeadTag (insertChild0 charsetNew) F

/-- The viewport meta created by step 9 (attributes in assignment order). -/
def viewportNew : Node :=
  .elem "meta" [("name", "viewport"), ("content", "width=device-width, initial-scale=1.0")] []

/-- Step 9: ensure a viewport meta tag, inserted at index 1 of head if
missing (again searched document-wide). -/
def step9 (F : List Node) : List Node :=
  match findNode isViewportMeta F with
  | some _ => F
  | none => updateFirst isHeadTag (insertChildAt 1 viewportNew) F

/- Step 10's cleanup: decompose every Tailwind script after the first
(document order). -/
mutual
def dropExtraTwF : List Node → Nat → List Node × Nat
  | [], k => ([], k)
  | n :: ns, k =>
    let (n', k') := dropExtraTwN n k
    let (ns', k'') := dropExtraTwF ns k'
    (n' ++ ns', k'')
def dropExtraTwN : Node → Nat → List Node × Nat
  | .elem t a cs, k =>
    if isTwScript (.elem t a cs) then
      if k = 0 then
        let (cs', k') := dropExtraTwF cs 1
        ([.elem t a cs'], k')
      else ([], k)
    else
      let (cs', k') := dropExtraTwF cs k
      ([.elem t a cs'], k')
  | n, k => ([n], k)
end

/-- Step 10: if more than one Tailwind include exists, keep the first only. -/
def step10 (F : List Node) : List Node :=
  if (findAllNodes isTwScript F).length > 1 then (dropExtraTwF F 0).1 else F

/-- Steps 2–10: the tree-level part of `sanitize` (between the parse of
step 1 and the serialization of step 11). -/
def sanitizeSteps (F : List Node) : List Node :=
  step10 (step9 (step8 (step7 (step6 (step5 (step4 (step3 (step2 F))))))))

end HtmlSanitizationService

/-! ## Serialization (`str(soup)`, step 11)

bs4's `minimal` output formatter: text is entity-escaped (`&`, `<`, `>`),
attribute values are double-quoted with `&`, `<`, `>`, `"` escaped, void
(empty-element) tags self-close, and the contents of `script`/`style` tags
are emitted verbatim. -/

def escTextC (c : Char) : List Char :=
  if c = '&' then "&amp;".data
  else if c = '<' then "&lt;".data
  else if c = '>' then "&gt;".data
  else [c]

def escText (s : String) : String :=
  ⟨s.data.foldr (fun c acc => escTextC c ++ acc) []⟩

def escAttrC (c : Char) : List Char :=
  if c = '&' then "&amp;".data
  else if c = '<' then "&lt;".data
  else if c = '>' then "&gt;".data
  else if c = '"' then "&quot;".data
  else [c]

def escAttr (s : String) : String :=
  ⟨s.data.foldr (fun c acc => escAttrC c ++ acc) []⟩

/-- The empty-element tags of bs4's `html.parser` tree builder. -/
def voidTags : List String :=
  ["area", "base", "br", "col", "embed", "hr", "img", "input", "keygen",
   "link", "menuitem", "meta", "param", "source", "track", "wbr"]

def renderAttrs (a : List (String × String)) : String :=
  a.foldl (fun acc kv => acc ++ " " ++ kv.1 ++ "=\"" ++ escAttr kv.2 ++ "\"") ""

mutual
def renderNode : Node → String
  | .elem t a cs =>
    if voidTags.contains t && cs.isEmpty then
      "<" ++ t ++ renderAttrs a ++ "/>"
    else
      "<" ++ t ++ renderAttrs a ++ ">"
        ++ (if t == "script" || t == "style" then renderRaw cs else renderForest cs)
        ++ "</" ++ t ++ ">"
  | .text s => escText s
  | .doctype d => "<!DOCTYPE " ++ d ++ ">"
def renderForest : List Node → String
  | [] => ""
  | n :: ns => renderNode n ++ renderForest ns
def renderRaw : List Node → String
  | [] => ""
  | .text s :: ns => s ++ renderRaw ns
  | n :: ns => renderNode n ++ renderRaw ns
end

namespace HtmlSanitizationService

/-- `'<!doctype html>'`, the pattern of step 11's case check. -/
def doctypePat : List Char := "<!doctype html>".data

/-- Step 11 (final assembly): `final_body = str(soup).strip()`; if it already
starts (case-insensitively) with `<!doctype html>` the casing is normalized,
else a canonical DOCTYPE line is prepended. -/
def renderDocL (F : List Node) : List Char :=
  let b := pyStripL (renderForest F).data
  if lowerL (b.take 15) = doctypePat then
    "<!DOCTYPE html>\n".data ++ pyStripL (b.drop 15)
  else
    "<!DOCTYPE html>\n".data ++ b

/-- `HtmlSanitizationService.sanitize`, from the parse tree of the raw input
(step 1) to the returned string. -/
def sanitize (F : List Node) : String := ⟨renderDocL (sanitizeSteps F)⟩

end HtmlSanitizationService

/-! ## `MetaPromptService.construct_prompt` (core/meta_prompt.py) -/

/-- Python's `str.title()` (ASCII letters, which is all the field names use):
the first letter after a non-letter is uppercased, subsequent letters
lowercased. -/
def pyTitleGo : List Char → Bool → List Char
  | [], _ => []
  | c :: cs, prevAlpha =>
    if c.isAlpha then
      (if prevAlpha then c.toLower else c.toUpper) :: pyTitleGo cs true
    else c :: pyTitleGo cs false

def pyTitle (s : String) : String := ⟨pyTitleGo s.data false⟩

/-- `s.replace('_', ' ')`. -/
def underscoreToSpace (s : String) : String :=
  ⟨s.data.map (fun c => if c = '_' then ' ' else c)⟩

/-- `str.lower()`. -/
def pyLower (s : String) : String := ⟨lowerL s.data⟩

/-- `d.get(k, dflt)` on an insertion-ordered string mapping. -/
def pyGet (d : List (String × String)) (k dflt : String) : String :=
  (((d.find? (fun kv => kv.1 == k)).map (fun kv => kv.2))).getD dflt

/-- The structured field-set handed to `construct_prompt`: `fields` is the
top-level insertion-ordered mapping with string values (Python truthiness of
a string value = non-emptiness); the nested `specific_fields` sub-mapping is
carried separately (in the source it lives under the top-level key
`'specific_fields'`, which the generic enumeration excludes by name). -/
structure UserData where
  fields : List (String × String)
  specific_fields : List (String × String)

namespace MetaPromptService

/-- `exclude_keys` of meta_prompt.py line 37 — note it contains
`specific_fields`, `visual_richness`, `ui_tier` but NOT `sub_type`. -/
def exclude_keys : List String :=
  ["occasion", "email", "theme", "title", "specific_fields", "visual_richness", "ui_tier"]

/-- The lines appended by the generic "Content Details" loop
(meta_prompt.py lines 39–42), in iteration (= insertion) order. -/
def contentLines (user_data : UserData) : List String :=
  user_data.fields.filterMap (fun kv =>
    if !(exclude_keys.contains kv.1) && kv.2 ≠ "" then
      some ("- " ++ pyTitle (underscoreToSpace kv.1) ++ ": " ++ kv.2)
    else none)

/-- The lines appended by the "Occasion-Specific Details" loop
(meta_prompt.py lines 48–51): empty values and the sentinel `'undefined'`
are skipped. -/
def specificLines (sf : List (String × String)) : List String :=
  sf.filterMap (fun kv =>
    if kv.2 ≠ "" && kv.2 ≠ "undefined" then
      some ("- " ++ pyTitle (underscoreToSpace kv.1) ++ ": " ++ kv.2)
    else none)

/-- The fixed header block of `prompt_parts` (meta_prompt.py lines 16–35),
parametrized by the derived header values. -/
def header_parts (occasion title theme visual_richness ui_tier : String) : List String :=
  [ "You are a professional web designer and frontend developer.",
      "Create a visually stunning, single-page " ++ occasion ++ " website.",
      "",
      "Page Title: " ++ title,
      "Design Theme: " ++ pyTitle theme,
      "Visual Richness Level: " ++ pyTitle visual_richness,
      "UI Quality Mode: " ++ pyTitle ui_tier,
      "",
      "### Design Contract (v1.7 Visual Harmony)",
      "- **Unlocked Expression**: You are ENCOURAGED to use expressive layouts, gradients (`bg-gradient-to-*`), and celebratory color combinations. Use ONLY official Tailwind colors (`pink`, `rose`, `purple`, `violet`, `yellow`, `amber`, `sky`, `blue`).",
      "- **Drama Permission**: The Hero and RSVP sections may ignore standard spacing and layout rules to create maximum visual impact and drama.",
      "- **Font Application (CRITICAL)**: If a custom font is used, import it via Google Fonts. Apply fonts using inline `style=\"font-family: \x27...\x27;\"` or valid Tailwind-compatible usage. PROHIBITED: inventing font utility classes.",
      "- **Image vs. Mood**: STRICT: NO `<img>` tags unless URLs are provided. The Visual/Centerpiece section must create MOOD using icons (recommended sizing), layered shapes, and color blocks—not just list icons.",
      "- **Content Safety**: NEVER output gibberish or \x27Lorem Ipsum\x27. Rewrite unclear text into a warm, meaningful message.",
      "- **Age Consistency**: Use an adult/elegant tone for milestones (e.g., 21st). Avoid childlike language unless for a small child.",
      "- **Technical**: Output ONLY valid HTML5 and Tailwind CSS. No JavaScript.",
      "",
      "### Content Details" ]

/-- The fixed trailer block appended by `prompt_parts.extend`
(meta_prompt.py lines 53–74). -/
def trailer_parts : List String :=
  [ "",
      "### v1.9 Emotional Narrative & Visual Rhythm",
      "- **Zero Hallucinated Utilities**: PROHIBITED: inventing font utility classes (e.g., NO `font-GreatVibes`). Use ONLY inline `style=\"font-family: \x27...\x27;\"` for script fonts imported via Google Fonts. All body text must use clean Sans-serif.",
      "- **Hero & Message Identity**: The Hero section must include an elegant, adult subtitle below the headline. The Special Message section must have its own identity (e.g., \x27A Note from the Family\x27) or a subtle unique icon, and use a soft, neutral background section to provide a visual break.",
      "- **Event Scannability**: Use a \x27Label: Value\x27 pattern for details. Visually differentiate by making Labels (e.g., Date:, Location:) slightly bolder or darker than the regular weight Values.",
      "- **Visual Storytelling**: Rewrite the Visual section framing to be deeply personal—reference names (e.g., Sarah), the surprise, or specific celebration energy. Group icons tightly or center-align vertically for impact.",
      "- **RSVP Urgency & CTA**: Strengthen the RSVP business goal with a short urgency cue below the primary CTA (e.g., \x27Please confirm by...\x27). Ensure the button is the unavoidable visual anchor.",
      "- **Color Rhythm & Softening**: Rebalance gradients by introducing soft neutral sections (off-white, light gray, or warm neutral) between high-energy blocks. This prevents color fatigue while maintaining vibrancy.",
      "- **Memorable Goodbye**: Rewrite the footer to sound like a warm, personal send-off that reinforces the celebration\x27s emotion, not just a polite closing.",
      "- **Accessibility & Contrast**: Ensure sufficient color contrast for yellow buttons and gradient text. Maintain professional-grade readability at all times.",
      "",
      "### Narrative Flow & Emotional Continuity",
      "- **Storytelling**: Every section must feel like the next chapter with smooth transitions.",
      "- **Emotional Goodbye**: The Footer must be a warm closing wave—thank the visitor and express anticipation.",
      "",
      "### Layout & Structural Alignment",
      "- **Order**: Hero -> Event Details -> Special Message -> Visual Section -> RSVP -> Footer.",
      "- Each block must appear EXACTLY once. Prohibit all repetitions.",
      "- Icons must be functional and placed beside/before the info they represent.",
      "- Ensure 100% responsiveness on all device sizes." ]

/-- The full `prompt_parts` list as assembled by `construct_prompt`. -/
def prompt_parts (user_data : UserData) : List String :=
  let occasion := pyTitle (underscoreToSpace (pyGet user_data.fields "occasion" "generic"))
  let title := pyGet user_data.fields "title" ""
  let theme := pyGet user_data.fields "theme" "modern"
  let visual_richness := pyGet user_data.fields "visual_richness" "medium"
  let ui_tier := pyGet user_data.fields "ui_tier"
    (if strContains (pyLower occasion) "birthday" then "festive" else "premium")
  header_parts occasion title theme visual_richness ui_tier
    ++ contentLines user_data
    ++ (if user_data.specific_fields ≠ [] then
          ["", "### Occasion-Specific Details"] ++ specificLines user_data.specific_fields
        else [])
    ++ trailer_parts

/-- `MetaPromptService.construct_prompt`: `'\n'.join(prompt_parts)`.
(`has_images` is computed in the source but never used, so it is omitted.) -/
def construct_prompt (user_data : UserData) : String :=
  String.intercalate "\n" (prompt_parts user_data)

end MetaPromptService

/-! ## `OpenRouterService` (core/services.py, lines 137–262) -/

/-- Index of the first occurrence of `pat` in `l`. -/
def findSubIdx (pat : List Char) : List Char → Option Nat
  | [] => if pat.isEmpty then some 0 else none
  | c :: rest =>
    if leadsWith pat (c :: rest) then some 0
    else (findSubIdx pat rest).map (· + 1)

/-- `re.sub(r'<think>.*?</think>', '', content, flags=re.DOTALL)`: each match
runs from a `<think>` to the nearest following `</think>`; scanning resumes
after the match.  Structural recursion via a fuel bounded by the length. -/
def removeThinkGo : Nat → List Char → List Char
  | 0, l => l
  | fuel + 1, l =>
    match findSubIdx "<think>".data l with
    | none => l
    | some i =>
      let after := l.drop (i + 7)
      match findSubIdx "</think>".data after with
      | none => l
      | some j => l.take i ++ removeThinkGo fuel (after.drop (j + 8))

namespace OpenRouterService

/-- `get_fallback_html(prompt)`: the literal f-string template of
services.py lines 238–262 — note the prompt is interpolated verbatim
(unescaped) into the document body. -/
def fallbackPre : String :=
  "\n<!DOCTYPE html>\n<html lang=\"en\">\n<head>\n    <meta charset=\"UTF-8\">\n    <meta name=\"viewport\" content=\"width=device-width, initial-scale=1.0\">\n    <title>Service Unavailable</title>\n    <script src=\"https://cdn.tailwindcss.com\"></script>\n</head>\n<body class=\"bg-slate-50 text-slate-900 flex items-center justify-center min-h-screen p-6\">\n    <div class=\"max-w-md w-full bg-white shadow-xl rounded-2xl p-8 border border-slate-200\">\n        <div class=\"text-red-500 mb-4\">\n            <svg class=\"h-12 w-12\" fill=\"none\" viewBox=\"0 0 24 24\" stroke=\"currentColor\">\n                <path stroke-linecap=\"round\" stroke-linejoin=\"round\" stroke-width=\"2\" d=\"M12 9v2m0 4h.01m-6.938 4h13.856c1.54 0 2.502-1.667 1.732-3L13.732 4c-.77-1.333-2.694-1.333-3.464 0L3.34 16c-.77 1.333.192 3 1.732 3z\" />\n            </svg>\n        </div>\n        <h1 class=\"text-2xl font-bold mb-2\">Service Temporarily Unavailable</h1>\n        <p class=\"text-slate-600 mb-6\">We couldn\x27t generate your page due to a technical issue with our AI provider. Please try again in a few minutes.</p>\n        <div class=\"bg-slate-100 p-4 rounded-lg text-sm font-mono text-slate-700 break-words\">\n            <strong>Your Prompt:</strong> "

def fallbackPost : String :=
  "\n        </div>\n    </div>\n</body>\n</html>\n"

def get_fallback_html (prompt : String) : String :=
  fallbackPre ++ prompt ++ fallbackPost

/-- The decoded `choices` portion of the provider's JSON body: either the
key is absent, or it is a list whose entries carry an optional
`message.content` string. -/
inductive ApiChoices where
  | missing
  | present (cs : List (Option String))

/-- Observable result of `requests.post` to the provider: a transport-level
exception, or a response with an HTTP status and a decoded body. -/
inductive ProviderResult where
  | transportError
  | response (status : Nat) (data : ApiChoices)

/-- The post-processing of a successful provider content string
(services.py lines 214–222): strip, drop `<think>` blocks, strip a
Markdown fence. -/
def postprocess (content : String) : String :=
  let c1 := pyStrip content
  let c2 := pyStrip ⟨removeThinkGo c1.data.length c1.data⟩
  let c3 := if pyStartsWith c2 "```html" then pyStrip ⟨c2.data.drop 7⟩ else c2
  if pyEndsWith c3 "```" then pyStrip ⟨c3.data.take (c3.data.length - 3)⟩ else c3

/-- `OpenRouterService.generate_html`, as a function of the provider call's
observable result.  The whole call is wrapped in `try/except Exception`, so a
transport error, a `raise_for_status` (status ≥ 400), a missing/empty
`choices` key and a missing `message.content` field all fall back; no
exception escapes.  (`page_type` is accepted but never interpolated by the
source; the request payload itself is not modelled as no claim touches it.) -/
def generate_html (prompt _page_type _theme : String) (pr : ProviderResult) : String :=
  match pr with
  | .transportError => get_fallback_html prompt
  | .response status data =>
    if status ≥ 400 then get_fallback_html prompt
    else
      match data with
      | .missing => get_fallback_html prompt
      | .present [] => get_fallback_html prompt
      | .present (none :: _) => get_fallback_html prompt
      | .present (some content :: _) => postprocess content

end OpenRouterService

/-! ## `GenericPageService.generate_page` (core/services.py, lines 17–97)

The three sub-services invoked inside an attempt are abstracted as oracles:
`gen k` is the string `OpenRouterService.generate_html` returns on attempt
`k` (it is total — the source catches every exception and falls back);
`san` is `HtmlSanitizationService.sanitize` (deterministic, but allowed to
raise, which models a parser failure); `ver k` is
`CdnVerificationService.verify_links` on attempt `k` (network-dependent,
returning the broken-link list, or raising). -/

structure AttemptEnv where
  gen : Nat → String
  san : String → Except Unit String
  ver : Nat → String → Except Unit (List String)

/-- One iteration of the retry loop's body up to the verification result:
generate, sanitize, verify (an `Except.error` is a raised exception). -/
def attemptResult (env : AttemptEnv) (k : Nat) : Except Unit (String × List String) :=
  match env.san (env.gen k) with
  | .error e => .error e
  | .ok clean =>
    match env.ver k clean with
    | .error e => .error e
    | .ok links => .ok (clean, links)

/-- The persisted row (the fields `Page.objects.create` receives that the
claims are about; timestamps/metadata are out of scope). -/
structure Page where
  email : String
  prompt : String
  page_type : String
  theme : String
  html_content : String
deriving Repr, DecidableEq

inductive RunError where
  | promptTooLong   -- the ValueError of line 42 (its message misquotes the limit as 7000)
  | attemptFailure  -- an exception re-raised from the final attempt (line 78)
deriving Repr, DecidableEq

structure RunResult where
  outcome : Except RunError Page
  attempts : Nat       -- loop iterations entered
  providerCalls : Nat  -- invocations of OpenRouterService.generate_html
deriving Repr

/-- The `for attempt in range(max_retries)` loop: `k` is the current attempt
index, `fuel` the number of iterations still available (`fuel = 1` ⟺ this is
the last attempt, where line 71's check fires and line 78 re-raises).
Returns the outcome together with the number of iterations entered. -/
def loopGo (env : AttemptEnv) : Nat → Nat → Except Unit String × Nat
  | _, 0 => (.error (), 0)
  | k, 1 =>
    match attemptResult env k with
    | .error e => (.error e, 1)
    | .ok (clean, _links) => (.ok clean, 1)
  | k, fuel + 2 =>
    match attemptResult env k with
    | .error _ =>
      let (r, m) := loopGo env (k + 1) (fuel + 1)
      (r, m + 1)
    | .ok (clean, links) =>
      if links = [] then (.ok clean, 1)
      else
        let (r, m) := loopGo env (k + 1) (fuel + 1)
        (r, m + 1)

namespace GenericPageService

/-- `GenericPageService.generate_page`.  Validation: if structured data is
present the prompt is recompiled from it, then the length ceiling is checked
before anything else runs.  Each loop iteration performs exactly one
`generate_html` call, so `providerCalls = attempts`. -/
def generate_page (email prompt page_type theme : String)
    (user_data : Option UserData) (env : AttemptEnv) : RunResult :=
  let prompt :=
    match user_data with
    | some d => MetaPromptService.construct_prompt d
    | none => prompt
  if prompt.length > 70000 then
    { outcome := .error .promptTooLong, attempts := 0, providerCalls := 0 }
  else
    match loopGo env 0 3 with
    | (.error _, m) => { outcome := .error .attemptFailure, attempts := m, providerCalls := m }
    | (.ok clean, m) =>
      { outcome := .ok { email := email, prompt := prompt, page_type := page_type,
                         theme := theme, html_content := clean },
        attempts := m, providerCalls := m }

end GenericPageService

/-! ## Re-parsing a sanitized output (the second pass of the idempotence
claim)

`sanitize` returns `"<!DOCTYPE html>\n" ++ rest` where `rest` is the
stripped serialization of the sanitized tree, with one leading
`<!doctype html>` (case-insensitive) removed if present.  Feeding that
string back through step 1 (bs4's `html.parser`) therefore yields a
`Doctype` node, a newline text node, and the parse of `rest`.  Because
serialization entity-escapes text and quotes attributes, parsing a
serialized tree returns the same tree, except that (a) the leading
whitespace/DOCTYPE trimming performed at string level is reflected at tree
level by `dropLead` below, and (b) whitespace-only discrepancies: a
partially-stripped leading text node and the merging of adjacent text
nodes, neither of which the tree pipeline or whitespace-insensitive
comparison can observe. -/

/-- Drop leading whitespace-only text nodes (tree counterpart of the left
part of `str.strip()` on the serialization). -/
def dropLeadWs : List Node → List Node
  | .text s :: ns => if s.data.all isPyWs then dropLeadWs ns else .text s :: ns
  | F => F

/-- Drop one leading `Doctype` node when it renders (case-insensitively) as
`<!DOCTYPE html>` — the tree counterpart of step 11's 15-character cut. -/
def dropDoc : List Node → List Node
  | .doctype d :: ns => if lowerL d.data = "html".data then ns else .doctype d :: ns
  | F => F

def dropLead (F : List Node) : List Node := dropLeadWs (dropDoc (dropLeadWs F))

/-- The parse tree of `HtmlSanitizationService.sanitize F` (see the module
comment above). -/
def reparseOutput (F : List Node) : List Node :=
  .doctype "html" :: .text "\n" :: dropLead (HtmlSanitizationService.sanitizeSteps F)

/-- Equality of strings after erasing every (Python) whitespace character —
the "equal up to whitespace" of the specification. -/
def eqUpToWs (s₁ s₂ : String) : Prop :=
  s₁.data.filter (fun c => !isPyWs c) = s₂.data.filter (fun c => !isPyWs c)

instance (s₁ s₂ : String) : Decidable (eqUpToWs s₁ s₂) := by
  unfold eqUpToWs; infer_instance

/-! ## Orchestrator lemmas and claims C3–C6 -/

/-- Attempt `j` does not break out of the retry loop: it either raises or
verifies with a non-empty broken-link list. -/
def noBreak (env : AttemptEnv) (j : Nat) : Prop :=
  match attemptResult env j with
  | .error _ => True
  | .ok (_, links) => links ≠ []

theorem loopGo_ok_sanitized (env : AttemptEnv) :
    ∀ fuel k clean m, loopGo env k fuel = (.ok clean, m) →
      ∃ j, k ≤ j ∧ j < k + fuel ∧ ∃ links, attemptResult env j = .ok (clean, links)
  | 0, k, clean, m => by simp [loopGo]
  | 1, k, clean, m => by
    match h : attemptResult env k with
    | .error e => simp [loopGo, h]
    | .ok (c, ls) =>
      simp only [loopGo, h, Prod.mk.injEq, Except.ok.injEq]
      rintro ⟨rfl, rfl⟩
      exact ⟨k, le_refl k, by omega, ls, h⟩
  | fuel + 2, k, clean, m => by
    match h : attemptResult env k with
    | .error e =>
      rcases hrec : loopGo env (k + 1) (fuel + 1) with ⟨r', m'⟩
      simp only [loopGo, h, hrec, Prod.mk.injEq]
      rintro ⟨rfl, rfl⟩
      obtain ⟨j, h1, h2, links, h3⟩ :=
        loopGo_ok_sanitized env (fuel + 1) (k + 1) clean m' hrec
      exact ⟨j, by omega, by omega, links, h3⟩
    | .ok (c, ls) =>
      by_cases hls : ls = []
      · simp only [loopGo, h, hls, if_pos rfl, Prod.mk.injEq, Except.ok.injEq]
        rintro ⟨rfl, rfl⟩
        exact ⟨k, le_refl k, by omega, [], by simpa [hls] using h⟩
      · rcases hrec : loopGo env (k + 1) (fuel + 1) with ⟨r', m'⟩
        simp only [loopGo, h, hrec, if_neg hls, Prod.mk.injEq]
        rintro ⟨rfl, rfl⟩
        obtain ⟨j, h1, h2, links, h3⟩ :=
          loopGo_ok_sanitized env (fuel + 1) (k + 1) clean m' hrec
        exact ⟨j, by omega, by omega, links, h3⟩

theorem loopGo_attempt_bounds (env : AttemptEnv) :
    ∀ fuel k, 0 < fuel → 1 ≤ (loopGo env k fuel).2 ∧ (loopGo env k fuel).2 ≤ fuel
  | 0, k => by omega
  | 1, k => by
    intro _
    match h : attemptResult env k with
    | .error e => simp [loopGo, h]
    | .ok (c, ls) => simp [loopGo, h]
  | fuel + 2, k => by
    intro _
    have ih := loopGo_attempt_bounds env (fuel + 1) (k + 1) (by omega)
    match h : attemptResult env k with
    | .error e =>
      rcases hrec : loopGo env (k + 1) (fuel + 1) with ⟨r', m'⟩
      rw [hrec] at ih
      simp [loopGo, h, hrec]
      omega
    | .ok (c, ls) =>
      by_cases hls : ls = []
      · simp [loopGo, h, hls]
      · rcases hrec : loopGo env (k + 1) (fuel + 1) with ⟨r', m'⟩
        rw [hrec] at ih
        simp [loopGo, h, hls, hrec]
        omega

theorem attemptResult_ok_san (env : AttemptEnv) (j : Nat) (c : String) (ls : List String)
    (h : attemptResult env j = .ok (c, ls)) : env.san (env.gen j) = .ok c := by
  unfold attemptResult at h
  match hs : env.san (env.gen j) with
  | .error e => simp [hs] at h
  | .ok c' =>
    match hv : env.ver j c' with
    | .error e => simp [hs, hv] at h
    | .ok ls' =>
      simp only [hs, hv, Except.ok.injEq, Prod.mk.injEq] at h
      simp [h.1]

/-- C3: whenever `generate_page` persists a page, its `html_content` is
exactly the sanitizer's output on the raw artifact generated in one of this
execution's attempts — no path stores a raw artifact that did not pass
through `sanitize`. -/
theorem C3_persisted_html_is_sanitizer_output
    (email prompt page_type theme : String) (ud : Option UserData)
    (env : AttemptEnv) (page : Page)
    (h : (GenericPageService.generate_page email prompt page_type theme ud env).outcome
          = .ok page) :
    ∃ k, k < 3 ∧ env.san (env.gen k) = .ok page.html_content := by
  unfold GenericPageService.generate_page at h
  by_cases hlen :
      (match ud with
        | some d => MetaPromptService.construct_prompt d
        | none => prompt).length > 70000
  · rw [if_pos hlen] at h
    exact absurd h (by simp)
  · rw [if_neg hlen] at h
    rcases hl : loopGo env 0 3 with ⟨r, m⟩
    rw [hl] at h
    cases r with
    | error e => simp at h
    | ok clean =>
      simp only [Except.ok.injEq] at h
      obtain ⟨j, _, hj, links, hat⟩ := loopGo_ok_sanitized env 3 0 clean m hl
      refine ⟨j, by omega, ?_⟩
      rw [← h]
      exact attemptResult_ok_san env j clean links hat

def envC3w : AttemptEnv :=
  ⟨fun _ => "raw", fun s => .ok ("S:" ++ s), fun _ _ => .ok []⟩

def pageC3w : Page :=
  { email := "e", prompt := "p", page_type := "t", theme := "th", html_content := "S:raw" }

theorem C3_witness :
    ∃ k, k < 3 ∧ envC3w.san (envC3w.gen k) = .ok pageC3w.html_content :=
  C3_persisted_html_is_sanitizer_output "e" "p" "t" "th" none envC3w pageC3w (by rfl)

/-- C5: whenever the compiled prompt (recompiled from the structured
field-set when one is supplied) exceeds 70000 characters, `generate_page`
rejects the input before doing anything else: the outcome is the
input-rejection error, zero attempts are entered and the generation client
is invoked zero times. -/
theorem C5_overlong_prompt_rejected_before_any_call
    (email prompt page_type theme : String) (ud : Option UserData) (env : AttemptEnv)
    (h : (match ud with
          | some d => MetaPromptService.construct_prompt d
          | none => prompt).length > 70000) :
    GenericPageService.generate_page email prompt page_type theme ud env
      = { outcome := .error .promptTooLong, attempts := 0, providerCalls := 0 } := by
  unfold GenericPageService.generate_page
  simp only [h, if_pos]

def longPromptW : String := ⟨List.replicate 70001 'a'⟩

theorem C5_witness :
    GenericPageService.generate_page "e" longPromptW "t" "th" none envC3w
      = { outcome := .error .promptTooLong, attempts := 0, providerCalls := 0 } :=
  C5_overlong_prompt_rejected_before_any_call "e" longPromptW "t" "th" none envC3w
    (by show (List.replicate 70001 'a').length > 70000
        rw [List.length_replicate]
        omega)

/-- C4: under a valid prompt, the retry loop runs between 1 and 3
Generate→Sanitize→Verify cycles; the first cycle whose verification returns
an empty broken-link list ends the loop immediately with that cycle's
sanitized artifact persisted; and when every preceding attempt fails to
break while the final attempt verifies with a non-empty list, the final
attempt's sanitized artifact is persisted anyway after exactly 3 cycles. -/
theorem C4_bounded_retry_policy
    (email prompt page_type theme : String) (ud : Option UserData) (env : AttemptEnv)
    (hlen : ¬ (match ud with
               | some d => MetaPromptService.construct_prompt d
               | none => prompt).length > 70000) :
    (1 ≤ (GenericPageService.generate_page email prompt page_type theme ud env).attempts ∧
      (GenericPageService.generate_page email prompt page_type theme ud env).attempts ≤ 3) ∧
    (∀ k c, k < 3 → (∀ j, j < k → noBreak env j) → attemptResult env k = .ok (c, []) →
      (GenericPageService.generate_page email prompt page_type theme ud env).attempts = k + 1 ∧
      ∃ page, (GenericPageService.generate_page email prompt page_type theme ud env).outcome
            = .ok page ∧ page.html_content = c) ∧
    (noBreak env 0 → noBreak env 1 → ∀ c ls, attemptResult env 2 = .ok (c, ls) → ls ≠ [] →
      (GenericPageService.generate_page email prompt page_type theme ud env).attempts = 3 ∧
      ∃ page, (GenericPageService.generate_page email prompt page_type theme ud env).outcome
            = .ok page ∧ page.html_content = c) := by
  unfold GenericPageService.generate_page
  rw [if_neg hlen]
  refine ⟨?_, ?_, ?_⟩
  · have hb := loopGo_attempt_bounds env 3 0 (by omega)
    rcases hl : loopGo env 0 3 with ⟨r, m⟩
    rw [hl] at hb
    cases r <;> simp <;> omega
  · intro k c hk hprev hres
    interval_cases k
    · simp [loopGo, hres]
    · have h0 := hprev 0 (by omega)
      unfold noBreak at h0
      match h0r : attemptResult env 0 with
      | .error e => rw [h0r] at h0; simp [loopGo, h0r, hres]
      | .ok (c0, ls0) =>
        rw [h0r] at h0
        simp [loopGo, h0r, h0, hres]
    · have h0 := hprev 0 (by omega)
      have h1 := hprev 1 (by omega)
      unfold noBreak at h0 h1
      match h0r : attemptResult env 0 with
      | .error e =>
        match h1r : attemptResult env 1 with
        | .error e' => simp [loopGo, h0r, h1r, hres]
        | .ok (c1, ls1) =>
          rw [h1r] at h1
          simp [loopGo, h0r, h1r, h1, hres]
      | .ok (c0, ls0) =>
        rw [h0r] at h0
        match h1r : attemptResult env 1 with
        | .error e' => simp [loopGo, h0r, h0, h1r, hres]
        | .ok (c1, ls1) =>
          rw [h1r] at h1
          simp [loopGo, h0r, h0, h1r, h1, hres]
  · intro h0 h1 c ls hres hls
    unfold noBreak at h0 h1
    match h0r : attemptResult env 0 with
    | .error e =>
      match h1r : attemptResult env 1 with
      | .error e' => simp [loopGo, h0r, h1r, hres]
      | .ok (c1, ls1) =>
        rw [h1r] at h1
        simp [loopGo, h0r, h1r, h1, hres]
    | .ok (c0, ls0) =>
      rw [h0r] at h0
      match h1r : attemptResult env 1 with
      | .error e' => simp [loopGo, h0r, h0, h1r, hres]
      | .ok (c1, ls1) =>
        rw [h1r] at h1
        simp [loopGo, h0r, h0, h1r, h1, hres]

theorem C4_witness :
    (GenericPageService.generate_page "e" "p" "t" "th" none envC3w).attempts = 0 + 1 ∧
    ∃ page, (GenericPageService.generate_page "e" "p" "t" "th" none envC3w).outcome = .ok page ∧
      page.html_content = "S:raw" :=
  (C4_bounded_retry_policy "e" "p" "t" "th" none envC3w (by decide)).2.1 0 "S:raw"
    (by omega) (fun j hj => absurd hj (by omega)) (by rfl)

/-- An environment whose sanitizer raises on every attempt. -/
def envSanFails : AttemptEnv :=
  ⟨fun _ => "raw", fun _ => .error (), fun _ _ => .ok []⟩

/-- C6 counterexample: with a valid-length prompt, a sanitizer exception on
every attempt propagates out of `generate_page` (line 78 re-raises on the
final attempt), so the input-rejection error is not the only condition
`generate_page` can raise. -/
theorem C6_counterexample :
    (GenericPageService.generate_page "e" "p" "t" "th" none envSanFails).outcome
        = .error .attemptFailure ∧
    ¬ ("p".length > 70000) := by
  constructor
  · rfl
  · decide

/-- C6 amended: with a valid-length prompt, exceptions raised inside
non-final attempts are swallowed and retried, but an exception on the third
(final) attempt propagates to the caller; precisely, `generate_page` raises
iff neither of the first two attempts breaks the loop and the final attempt
raises.  (When nothing propagates, the outcome is a persisted page.) -/
theorem C6_final_attempt_exception_propagates
    (email prompt page_type theme : String) (ud : Option UserData) (env : AttemptEnv)
    (hlen : ¬ (match ud with
               | some d => MetaPromptService.construct_prompt d
               | none => prompt).length > 70000) :
    ((GenericPageService.generate_page email prompt page_type theme ud env).outcome
        = .error .attemptFailure
      ↔ (noBreak env 0 ∧ noBreak env 1 ∧ attemptResult env 2 = .error ())) ∧
    (GenericPageService.generate_page email prompt page_type theme ud env).outcome
        ≠ .error .promptTooLong := by
  unfold GenericPageService.generate_page
  rw [if_neg hlen]
  unfold noBreak
  match h0r : attemptResult env 0 with
  | .error e =>
    match h1r : attemptResult env 1 with
    | .error e' =>
      match h2r : attemptResult env 2 with
      | .error e'' => simp [loopGo, h0r, h1r, h2r]
      | .ok (c2, ls2) => simp [loopGo, h0r, h1r, h2r]
    | .ok (c1, ls1) =>
      by_cases h1 : ls1 = []
      · simp [loopGo, h0r, h1r, h1]
      · match h2r : attemptResult env 2 with
        | .error e'' => simp [loopGo, h0r, h1r, h1, h2r]
        | .ok (c2, ls2) => simp [loopGo, h0r, h1r, h1, h2r]
  | .ok (c0, ls0) =>
    by_cases h0 : ls0 = []
    · simp [loopGo, h0r, h0]
    · match h1r : attemptResult env 1 with
      | .error e' =>
        match h2r : attemptResult env 2 with
        | .error e'' => simp [loopGo, h0r, h0, h1r, h2r]
        | .ok (c2, ls2) => simp [loopGo, h0r, h0, h1r, h2r]
      | .ok (c1, ls1) =>
        by_cases h1 : ls1 = []
        · simp [loopGo, h0r, h0, h1r, h1]
        · match h2r : attemptResult env 2 with
          | .error e'' => simp [loopGo, h0r, h0, h1r, h1, h2r]
          | .ok (c2, ls2) => simp [loopGo, h0r, h0, h1r, h1, h2r]

theorem C6_amended_witness :
    ((GenericPageService.generate_page "e" "p" "t" "th" none envSanFails).outcome
        = .error .attemptFailure
      ↔ (noBreak envSanFails 0 ∧ noBreak envSanFails 1 ∧
          attemptResult envSanFails 2 = .error ())) ∧
    (GenericPageService.generate_page "e" "p" "t" "th" none envSanFails).outcome
        ≠ .error .promptTooLong :=
  C6_final_attempt_exception_propagates "e" "p" "t" "th" none envSanFails (by decide)

/-! ## Claim C10: the "Content Details" enumeration -/

/-- The reserved-key list the claim asserts (spec §3): occasion, theme,
title, email, sub_type.  Modelled from the claim's words, to be compared
with the source's `exclude_keys`. -/
def claimReservedKeys : List String := ["occasion", "theme", "title", "email", "sub_type"]

/-- The "Content Details" enumeration as the claim describes it: exactly the
top-level fields outside `claimReservedKeys` with non-empty values, rendered
human-readably, in insertion order. -/
def claimContentLines (d : UserData) : List String :=
  d.fields.filterMap (fun kv =>
    if !(claimReservedKeys.contains kv.1) && kv.2 ≠ "" then
      some ("- " ++ pyTitle (underscoreToSpace kv.1) ++ ": " ++ kv.2)
    else none)

/-- C10 counterexample: the source's exclusion list differs from the claim's
reserved-key list in both directions — a `sub_type` field IS enumerated by
the code (the claim says it is excluded), while `visual_richness` (likewise
`ui_tier`) is excluded by the code (the claim's reserved list omits it). -/
theorem C10_counterexample :
    MetaPromptService.contentLines ⟨[("sub_type", "Wish")], []⟩ = ["- Sub Type: Wish"] ∧
    claimContentLines ⟨[("sub_type", "Wish")], []⟩ = [] ∧
    MetaPromptService.contentLines ⟨[("visual_richness", "high")], []⟩ = [] ∧
    claimContentLines ⟨[("visual_richness", "high")], []⟩ = ["- Visual Richness: high"] ∧
    strContains (MetaPromptService.construct_prompt ⟨[("sub_type", "Wish")], []⟩)
      "- Sub Type: Wish" = true := by
  refine ⟨by decide, by decide, by decide, by decide, by decide⟩

theorem filterMap_sublist_map {α β : Type} (f : α → Option β) (g : α → β)
    (hfg : ∀ x y, f x = some y → y = g x) :
    ∀ l : List α, (l.filterMap f).Sublist (l.map g)
  | [] => by simp
  | x :: l => by
    rw [List.filterMap_cons, List.map_cons]
    match hx : f x with
    | none => exact (filterMap_sublist_map f g hfg l).cons (g x)
    | some y =>
      rw [hfg x y hx]
      exact (filterMap_sublist_map f g hfg l).cons₂ (g x)

/-- C10 amended: the "Content Details" block enumerates exactly the
top-level fields with non-empty values whose key is outside the source's
exclusion list — which is `occasion, email, theme, title, specific_fields,
visual_richness, ui_tier` and does NOT contain `sub_type` — rendering each
key human-readably (underscores→spaces, title-cased) in insertion order
(the block is order-preserving on the field list); and the
"Occasion-Specific Details" block enumerates the nested sub-mapping's
entries, skipping empty values and the sentinel `'undefined'`, in insertion
order. -/
theorem C10_content_details_enumeration (d : UserData) :
    (∀ k v, (k, v) ∈ d.fields → k ∉ MetaPromptService.exclude_keys → v ≠ "" →
      ("- " ++ pyTitle (underscoreToSpace k) ++ ": " ++ v) ∈ MetaPromptService.contentLines d) ∧
    (∀ line ∈ MetaPromptService.contentLines d, ∃ kv, kv ∈ d.fields ∧
      kv.1 ∉ MetaPromptService.exclude_keys ∧ kv.2 ≠ "" ∧
      line = "- " ++ pyTitle (underscoreToSpace kv.1) ++ ": " ++ kv.2) ∧
    (MetaPromptService.contentLines d).Sublist
      (d.fields.map (fun kv => "- " ++ pyTitle (underscoreToSpace kv.1) ++ ": " ++ kv.2)) ∧
    ("sub_type" ∉ MetaPromptService.exclude_keys ∧
      "visual_richness" ∈ MetaPromptService.exclude_keys ∧
      "ui_tier" ∈ MetaPromptService.exclude_keys ∧
      "specific_fields" ∈ MetaPromptService.exclude_keys) ∧
    (∀ k v, (k, v) ∈ d.specific_fields → v ≠ "" → v ≠ "undefined" →
      ("- " ++ pyTitle (underscoreToSpace k) ++ ": " ++ v)
        ∈ MetaPromptService.specificLines d.specific_fields) ∧
    (∀ line ∈ MetaPromptService.specificLines d.specific_fields, ∃ kv,
      kv ∈ d.specific_fields ∧ kv.2 ≠ "" ∧ kv.2 ≠ "undefined" ∧
      line = "- " ++ pyTitle (underscoreToSpace kv.1) ++ ": " ++ kv.2) ∧
    (MetaPromptService.specificLines d.specific_fields).Sublist
      (d.specific_fields.map (fun kv => "- " ++ pyTitle (underscoreToSpace kv.1) ++ ": " ++ kv.2)) := by
  refine ⟨?_, ?_, ?_, ⟨by decide, by decide, by decide, by decide⟩, ?_, ?_, ?_⟩
  · intro k v hmem hexcl hv
    refine List.mem_filterMap.mpr ⟨(k, v), hmem, ?_⟩
    simp [hexcl, hv]
  · intro line hline
    obtain ⟨kv, hkv, hf⟩ := List.mem_filterMap.mp hline
    simp only [Option.ite_none_right_eq_some, Option.some.injEq, Bool.and_eq_true,
      Bool.not_eq_true', decide_eq_true_eq] at hf
    exact ⟨kv, hkv, by simpa using hf.1.1, hf.1.2, hf.2.symm⟩
  · refine filterMap_sublist_map _ _ (fun kv y h => ?_) _
    by_cases hc : (!MetaPromptService.exclude_keys.contains kv.1 && decide (kv.2 ≠ "")) = true
    · rw [if_pos hc] at h
      exact (Option.some.injEq _ _ ▸ h).symm
    · rw [if_neg hc] at h
      exact absurd h (by simp)
  · intro k v hmem hv hu
    exact List.mem_filterMap.mpr ⟨(k, v), hmem, by simp [hv, hu]⟩
  · intro line hline
    obtain ⟨kv, hkv, hf⟩ := List.mem_filterMap.mp hline
    simp only [Option.ite_none_right_eq_some, Option.some.injEq, Bool.and_eq_true,
      decide_eq_true_eq] at hf
    exact ⟨kv, hkv, hf.1.1, hf.1.2, hf.2.symm⟩
  · refine filterMap_sublist_map _ _ (fun kv y h => ?_) _
    by_cases hc : (decide (kv.2 ≠ "") && decide (kv.2 ≠ "undefined")) = true
    · rw [if_pos hc] at h
      exact (Option.some.injEq _ _ ▸ h).symm
    · rw [if_neg hc] at h
      exact absurd h (by simp)

theorem C10_witness :
    ("- Sub Type: Wish") ∈ MetaPromptService.contentLines ⟨[("sub_type", "Wish")], []⟩ :=
  (C10_content_details_enumeration ⟨[("sub_type", "Wish")], []⟩).1 "sub_type" "Wish"
    (by simp) (by decide) (by decide)

/-! ## Claim C8: the fallback document -/

theorem leadsWith_self_append : ∀ m b : List Char, leadsWith m (m ++ b) = true
  | [], _ => rfl
  | c :: ms, b => by simp [leadsWith, leadsWith_self_append ms b]

theorem leadsWith_append_of : ∀ pat l b : List Char,
    leadsWith pat l = true → leadsWith pat (l ++ b) = true
  | [], _, _ => by simp [leadsWith]
  | _ :: _, [], _ => by simp [leadsWith]
  | p :: ps, c :: cs, b => by
    simp only [leadsWith, List.cons_append, Bool.and_eq_true, beq_iff_eq]
    exact fun ⟨h1, h2⟩ => ⟨h1, leadsWith_append_of ps cs b h2⟩

theorem containsL_self_append : ∀ m b : List Char, containsL m (m ++ b) = true
  | [], b => by cases b <;> simp [containsL, leadsWith]
  | c :: ms, b => by
    simp only [containsL, List.cons_append, Bool.or_eq_true]
    exact Or.inl (by simpa using leadsWith_self_append (c :: ms) b)

theorem containsL_append_left : ∀ (pat a b : List Char),
    containsL pat a = true → containsL pat (a ++ b) = true
  | pat, [], b => by
    intro h
    cases pat with
    | nil => cases b <;> simp [containsL, leadsWith]
    | cons p ps => simp [containsL] at h
  | pat, c :: as, b => by
    simp only [containsL, List.cons_append, Bool.or_eq_true]
    rintro (h | h)
    · exact Or.inl (by simpa using leadsWith_append_of pat (c :: as) b (by simpa using h))
    · exact Or.inr (containsL_append_left pat as b h)

theorem containsL_append_right : ∀ (pat a b : List Char),
    containsL pat b = true → containsL pat (a ++ b) = true
  | pat, [], b => fun h => h
  | pat, c :: as, b => fun h => by
    simp only [containsL, List.cons_append, Bool.or_eq_true]
    exact Or.inr (containsL_append_right pat as b h)

namespace OpenRouterService

/-- The parse tree of `get_fallback_html prompt`, where `frag` stands for the
nodes the prompt text parses into at its interpolation point (the prompt is
spliced verbatim, so markup inside it becomes real nodes).  Whitespace-only
inter-tag text nodes are elided (no claim observes them), and `html.parser`
lowercases attribute names (`viewBox` → `viewbox`). -/
def fallbackParsed (frag : List Node) : List Node :=
  [.doctype "html",
   .elem "html" [("lang", "en")] [
     .elem "head" [] [
       .elem "meta" [("charset", "UTF-8")] [],
       .elem "meta" [("name", "viewport"), ("content", "width=device-width, initial-scale=1.0")] [],
       .elem "title" [] [.text "Service Unavailable"],
       .elem "script" [("src", "https://cdn.tailwindcss.com")] []],
     .elem "body" [("class", "bg-slate-50 text-slate-900 flex items-center justify-center min-h-screen p-6")] [
       .elem "div" [("class", "max-w-md w-full bg-white shadow-xl rounded-2xl p-8 border border-slate-200")] [
         .elem "div" [("class", "text-red-500 mb-4")] [
           .elem "svg" [("class", "h-12 w-12"), ("fill", "none"), ("viewbox", "0 0 24 24"), ("stroke", "currentColor")] [
             .elem "path" [("stroke-linecap", "round"), ("stroke-linejoin", "round"), ("stroke-width", "2"), ("d", "M12 9v2m0 4h.01m-6.938 4h13.856c1.54 0 2.502-1.667 1.732-3L13.732 4c-.77-1.333-2.694-1.333-3.464 0L3.34 16c-.77 1.333.192 3 1.732 3z")] []]],
         .elem "h1" [("class", "text-2xl font-bold mb-2")] [.text "Service Temporarily Unavailable"],
         .elem "p" [("class", "text-slate-600 mb-6")] [.text "We couldn\x27t generate your page due to a technical issue with our AI provider. Please try again in a few minutes."],
         .elem "div" [("class", "bg-slate-100 p-4 rounded-lg text-sm font-mono text-slate-700 break-words")]
           (.elem "strong" [] [.text "Your Prompt:"] :: .text " " :: frag)]]]]

/-- The provider-call outcomes the spec groups as failures: transport error,
non-success status, or a response missing the expected content field. -/
def providerFailed : ProviderResult → Prop
  | .transportError => True
  | .response st data =>
    st ≥ 400 ∨ data = .missing ∨ data = .present [] ∨ ∃ rest, data = .present (none :: rest)

end OpenRouterService

/-- The `SanitizedArtifact` security contract, modelled from the spec's §3:
(1) a document-type declaration up front, (2) exactly one head element
carrying charset and viewport declarations, (3) exactly one inclusion of the
styling-framework resource, (4) no inline event-handler attributes, no
script outside the allow-list (inline scripts, whose `src` reads as `''`,
can never match), and no style blocks. -/
def specSanitizedContractB (F : List Node) : Bool :=
  (match dropLeadWs F with
   | .doctype _ :: _ => true
   | _ => false) &&
  (countNodes HtmlSanitizationService.isHeadTag F = 1) &&
  (match findNode HtmlSanitizationService.isHeadTag F with
   | some h => countNodes HtmlSanitizationService.isCharsetMeta [h] ≥ 1 &&
               countNodes HtmlSanitizationService.isViewportMeta [h] ≥ 1
   | none => false) &&
  (countNodes HtmlSanitizationService.isTwScript F = 1) &&
  allNodes (fun n => (HtmlSanitizationService.attrsOf n).all
    (fun kv => !(pyStartsWith kv.1 "on"))) F &&
  allNodes (fun n => !(HtmlSanitizationService.isScriptTag n) ||
    HtmlSanitizationService.ALLOWED_SCRIPTS.any
      (fun a => strContains (HtmlSanitizationService.srcOf n) a)) F &&
  allNodes (fun n => !(HtmlSanitizationService.isStyleTag n)) F

/-- The nodes a plain-text prompt parses into: text only. -/
def textOnly (F : List Node) : Prop := ∀ n ∈ F, ∃ s, n = .text s

theorem filterForest_textOnly (q : Node → Bool) (hq : ∀ s, q (.text s) = false) :
    ∀ F, textOnly F → filterForest q F = F
  | [], _ => rfl
  | n :: ns, h => by
    obtain ⟨s, rfl⟩ := h n (by simp)
    have := filterForest_textOnly q hq ns (fun m hm => h m (by simp [hm]))
    simp [filterForest, filterTree, hq s, this]

theorem stripOnForest_textOnly :
    ∀ F, textOnly F → HtmlSanitizationService.stripOnForest F = F
  | [], _ => rfl
  | n :: ns, h => by
    obtain ⟨s, rfl⟩ := h n (by simp)
    have := stripOnForest_textOnly ns (fun m hm => h m (by simp [hm]))
    simp [HtmlSanitizationService.stripOnForest, HtmlSanitizationService.stripOnNode, this]

theorem findNode_textOnly (p : Node → Bool) (hp : ∀ s, p (.text s) = false) :
    ∀ F, textOnly F → findNode p F = none
  | [], _ => rfl
  | n :: ns, h => by
    obtain ⟨s, rfl⟩ := h n (by simp)
    have := findNode_textOnly p hp ns (fun m hm => h m (by simp [hm]))
    simp [findNode, findIn, hp s, this]

theorem findAllNodes_textOnly (p : Node → Bool) (hp : ∀ s, p (.text s) = false) :
    ∀ F, textOnly F → findAllNodes p F = []
  | [], _ => rfl
  | n :: ns, h => by
    obtain ⟨s, rfl⟩ := h n (by simp)
    have := findAllNodes_textOnly p hp ns (fun m hm => h m (by simp [hm]))
    simp [findAllNodes, findAllIn, hp s, this]

theorem allNodes_textOnly (p : Node → Bool) (hp : ∀ s, p (.text s) = true) :
    ∀ F, textOnly F → allNodes p F = true
  | [], _ => rfl
  | n :: ns, h => by
    obtain ⟨s, rfl⟩ := h n (by simp)
    have := allNodes_textOnly p hp ns (fun m hm => h m (by simp [hm]))
    simp [allNodes, allIn, hp s, this]

/-- C8 counterexample: the fallback document is NOT sanitized-by-construction
for every prompt — the prompt is interpolated verbatim, so a script-bearing
prompt puts an inline script into the document: the document's text contains
the raw `<script>` markup, its parse violates the SanitizedArtifact security
contract, and passing it through the Sanitizer is not harmless (the tree
changes). -/
theorem C8_counterexample :
    strContains (OpenRouterService.get_fallback_html "<script>alert(1)</script>")
      "<script>alert(1)</script>" = true ∧
    specSanitizedContractB
      (OpenRouterService.fallbackParsed [.elem "script" [] [.text "alert(1)"]]) = false ∧
    HtmlSanitizationService.sanitizeSteps
        (OpenRouterService.fallbackParsed [.elem "script" [] [.text "alert(1)"]])
      ≠ OpenRouterService.fallbackParsed [.elem "script" [] [.text "alert(1)"]] := by
  refine ⟨by decide, by decide, by decide⟩

/-- C8 amended: on transport error, non-success status, or a response missing
the expected content field, `generate_html` raises nothing and returns the
Fallback Generator's document, which visibly states the service-unavailable
condition and echoes the original prompt; and for every prompt that parses
as plain text (no markup in it), the fallback document satisfies the
SanitizedArtifact security contract and the Sanitizer's tree pipeline leaves
it unchanged. -/
theorem C8_fallback_on_provider_failure
    (prompt page_type theme : String) (pr : OpenRouterService.ProviderResult)
    (hfail : OpenRouterService.providerFailed pr) :
    OpenRouterService.generate_html prompt page_type theme pr
        = OpenRouterService.get_fallback_html prompt ∧
    strContains (OpenRouterService.get_fallback_html prompt)
        "Service Temporarily Unavailable" = true ∧
    strContains (OpenRouterService.get_fallback_html prompt) prompt = true ∧
    (∀ t, specSanitizedContractB (OpenRouterService.fallbackParsed [.text t]) = true ∧
      HtmlSanitizationService.sanitizeSteps (OpenRouterService.fallbackParsed [.text t])
        = OpenRouterService.fallbackParsed [.text t]) := by
  refine ⟨?_, ?_, ?_, ?_⟩
  · cases pr with
    | transportError => rfl
    | response st data =>
      rcases hfail with h | h | h | ⟨rest, h⟩
      · simp [OpenRouterService.generate_html, h]
      · subst h
        by_cases hst : st ≥ 400 <;> simp [OpenRouterService.generate_html, hst]
      · subst h
        by_cases hst : st ≥ 400 <;> simp [OpenRouterService.generate_html, hst]
      · subst h
        by_cases hst : st ≥ 400 <;> simp [OpenRouterService.generate_html, hst]
  · show containsL _ ((OpenRouterService.fallbackPre ++ prompt) ++ OpenRouterService.fallbackPost).data = true
    have hd : ((OpenRouterService.fallbackPre ++ prompt) ++ OpenRouterService.fallbackPost).data
        = OpenRouterService.fallbackPre.data ++ (prompt.data ++ OpenRouterService.fallbackPost.data) := by
      simp
    rw [hd]
    exact containsL_append_left _ _ _ (by decide)
  · show containsL _ ((OpenRouterService.fallbackPre ++ prompt) ++ OpenRouterService.fallbackPost).data = true
    have hd : ((OpenRouterService.fallbackPre ++ prompt) ++ OpenRouterService.fallbackPost).data
        = OpenRouterService.fallbackPre.data ++ (prompt.data ++ OpenRouterService.fallbackPost.data) := by
      simp
    rw [hd]
    exact containsL_append_right _ _ _ (containsL_self_append _ _)
  · intro t
    constructor
    · simp [specSanitizedContractB, OpenRouterService.fallbackParsed, dropLeadWs,
        countNodes, findAllNodes, findAllIn, findNode, findIn, allNodes, allIn,
        HtmlSanitizationService.isHeadTag, HtmlSanitizationService.isCharsetMeta,
        HtmlSanitizationService.isViewportMeta, HtmlSanitizationService.isTwScript,
        HtmlSanitizationService.isScriptTag, HtmlSanitizationService.isStyleTag,
        HtmlSanitizationService.getAttr, HtmlSanitizationService.attrsOf,
        HtmlSanitizationService.srcOf, HtmlSanitizationService.ALLOWED_SCRIPTS,
        HtmlSanitizationService.TAILWIND_CDN, strContains, containsL, leadsWith,
        pyStartsWith]
    · open HtmlSanitizationService in
      simp [sanitizeSteps, step2, step3, step4, step5, step6, step7, step8, step9, step10,
        filterForest, filterTree, stripOnForest, stripOnNode, findNode, findIn,
        findAllNodes, findAllIn, updateFirst, updateFirstA, updateInA,
        OpenRouterService.fallbackParsed,
        scriptRemovable, isScriptTag, isTwScript, isHeadTag, isHtmlTag, isStyleTag,
        isCharsetMeta, isViewportMeta, getAttr, attrsOf, srcOf, twNew, appendChild,
        insertChild0, insertChildAt, charsetNew, viewportNew, pyInsertIdx,
        strContains, containsL, leadsWith, pyStartsWith, ALLOWED_SCRIPTS, TAILWIND_CDN]

theorem C8_witness :
    OpenRouterService.generate_html "hi" "birthday" "dark" .transportError
        = OpenRouterService.get_fallback_html "hi" ∧
    strContains (OpenRouterService.get_fallback_html "hi")
        "Service Temporarily Unavailable" = true ∧
    strContains (OpenRouterService.get_fallback_html "hi") "hi" = true ∧
    (∀ t, specSanitizedContractB (OpenRouterService.fallbackParsed [.text t]) = true ∧
      HtmlSanitizationService.sanitizeSteps (OpenRouterService.fallbackParsed [.text t])
        = OpenRouterService.fallbackParsed [.text t]) :=
  C8_fallback_on_provider_failure "hi" "birthday" "dark" .transportError trivial

/-! ## Toolkit: general lemmas about the tree operations -/

/-- A predicate that inspects only a tag's name and attributes, not its
children (every predicate the sanitizer uses is of this form). -/
def Shallow (p : Node → Bool) : Prop :=
  ∀ t a cs cs', p (.elem t a cs) = p (.elem t a cs')

/-- No attribute of this node starts with `on`. -/
def noOnAttrs (n : Node) : Bool :=
  (HtmlSanitizationService.attrsOf n).all (fun kv => !(pyStartsWith kv.1 "on"))

theorem findAllNodes_append (p : Node → Bool) :
    ∀ A B, findAllNodes p (A ++ B) = findAllNodes p A ++ findAllNodes p B
  | [], B => rfl
  | n :: A, B => by
    simp [List.cons_append, findAllNodes, findAllNodes_append p A B]

theorem countNodes_append (p : Node → Bool) (A B : List Node) :
    countNodes p (A ++ B) = countNodes p A + countNodes p B := by
  simp [countNodes, findAllNodes_append]

theorem findAllNodes_singleton (p : Node → Bool) (n : Node) :
    findAllNodes p [n] = findAllIn p n := by
  simp [findAllNodes]

theorem countNodes_cons (p : Node → Bool) (n : Node) (ns : List Node) :
    countNodes p (n :: ns) = countNodes p [n] + countNodes p ns := by
  simp [countNodes, findAllNodes, findAllNodes_singleton]

theorem countNodes_elem (p : Node → Bool) (t : String) (a : List (String × String))
    (cs : List Node) :
    countNodes p [.elem t a cs] = (if p (.elem t a cs) then 1 else 0) + countNodes p cs := by
  by_cases h : p (.elem t a cs) <;> simp [countNodes, findAllNodes, findAllIn, h] <;> omega

mutual
theorem allNodes_mono (p p' : Node → Bool) (hpp : ∀ n, p n = true → p' n = true) :
    ∀ F, allNodes p F = true → allNodes p' F = true
  | [] => fun _ => rfl
  | n :: ns => by
    simp only [allNodes, Bool.and_eq_true]
    exact fun ⟨h1, h2⟩ => ⟨allIn_mono p p' hpp n h1, allNodes_mono p p' hpp ns h2⟩
theorem allIn_mono (p p' : Node → Bool) (hpp : ∀ n, p n = true → p' n = true) :
    ∀ n, allIn p n = true → allIn p' n = true
  | .elem t a cs => by
    simp only [allIn, Bool.and_eq_true]
    exact fun ⟨h1, h2⟩ => ⟨hpp _ h1, allNodes_mono p p' hpp cs h2⟩
  | .text s => fun h => hpp _ h
  | .doctype d => fun h => hpp _ h
end

theorem allNodes_cons (p : Node → Bool) (n : Node) (ns : List Node) :
    allNodes p (n :: ns) = (allIn p n && allNodes p ns) := rfl

theorem allNodes_append (p : Node → Bool) :
    ∀ A B, allNodes p (A ++ B) = (allNodes p A && allNodes p B)
  | [], B => by simp [allNodes]
  | n :: A, B => by
    simp [allNodes, allNodes_append p A B, Bool.and_assoc]

/- Each node collected by `find_all p` satisfies `p` and, conversely, if all
nodes satisfy a predicate then so does each collected node. -/
mutual
theorem findAll_sat (p q : Node → Bool) :
    ∀ F, allNodes q F = true → ∀ n, n ∈ findAllNodes p F → q n = true ∧ p n = true
  | [], _ => by simp [findAllNodes]
  | m :: ms, h => by
    simp only [allNodes, Bool.and_eq_true] at h
    intro n hn
    simp only [findAllNodes, List.mem_append] at hn
    rcases hn with hn | hn
    · exact findAllIn_sat p q m h.1 n hn
    · exact findAll_sat p q ms h.2 n hn
theorem findAllIn_sat (p q : Node → Bool) :
    ∀ m, allIn q m = true → ∀ n, n ∈ findAllIn p m → q n = true ∧ p n = true
  | .elem t a cs, h => by
    simp only [allIn, Bool.and_eq_true] at h
    intro n hn
    by_cases hp : p (.elem t a cs)
    · simp only [findAllIn, hp, if_pos, List.singleton_append, List.mem_cons] at hn
      rcases hn with rfl | hn
      · exact ⟨h.1, hp⟩
      · exact findAll_sat p q cs h.2 n hn
    · simp only [findAllIn, hp, Bool.false_eq_true, if_neg, not_false_eq_true,
        List.nil_append] at hn
      exact findAll_sat p q cs h.2 n hn
  | .text s, h => by
    intro n hn
    by_cases hp : p (.text s)
    · simp only [findAllIn, hp, if_pos, List.mem_singleton] at hn
      subst hn; exact ⟨h, hp⟩
    · simp [findAllIn, hp] at hn
  | .doctype d, h => by
    intro n hn
    by_cases hp : p (.doctype d)
    · simp only [findAllIn, hp, if_pos, List.mem_singleton] at hn
      subst hn; exact ⟨h, hp⟩
    · simp [findAllIn, hp] at hn
end

/- Each node collected by `find_all p` satisfies `p`. -/
mutual
theorem findAll_pred (p : Node → Bool) :
    ∀ F n, n ∈ findAllNodes p F → p n = true
  | [], n => by simp [findAllNodes]
  | m :: ms, n => by
    simp only [findAllNodes, List.mem_append]
    rintro (h | h)
    · exact findAllIn_pred p m n h
    · exact findAll_pred p ms n h
theorem findAllIn_pred (p : Node → Bool) :
    ∀ m n, n ∈ findAllIn p m → p n = true
  | .elem t a cs, n => by
    by_cases hp : p (.elem t a cs)
    · simp only [findAllIn, hp, if_pos, List.singleton_append, List.mem_cons]
      rintro (rfl | h)
      · exact hp
      · exact findAll_pred p cs n h
    · simp only [findAllIn, hp, Bool.false_eq_true, if_neg, not_false_eq_true,
        List.nil_append]
      exact findAll_pred p cs n
  | .text s, n => by
    by_cases hp : p (.text s)
    · simp only [findAllIn, hp, if_pos, List.mem_singleton]
      rintro rfl; exact hp
    · simp [findAllIn, hp]
  | .doctype d, n => by
    by_cases hp : p (.doctype d)
    · simp only [findAllIn, hp, if_pos, List.mem_singleton]
      rintro rfl; exact hp
    · simp [findAllIn, hp]
end

/- `soup.find` returns the head of `soup.find_all`. -/
mutual
theorem findNode_eq_head (p : Node → Bool) :
    ∀ F, findNode p F = (findAllNodes p F).head?
  | [] => rfl
  | n :: ns => by
    have hn := findIn_eq_head p n
    simp only [findNode, findAllNodes]
    by_cases hp : p n
    · rw [if_pos hp] at hn ⊢
      match hAll : findAllIn p n with
      | [] => rw [hAll] at hn; simp at hn
      | m :: ms =>
        rw [hAll] at hn
        simp only [List.head?] at hn
        simp [← hn]
    · rw [if_neg hp] at hn ⊢
      match hfi : findIn p n with
      | some r =>
        rw [hfi] at hn
        match hAll : findAllIn p n with
        | [] => rw [hAll] at hn; simp at hn
        | m :: ms =>
          rw [hAll] at hn
          simp only [List.head?] at hn
          simp [← hn]
      | none =>
        rw [hfi] at hn
        match hAll : findAllIn p n with
        | [] => simpa using findNode_eq_head p ns
        | m :: ms => rw [hAll] at hn; simp at hn
theorem findIn_eq_head (p : Node → Bool) :
    ∀ n, (if p n then some n else findIn p n) = (findAllIn p n).head?
  | .elem t a cs => by
    by_cases hp : p (.elem t a cs)
    · simp [findAllIn, hp]
    · simp only [findAllIn, hp, if_neg, Bool.false_eq_true, not_false_eq_true,
        List.nil_append, findIn]
      exact findNode_eq_head p cs
  | .text s => by by_cases hp : p (.text s) <;> simp [findAllIn, findIn, hp]
  | .doctype d => by by_cases hp : p (.doctype d) <;> simp [findAllIn, findIn, hp]
end

theorem findNode_eq_none_iff_count (p : Node → Bool) (F : List Node) :
    findNode p F = none ↔ countNodes p F = 0 := by
  rw [findNode_eq_head, countNodes, List.head?_eq_none_iff, List.length_eq_zero]

theorem findNode_isSome_of_count (p : Node → Bool) (F : List Node)
    (h : 0 < countNodes p F) : ∃ n, findNode p F = some n ∧ p n = true := by
  rw [findNode_eq_head]
  match hAll : findAllNodes p F with
  | [] => simp [countNodes, hAll] at h
  | m :: ms =>
    exact ⟨m, by simp, findAll_pred p F m (by rw [hAll]; simp)⟩

/-! ### Lemmas about `filterForest` (decompose-driven removal) -/

theorem filterForest_append (q : Node → Bool) :
    ∀ A B, filterForest q (A ++ B) = filterForest q A ++ filterForest q B
  | [], B => rfl
  | n :: A, B => by
    simp only [List.cons_append, filterForest]
    match filterTree q n with
    | some n' => simp [filterForest_append q A B]
    | none => simp [filterForest_append q A B]

/- After removal, no node satisfies the removal predicate (for a shallow
predicate). -/
mutual
theorem filterForest_clears (q : Node → Bool) (hq : Shallow q) :
    ∀ F, allNodes (fun n => !q n) (filterForest q F) = true
  | [] => rfl
  | n :: ns => by
    simp only [filterForest]
    match hft : filterTree q n with
    | some n' =>
      simp only [allNodes, Bool.and_eq_true]
      exact ⟨filterTree_clears q hq n n' hft, filterForest_clears q hq ns⟩
    | none => exact filterForest_clears q hq ns
theorem filterTree_clears (q : Node → Bool) (hq : Shallow q) :
    ∀ n n', filterTree q n = some n' → allIn (fun n => !q n) n' = true
  | .elem t a cs, n' => by
    simp only [filterTree]
    by_cases hqn : q (.elem t a cs)
    · simp [hqn]
    · simp only [hqn, if_neg, Bool.false_eq_true, not_false_eq_true, Option.some.injEq]
      rintro rfl
      simp only [allIn, Bool.and_eq_true]
      exact ⟨by rw [hq t a _ cs]; simpa using hqn, filterForest_clears q hq cs⟩
  | .text s, n' => by
    simp only [filterTree]
    by_cases hqn : q (.text s)
    · simp [hqn]
    · simp only [hqn, if_neg, Bool.false_eq_true, not_false_eq_true, Option.some.injEq]
      rintro rfl
      simp [allIn, hqn]
  | .doctype d, n' => by
    simp only [filterTree]
    by_cases hqn : q (.doctype d)
    · simp [hqn]
    · simp only [hqn, if_neg, Bool.false_eq_true, not_false_eq_true, Option.some.injEq]
      rintro rfl
      simp [allIn, hqn]
end

theorem allIn_self (p : Node → Bool) (n : Node) (h : allIn p n = true) : p n = true := by
  cases n with
  | elem t a cs => simp only [allIn, Bool.and_eq_true] at h; exact h.1
  | text s => exact h
  | doctype d => exact h

/- Removal preserves an all-nodes invariant that is itself stable under
child-list filtering (any shallow predicate qualifies). -/
mutual
theorem filterForest_preserves (p q : Node → Bool)
    (hp : ∀ t a cs, p (.elem t a cs) = true → p (.elem t a (filterForest q cs)) = true) :
    ∀ F, allNodes p F = true → allNodes p (filterForest q F) = true
  | [] => fun _ => rfl
  | n :: ns => by
    simp only [allNodes, Bool.and_eq_true, filterForest]
    intro ⟨h1, h2⟩
    match hft : filterTree q n with
    | some n' =>
      simp only [allNodes, Bool.and_eq_true]
      exact ⟨filterTree_preserves p q hp n n' hft h1, filterForest_preserves p q hp ns h2⟩
    | none => exact filterForest_preserves p q hp ns h2
theorem filterTree_preserves (p q : Node → Bool)
    (hp : ∀ t a cs, p (.elem t a cs) = true → p (.elem t a (filterForest q cs)) = true) :
    ∀ n n', filterTree q n = some n' → allIn p n = true → allIn p n' = true
  | .elem t a cs, n' => by
    simp only [filterTree, allIn, Bool.and_eq_true]
    by_cases hqn : q (.elem t a cs)
    · simp [hqn]
    · simp only [hqn, if_neg, Bool.false_eq_true, not_false_eq_true, Option.some.injEq]
      rintro rfl ⟨h1, h2⟩
      simp only [allIn, Bool.and_eq_true]
      exact ⟨hp t a cs h1, filterForest_preserves p q hp cs h2⟩
  | .text s, n' => by
    simp only [filterTree]
    by_cases hqn : q (.text s)
    · simp [hqn]
    · simp only [hqn, if_neg, Bool.false_eq_true, not_false_eq_true, Option.some.injEq]
      rintro rfl h
      exact h
  | .doctype d, n' => by
    simp only [filterTree]
    by_cases hqn : q (.doctype d)
    · simp [hqn]
    · simp only [hqn, if_neg, Bool.false_eq_true, not_false_eq_true, Option.some.injEq]
      rintro rfl h
      exact h
end

/- Removal is the identity when nothing matches the removal predicate. -/
mutual
theorem filterForest_id (q : Node → Bool) :
    ∀ F, allNodes (fun n => !q n) F = true → filterForest q F = F
  | [] => fun _ => rfl
  | n :: ns => by
    simp only [allNodes, Bool.and_eq_true, filterForest]
    intro ⟨h1, h2⟩
    rw [filterTree_id q n h1, filterForest_id q ns h2]
theorem filterTree_id (q : Node → Bool) :
    ∀ n, allIn (fun n => !q n) n = true → filterTree q n = some n
  | .elem t a cs => by
    simp only [allIn, Bool.and_eq_true, Bool.not_eq_true']
    intro ⟨h1, h2⟩
    simp only [filterTree, h1, Bool.false_eq_true, if_neg, not_false_eq_true,
      Option.some.injEq]
    rw [filterForest_id q cs h2]
  | .text s => by
    simp only [allIn, Bool.not_eq_true']
    intro h1
    simp [filterTree, h1]
  | .doctype d => by
    simp only [allIn, Bool.not_eq_true']
    intro h1
    simp [filterTree, h1]
end

/- Removal preserves the count of a (shallow) predicate when every removed
subtree contains no node satisfying it. -/
mutual
theorem filterForest_count (p q : Node → Bool) (hp : Shallow p) :
    ∀ F, allNodes (fun n => !q n || (countNodes p [n] == 0)) F = true →
      countNodes p (filterForest q F) = countNodes p F
  | [] => fun _ => rfl
  | n :: ns => by
    simp only [allNodes, Bool.and_eq_true, filterForest]
    intro ⟨h1, h2⟩
    match hft : filterTree q n with
    | some n' =>
      rw [countNodes_cons, countNodes_cons p n ns,
        filterTree_count p q hp n n' hft h1, filterForest_count p q hp ns h2]
    | none =>
      have hqn : q n = true := by
        cases n with
        | elem t a cs =>
          simp only [filterTree] at hft
          by_cases hq : q (.elem t a cs)
          · exact hq
          · simp [hq] at hft
        | text s =>
          simp only [filterTree] at hft
          by_cases hq : q (.text s)
          · exact hq
          · simp [hq] at hft
        | doctype d =>
          simp only [filterTree] at hft
          by_cases hq : q (.doctype d)
          · exact hq
          · simp [hq] at hft
      have hcz : countNodes p [n] = 0 := by
        have := allIn_self _ n h1
        rw [hqn] at this
        simpa using this
      rw [countNodes_cons p n ns, hcz, filterForest_count p q hp ns h2]
      omega
theorem filterTree_count (p q : Node → Bool) (hp : Shallow p) :
    ∀ n n', filterTree q n = some n' →
      allIn (fun n => !q n || (countNodes p [n] == 0)) n = true →
      countNodes p [n'] = countNodes p [n]
  | .elem t a cs, n' => by
    simp only [filterTree, allIn, Bool.and_eq_true]
    by_cases hqn : q (.elem t a cs)
    · simp [hqn]
    · simp only [hqn, if_neg, Bool.false_eq_true, not_false_eq_true, Option.some.injEq]
      rintro rfl ⟨_, h2⟩
      rw [countNodes_elem, countNodes_elem p t a cs,
        filterForest_count p q hp cs h2, hp t a (filterForest q cs) cs]
  | .text s, n' => by
    simp only [filterTree]
    by_cases hqn : q (.text s)
    · simp [hqn]
    · simp only [hqn, if_neg, Bool.false_eq_true, not_false_eq_true, Option.some.injEq]
      rintro rfl _
      rfl
  | .doctype d, n' => by
    simp only [filterTree]
    by_cases hqn : q (.doctype d)
    · simp [hqn]
    · simp only [hqn, if_neg, Bool.false_eq_true, not_false_eq_true, Option.some.injEq]
      rintro rfl _
      rfl
end

/-! ### Lemmas about `stripOnForest` (step 3) -/

/- After step 3, no node carries an `on`-prefixed attribute. -/
mutual
theorem stripOnForest_clears :
    ∀ F, allNodes noOnAttrs (HtmlSanitizationService.stripOnForest F) = true
  | [] => rfl
  | n :: ns => by
    simp only [HtmlSanitizationService.stripOnForest, allNodes, Bool.and_eq_true]
    exact ⟨stripOnNode_clears n, stripOnForest_clears ns⟩
theorem stripOnNode_clears :
    ∀ n, allIn noOnAttrs (HtmlSanitizationService.stripOnNode n) = true
  | .elem t a cs => by
    simp only [HtmlSanitizationService.stripOnNode, allIn, Bool.and_eq_true]
    refine ⟨?_, stripOnForest_clears cs⟩
    simp only [noOnAttrs, HtmlSanitizationService.attrsOf, List.all_eq_true]
    intro kv hkv
    exact (List.mem_filter.mp hkv).2
  | .text s => rfl
  | .doctype d => rfl
end

/- Step 3 is the identity when no node carries an `on`-prefixed attribute. -/
mutual
theorem stripOnForest_id :
    ∀ F, allNodes noOnAttrs F = true → HtmlSanitizationService.stripOnForest F = F
  | [] => fun _ => rfl
  | n :: ns => by
    simp only [allNodes, Bool.and_eq_true, HtmlSanitizationService.stripOnForest]
    intro ⟨h1, h2⟩
    rw [stripOnNode_id n h1, stripOnForest_id ns h2]
theorem stripOnNode_id :
    ∀ n, allIn noOnAttrs n = true → HtmlSanitizationService.stripOnNode n = n
  | .elem t a cs => by
    simp only [allIn, Bool.and_eq_true, HtmlSanitizationService.stripOnNode, Node.elem.injEq]
    intro ⟨h1, h2⟩
    refine ⟨trivial, ?_, stripOnForest_id cs h2⟩
    simp only [noOnAttrs, HtmlSanitizationService.attrsOf, List.all_eq_true] at h1
    exact List.filter_eq_self.mpr h1
  | .text s => fun _ => rfl
  | .doctype d => fun _ => rfl
end

/-- The attribute filter of step 3 does not disturb the first binding of any
attribute whose name does not start with `on`. -/
theorem filter_on_find (a : List (String × String)) (k : String)
    (hk : pyStartsWith k "on" = false) :
    (a.filter fun kv => !(pyStartsWith kv.1 "on")).find? (fun kv => kv.1 == k)
      = a.find? (fun kv => kv.1 == k) := by
  induction a with
  | nil => rfl
  | cons kv a ih =>
    by_cases hon : pyStartsWith kv.1 "on"
    · have hkv : (kv.1 == k) = false := by
        by_contra hne
        rw [Bool.not_eq_false, beq_iff_eq] at hne
        rw [hne, hk] at hon
        exact Bool.noConfusion hon
      rw [List.filter_cons_of_neg (by simp [hon])]
      simp [List.find?_cons, hkv, ih]
    · rw [List.filter_cons_of_pos (by simp [hon])]
      by_cases hkv : kv.1 == k
      · simp [List.find?_cons, hkv]
      · simp only [Bool.not_eq_true] at hkv
        simp [List.find?_cons, hkv, ih]

/- Step 3 preserves counts of predicates that are insensitive to the
attribute filter (and to children). -/
mutual
theorem stripOnForest_count (p : Node → Bool) (hp : Shallow p)
    (ha : ∀ t a cs, p (.elem t (a.filter fun kv => !(pyStartsWith kv.1 "on")) cs)
            = p (.elem t a cs)) :
    ∀ F, countNodes p (HtmlSanitizationService.stripOnForest F) = countNodes p F
  | [] => rfl
  | n :: ns => by
    rw [HtmlSanitizationService.stripOnForest, countNodes_cons,
      countNodes_cons p n ns, stripOnNode_count p hp ha n, stripOnForest_count p hp ha ns]
theorem stripOnNode_count (p : Node → Bool) (hp : Shallow p)
    (ha : ∀ t a cs, p (.elem t (a.filter fun kv => !(pyStartsWith kv.1 "on")) cs)
            = p (.elem t a cs)) :
    ∀ n, countNodes p [HtmlSanitizationService.stripOnNode n] = countNodes p [n]
  | .elem t a cs => by
    rw [HtmlSanitizationService.stripOnNode, countNodes_elem, countNodes_elem p t a cs,
      stripOnForest_count p hp ha cs,
      hp t _ (HtmlSanitizationService.stripOnForest cs) cs, ha t a cs]
  | .text s => rfl
  | .doctype d => rfl
end

/-! ### Lemmas about `updateFirst` (in-place mutation of a found node) -/

/- `updateFirstA` succeeds exactly when `find` succeeds. -/
mutual
theorem updateFirstA_none_iff (q : Node → Bool) (f : Node → Node) :
    ∀ F, updateFirstA q f F = none ↔ findNode q F = none
  | [] => by simp [updateFirstA, findNode]
  | n :: ns => by
    simp only [updateFirstA, findNode]
    by_cases hq : q n
    · simp [hq]
    · simp only [hq, if_neg, Bool.false_eq_true, not_false_eq_true]
      match hin : updateInA q f n, hfi : findIn q n with
      | some n', some r => simp
      | some n', none =>
        have h2 := (updateInA_none_iff q f n).mpr hfi
        rw [h2] at hin
        exact Option.noConfusion hin
      | none, some r =>
        have h2 := (updateInA_none_iff q f n).mp hin
        rw [h2] at hfi
        exact Option.noConfusion hfi
      | none, none => simpa using updateFirstA_none_iff q f ns
theorem updateInA_none_iff (q : Node → Bool) (f : Node → Node) :
    ∀ n, updateInA q f n = none ↔ findIn q n = none
  | .elem t a cs => by
    rw [updateInA, findIn, Option.map_eq_none']
    exact updateFirstA_none_iff q f cs
  | .text s => by simp [updateInA, findIn]
  | .doctype d => by simp [updateInA, findIn]
end

/- Mutating the first found node changes counts by exactly the difference at
that node. -/
mutual
theorem updateFirstA_count (p q : Node → Bool) (f : Node → Node) (hp : Shallow p) :
    ∀ F F', updateFirstA q f F = some F' →
      ∃ h, findNode q F = some h ∧
        countNodes p F' + countNodes p [h] = countNodes p F + countNodes p [f h]
  | [], F' => by simp [updateFirstA]
  | n :: ns, F' => by
    simp only [updateFirstA, findNode]
    by_cases hq : q n
    · simp only [hq, if_pos, Option.some.injEq]
      rintro rfl
      refine ⟨n, rfl, ?_⟩
      rw [countNodes_cons, countNodes_cons p n ns]
      omega
    · simp only [hq, if_neg, Bool.false_eq_true, not_false_eq_true]
      match hin : updateInA q f n with
      | some n' =>
        simp only [Option.some.injEq]
        rintro rfl
        obtain ⟨h, hfind, hcount⟩ := updateInA_count p q f hp n n' hin
        exact ⟨h, by rw [hfind], by
          rw [countNodes_cons, countNodes_cons p n ns]
          omega⟩
      | none =>
        match hrec : updateFirstA q f ns with
        | some ns' =>
          simp only [Option.map_some', Option.some.injEq]
          rintro rfl
          obtain ⟨h, hfind, hcount⟩ := updateFirstA_count p q f hp ns ns' hrec
          rw [(updateInA_none_iff q f n).mp hin]
          refine ⟨h, hfind, ?_⟩
          rw [countNodes_cons, countNodes_cons p n ns]
          omega
        | none => simp
theorem updateInA_count (p q : Node → Bool) (f : Node → Node) (hp : Shallow p) :
    ∀ n n', updateInA q f n = some n' →
      ∃ h, findIn q n = some h ∧
        countNodes p [n'] + countNodes p [h] = countNodes p [n] + countNodes p [f h]
  | .elem t a cs, n' => by
    simp only [updateInA, findIn]
    match hrec : updateFirstA q f cs with
    | some cs' =>
      simp only [Option.map_some', Option.some.injEq]
      rintro rfl
      obtain ⟨h, hfind, hcount⟩ := updateFirstA_count p q f hp cs cs' hrec
      refine ⟨h, hfind, ?_⟩
      rw [countNodes_elem, countNodes_elem p t a cs, hp t a cs' cs]
      omega
    | none => simp
  | .text s, n' => by simp [updateInA]
  | .doctype d, n' => by simp [updateInA]
end

/- After mutating the first `q`-node, it is still the first `q`-node
(provided `f` preserves `q` at it and `q` is shallow). -/
mutual
theorem updateFirstA_find (q : Node → Bool) (f : Node → Node) (hq : Shallow q) :
    ∀ F F', updateFirstA q f F = some F' →
      ∃ h, findNode q F = some h ∧ (q (f h) = true → findNode q F' = some (f h))
  | [], F' => by simp [updateFirstA]
  | n :: ns, F' => by
    simp only [updateFirstA, findNode]
    by_cases hqn : q n
    · simp only [hqn, if_pos, Option.some.injEq]
      rintro rfl
      exact ⟨n, rfl, fun hf => by simp [findNode, hf]⟩
    · simp only [hqn, if_neg, Bool.false_eq_true, not_false_eq_true]
      match hin : updateInA q f n with
      | some n' =>
        simp only [Option.some.injEq]
        rintro rfl
        obtain ⟨h, hfind, hpres⟩ := updateInA_find q f hq n n' hin
        refine ⟨h, by rw [hfind], fun hf => ?_⟩
        have hqn' : q n' = false := by
          cases n with
          | elem t a cs =>
            simp only [updateInA] at hin
            match hrec : updateFirstA q f cs with
            | some cs' =>
              rw [hrec] at hin
              simp only [Option.map_some', Option.some.injEq] at hin
              rw [← hin, ← Bool.not_eq_true, hq t a cs' cs]
              exact hqn
            | none => rw [hrec] at hin; exact Option.noConfusion hin
          | text s => simp [updateInA] at hin
          | doctype d => simp [updateInA] at hin
        simp only [findNode, hqn', Bool.false_eq_true, if_neg, not_false_eq_true]
        rw [hpres hf]
      | none =>
        match hrec : updateFirstA q f ns with
        | some ns' =>
          simp only [Option.map_some', Option.some.injEq]
          rintro rfl
          obtain ⟨h, hfind, hpres⟩ := updateFirstA_find q f hq ns ns' hrec
          rw [(updateInA_none_iff q f n).mp hin]
          refine ⟨h, hfind, fun hf => ?_⟩
          simp only [findNode, hqn, Bool.false_eq_true, if_neg, not_false_eq_true]
          rw [(updateInA_none_iff q f n).mp hin, hpres hf]
        | none => simp
theorem updateInA_find (q : Node → Bool) (f : Node → Node) (hq : Shallow q) :
    ∀ n n', updateInA q f n = some n' →
      ∃ h, findIn q n = some h ∧ (q (f h) = true → findIn q n' = some (f h))
  | .elem t a cs, n' => by
    simp only [updateInA, findIn]
    match hrec : updateFirstA q f cs with
    | some cs' =>
      simp only [Option.map_some', Option.some.injEq]
      rintro rfl
      obtain ⟨h, hfind, hpres⟩ := updateFirstA_find q f hq cs cs' hrec
      exact ⟨h, hfind, fun hf => by simp only [findIn]; exact hpres hf⟩
    | none => simp
  | .text s, n' => by simp [updateInA]
  | .doctype d, n' => by simp [updateInA]
end

/- Mutating the first `q`-node preserves an all-nodes invariant provided `f`
does at that node. -/
mutual
theorem updateFirstA_all (p q : Node → Bool) (f : Node → Node)
    (hp : ∀ t a cs cs', updateFirstA q f cs = some cs' →
      p (.elem t a cs) = true → p (.elem t a cs') = true)
    (hf : ∀ n, allIn p n = true → q n = true → allIn p (f n) = true) :
    ∀ F F', updateFirstA q f F = some F' → allNodes p F = true → allNodes p F' = true
  | [], F' => by simp [updateFirstA]
  | n :: ns, F' => by
    simp only [updateFirstA, allNodes, Bool.and_eq_true]
    by_cases hqn : q n
    · simp only [hqn, if_pos, Option.some.injEq]
      rintro rfl ⟨h1, h2⟩
      simp only [allNodes, Bool.and_eq_true]
      exact ⟨hf n h1 hqn, h2⟩
    · simp only [hqn, if_neg, Bool.false_eq_true, not_false_eq_true]
      match hin : updateInA q f n with
      | some n' =>
        simp only [Option.some.injEq]
        rintro rfl ⟨h1, h2⟩
        simp only [allNodes, Bool.and_eq_true]
        exact ⟨updateInA_all p q f hp hf n n' hin h1, h2⟩
      | none =>
        match hrec : updateFirstA q f ns with
        | some ns' =>
          simp only [Option.map_some', Option.some.injEq]
          rintro rfl ⟨h1, h2⟩
          simp only [allNodes, Bool.and_eq_true]
          exact ⟨h1, updateFirstA_all p q f hp hf ns ns' hrec h2⟩
        | none => simp
theorem updateInA_all (p q : Node → Bool) (f : Node → Node)
    (hp : ∀ t a cs cs', updateFirstA q f cs = some cs' →
      p (.elem t a cs) = true → p (.elem t a cs') = true)
    (hf : ∀ n, allIn p n = true → q n = true → allIn p (f n) = true) :
    ∀ n n', updateInA q f n = some n' → allIn p n = true → allIn p n' = true
  | .elem t a cs, n' => by
    simp only [updateInA, allIn, Bool.and_eq_true]
    match hrec : updateFirstA q f cs with
    | some cs' =>
      simp only [Option.map_some', Option.some.injEq]
      rintro rfl ⟨h1, h2⟩
      simp only [allIn, Bool.and_eq_true]
      exact ⟨hp t a cs cs' hrec h1,
        updateFirstA_all p q f hp hf cs cs' hrec h2⟩
    | none => simp
  | .text s, n' => by simp [updateInA]
  | .doctype d, n' => by simp [updateInA]
end

/- Step 3 preserves an all-nodes invariant that is stable under the
attribute filter and child rewriting. -/
mutual
theorem stripOnForest_all (p : Node → Bool)
    (hp : ∀ t a cs, p (.elem t a cs) = true →
      p (.elem t (a.filter fun kv => !(pyStartsWith kv.1 "on"))
          (HtmlSanitizationService.stripOnForest cs)) = true) :
    ∀ F, allNodes p F = true → allNodes p (HtmlSanitizationService.stripOnForest F) = true
  | [] => fun _ => rfl
  | n :: ns => by
    simp only [HtmlSanitizationService.stripOnForest, allNodes, Bool.and_eq_true]
    intro ⟨h1, h2⟩
    exact ⟨stripOnNode_all p hp n h1, stripOnForest_all p hp ns h2⟩
theorem stripOnNode_all (p : Node → Bool)
    (hp : ∀ t a cs, p (.elem t a cs) = true →
      p (.elem t (a.filter fun kv => !(pyStartsWith kv.1 "on"))
          (HtmlSanitizationService.stripOnForest cs)) = true) :
    ∀ n, allIn p n = true → allIn p (HtmlSanitizationService.stripOnNode n) = true
  | .elem t a cs => by
    simp only [HtmlSanitizationService.stripOnNode, allIn, Bool.and_eq_true]
    intro ⟨h1, h2⟩
    exact ⟨hp t a cs h1, stripOnForest_all p hp cs h2⟩
  | .text s => fun h => h
  | .doctype d => fun h => h
end

/- Mutating the first `q`-node preserves a root-level all (for predicates
that ignore children). -/
theorem updateFirstA_roots (pr q : Node → Bool) (f : Node → Node) (hpr : Shallow pr)
    (hf : ∀ n, q n = true → pr n = true → pr (f n) = true) :
    ∀ F F', updateFirstA q f F = some F' → F.all pr = true → F'.all pr = true
  | [], F' => by simp [updateFirstA]
  | n :: ns, F' => by
    simp only [updateFirstA, List.all_cons, Bool.and_eq_true]
    by_cases hqn : q n
    · simp only [hqn, if_pos, Option.some.injEq]
      rintro rfl ⟨h1, h2⟩
      simp only [List.all_cons, Bool.and_eq_true]
      exact ⟨hf n hqn h1, h2⟩
    · simp only [hqn, if_neg, Bool.false_eq_true, not_false_eq_true]
      match hin : updateInA q f n with
      | some n' =>
        simp only [Option.some.injEq]
        rintro rfl ⟨h1, h2⟩
        simp only [List.all_cons, Bool.and_eq_true]
        refine ⟨?_, h2⟩
        cases n with
        | elem t a cs =>
          simp only [updateInA] at hin
          match hrec : updateFirstA q f cs with
          | some cs' =>
            rw [hrec] at hin
            simp only [Option.map_some', Option.some.injEq] at hin
            rw [← hin]
            rw [hpr t a cs' cs]
            exact h1
          | none => rw [hrec] at hin; exact Option.noConfusion hin
        | text s => simp [updateInA] at hin
        | doctype d => simp [updateInA] at hin
      | none =>
        match hrec : updateFirstA q f ns with
        | some ns' =>
          simp only [Option.map_some', Option.some.injEq]
          rintro rfl ⟨h1, h2⟩
          simp only [List.all_cons, Bool.and_eq_true]
          exact ⟨h1, updateFirstA_roots pr q f hpr hf ns ns' hrec h2⟩
        | none => simp

/-! ### Facts about the sanitizer's specific predicates -/

namespace HtmlSanitizationService

theorem shallow_isScriptTag : Shallow isScriptTag := fun _ _ _ _ => rfl
theorem shallow_isStyleTag : Shallow isStyleTag := fun _ _ _ _ => rfl
theorem shallow_isHtmlTag : Shallow isHtmlTag := fun _ _ _ _ => rfl
theorem shallow_isHeadTag : Shallow isHeadTag := fun _ _ _ _ => rfl
theorem shallow_isBodyTag : Shallow isBodyTag := fun _ _ _ _ => rfl
theorem shallow_isCharsetMeta : Shallow isCharsetMeta := fun _ _ _ _ => rfl
theorem shallow_isViewportMeta : Shallow isViewportMeta := fun _ _ _ _ => rfl
theorem shallow_isTwScript : Shallow isTwScript := fun _ _ _ _ => rfl
theorem shallow_scriptRemovable : Shallow scriptRemovable := fun _ _ _ _ => rfl
theorem shallow_noOnAttrs : Shallow noOnAttrs := fun _ _ _ _ => rfl

theorem shallow_not (p : Node → Bool) (hp : Shallow p) : Shallow (fun n => !p n) :=
  fun t a cs cs' => by simp only [hp t a cs cs']

/-- A Tailwind-matching script is removed by step 2. -/
theorem isTw_removable (n : Node) (h : isTwScript n = true) : scriptRemovable n = true := by
  cases n with
  | elem t a cs =>
    simp only [isTwScript, Bool.and_eq_true] at h
    obtain ⟨h1, h2⟩ := h
    match hga : getAttr (.elem t a cs) "src" with
    | some x =>
      rw [hga] at h2
      simp only [Bool.and_eq_true, Bool.not_eq_true'] at h2
      simp only [scriptRemovable, h1, srcOf, hga, Option.getD_some, Bool.true_and]
      rw [if_pos h2.2]
    | none => rw [hga] at h2; exact Bool.noConfusion h2
  | text s => exact Bool.noConfusion h
  | doctype d => exact Bool.noConfusion h

/-- The canonical script node satisfies both step-2 conditions. -/
theorem twNew_isTw : isTwScript twNew = true := by decide

theorem twNew_removable : scriptRemovable twNew = true := by decide

/-- The step-3 attribute filter does not affect `isTwScript`. -/
theorem strip_inv_isTwScript (t : String) (a : List (String × String)) (cs cs' : List Node) :
    isTwScript (.elem t (a.filter fun kv => !(pyStartsWith kv.1 "on")) cs')
      = isTwScript (.elem t a cs) := by
  simp only [isTwScript, isScriptTag, getAttr, attrsOf]
  rw [filter_on_find a "src" (by decide)]

theorem strip_inv_isCharsetMeta (t : String) (a : List (String × String)) (cs cs' : List Node) :
    isCharsetMeta (.elem t (a.filter fun kv => !(pyStartsWith kv.1 "on")) cs')
      = isCharsetMeta (.elem t a cs) := by
  simp only [isCharsetMeta, getAttr, attrsOf]
  rw [filter_on_find a "charset" (by decide)]

theorem strip_inv_isViewportMeta (t : String) (a : List (String × String)) (cs cs' : List Node) :
    isViewportMeta (.elem t (a.filter fun kv => !(pyStartsWith kv.1 "on")) cs')
      = isViewportMeta (.elem t a cs) := by
  simp only [isViewportMeta, getAttr, attrsOf]
  rw [filter_on_find a "name" (by decide)]

theorem strip_inv_scriptRemovable (t : String) (a : List (String × String)) (cs cs' : List Node) :
    scriptRemovable (.elem t (a.filter fun kv => !(pyStartsWith kv.1 "on")) cs')
      = scriptRemovable (.elem t a cs) := by
  simp only [scriptRemovable, isScriptTag, srcOf, getAttr, attrsOf]
  rw [filter_on_find a "src" (by decide)]

/-! ### Definitional characterizations of the pipeline steps -/

theorem step5_found {F : List Node} {x : Node} (h : findNode isHtmlTag F = some x) :
    step5 F = F := by simp [step5, h]

theorem step5_wrap {F : List Node} (h : findNode isHtmlTag F = none) :
    step5 F = [.elem "html" [("lang", "en")] F] := by simp [step5, h]

theorem step6_found {F : List Node} {x : Node} (h : findNode isHeadTag F = some x) :
    step6 F = F := by simp [step6, h]

theorem step6_insert {F : List Node} (h : findNode isHeadTag F = none) :
    step6 F = updateFirst isHtmlTag (insertChild0 (.elem "head" [] [])) F := by
  simp [step6, h]

theorem step7_append {F : List Node} (h : findNode isTwScript F = none) :
    step7 F = updateFirst isHeadTag (appendChild twNew) F := by simp [step7, h]

theorem step8_found {F : List Node} {x : Node} (h : findNode isCharsetMeta F = some x) :
    step8 F = F := by simp [step8, h]

theorem step8_insert {F : List Node} (h : findNode isCharsetMeta F = none) :
    step8 F = updateFirst isHeadTag (insertChild0 charsetNew) F := by simp [step8, h]

theorem step9_found {F : List Node} {x : Node} (h : findNode isViewportMeta F = some x) :
    step9 F = F := by simp [step9, h]

theorem step9_insert {F : List Node} (h : findNode isViewportMeta F = none) :
    step9 F = updateFirst isHeadTag (insertChildAt 1 viewportNew) F := by simp [step9, h]

theorem step10_id {F : List Node} (h : countNodes isTwScript F ≤ 1) : step10 F = F := by
  rw [step10, if_neg]
  simpa [countNodes] using h

end HtmlSanitizationService

theorem countNodes_eq_zero_of_allNot (p : Node → Bool) (F : List Node)
    (h : allNodes (fun n => !p n) F = true) : countNodes p F = 0 := by
  rw [countNodes, List.length_eq_zero]
  match hAll : findAllNodes p F with
  | [] => rfl
  | m :: ms =>
    have hm := findAll_sat p (fun n => !p n) F h m (by rw [hAll]; simp)
    simp only [Bool.not_eq_true'] at hm
    rw [hm.1] at hm
    exact Bool.noConfusion hm.2

theorem findNode_some_count_pos (p : Node → Bool) (F : List Node) (x : Node)
    (h : findNode p F = some x) : 0 < countNodes p F := by
  rw [findNode_eq_head] at h
  rw [countNodes]
  match hAll : findAllNodes p F with
  | [] => rw [hAll] at h; exact Option.noConfusion h
  | m :: ms => simp

theorem findNode_none_of_allNot (p : Node → Bool) (F : List Node)
    (h : allNodes (fun n => !p n) F = true) : findNode p F = none :=
  (findNode_eq_none_iff_count p F).mpr (countNodes_eq_zero_of_allNot p F h)

theorem mem_pyInsertIdx_self (x : Node) : ∀ (i : Nat) (l : List Node), x ∈ pyInsertIdx x i l
  | 0, l => by simp [pyInsertIdx]
  | i + 1, [] => by simp [pyInsertIdx]
  | i + 1, a :: l => by
    simp only [pyInsertIdx, List.mem_cons]
    exact Or.inr (mem_pyInsertIdx_self x i l)

theorem mem_pyInsertIdx_of_mem (x y : Node) :
    ∀ (i : Nat) (l : List Node), y ∈ l → y ∈ pyInsertIdx x i l
  | 0, l => by
    intro h
    simp only [pyInsertIdx, List.mem_cons]
    tauto
  | i + 1, [] => by intro h; simp at h
  | i + 1, a :: l => by
    intro h
    simp only [pyInsertIdx, List.mem_cons]
    simp only [List.mem_cons] at h
    rcases h with rfl | h
    · exact Or.inl rfl
    · exact Or.inr (mem_pyInsertIdx_of_mem x y i l h)

theorem countNodes_pyInsertIdx (p : Node → Bool) (x : Node) :
    ∀ (i : Nat) (l : List Node),
      countNodes p (pyInsertIdx x i l) = countNodes p l + countNodes p [x]
  | 0, l => by
    rw [pyInsertIdx, countNodes_cons]
    omega
  | i + 1, [] => by
    rw [pyInsertIdx]
    simp [countNodes, findAllNodes]
  | i + 1, a :: l => by
    rw [pyInsertIdx, countNodes_cons, countNodes_pyInsertIdx p x i l,
      countNodes_cons p a l]
    omega

namespace HtmlSanitizationService

/-- Invariant: step 2's removal condition and the Tailwind-match condition
agree on every node (scripts are either allow-listed keepers or
Tailwind-matching). -/
def pA (n : Node) : Bool := scriptRemovable n == isTwScript n

/-- Invariant: every Tailwind-matching script is the canonical childless
`twNew` node that step 7 injects. -/
def pB (n : Node) : Bool := !isTwScript n || n == twNew

theorem shallow_pA : Shallow pA := fun t a cs cs' => by
  simp only [pA, shallow_scriptRemovable t a cs cs', shallow_isTwScript t a cs cs']

theorem pB_of_notTw {n : Node} (h : isTwScript n = false) : pB n = true := by
  simp [pB, h]

theorem pB_elem_stable (t : String) (a : List (String × String)) (cs cs' : List Node)
    (hne : cs = [] → cs' = []) (h : pB (.elem t a cs) = true) :
    pB (.elem t a cs') = true := by
  simp only [pB, Bool.or_eq_true, Bool.not_eq_true'] at h ⊢
  rcases h with h | h
  · exact Or.inl (by rw [shallow_isTwScript t a cs' cs]; exact h)
  · rw [beq_iff_eq] at h
    injection h with ht ha hc
    subst ht
    subst ha
    right
    rw [hne hc]
    rfl

end HtmlSanitizationService

theorem allNodes_pyInsertIdx (p : Node → Bool) (x : Node) (hx : allIn p x = true) :
    ∀ (i : Nat) (l : List Node), allNodes p l = true → allNodes p (pyInsertIdx x i l) = true
  | 0, l => fun h => by
    rw [pyInsertIdx, allNodes_cons, hx, h]
    rfl
  | i + 1, [] => fun _ => by
    rw [pyInsertIdx, allNodes_cons, hx]
    rfl
  | i + 1, a :: l => fun h => by
    rw [allNodes_cons, Bool.and_eq_true] at h
    rw [pyInsertIdx, allNodes_cons, h.1, allNodes_pyInsertIdx p x hx i l h.2]
    rfl

theorem roots_of_allNodes (p : Node → Bool) :
    ∀ F, allNodes p F = true → F.all p = true
  | [] => fun _ => rfl
  | n :: ns => fun h => by
    rw [allNodes_cons, Bool.and_eq_true] at h
    rw [List.all_cons, allIn_self p n h.1, roots_of_allNodes p ns h.2]
    rfl

namespace HtmlSanitizationService

theorem count_insertChild0 (p : Node → Bool) (hp : Shallow p) (x n : Node)
    (hn : ∃ t a cs, n = .elem t a cs) :
    countNodes p [insertChild0 x n] = countNodes p [n] + countNodes p [x] := by
  obtain ⟨t, a, cs, rfl⟩ := hn
  rw [insertChild0, countNodes_elem, countNodes_cons, countNodes_elem p t a cs,
    hp t a (x :: cs) cs]
  omega

theorem count_appendChild (p : Node → Bool) (hp : Shallow p) (x n : Node)
    (hn : ∃ t a cs, n = .elem t a cs) :
    countNodes p [appendChild x n] = countNodes p [n] + countNodes p [x] := by
  obtain ⟨t, a, cs, rfl⟩ := hn
  rw [appendChild, countNodes_elem, countNodes_append, countNodes_elem p t a cs,
    hp t a (cs ++ [x]) cs]
  omega

theorem count_insertChildAt (p : Node → Bool) (hp : Shallow p) (i : Nat) (x n : Node)
    (hn : ∃ t a cs, n = .elem t a cs) :
    countNodes p [insertChildAt i x n] = countNodes p [n] + countNodes p [x] := by
  obtain ⟨t, a, cs, rfl⟩ := hn
  rw [insertChildAt, countNodes_elem, countNodes_pyInsertIdx, countNodes_elem p t a cs,
    hp t a (pyInsertIdx x i cs) cs]
  omega

theorem allIn_insertChild0 (p : Node → Bool) (hp : Shallow p) (x n : Node)
    (hx : allIn p x = true) (hn : allIn p n = true) : allIn p (insertChild0 x n) = true := by
  cases n with
  | elem t a cs =>
    simp only [allIn, Bool.and_eq_true] at hn
    simp only [insertChild0, allIn, allNodes_cons, Bool.and_eq_true]
    exact ⟨by rw [hp t a (x :: cs) cs]; exact hn.1, hx, hn.2⟩
  | text s => exact hn
  | doctype d => exact hn

theorem allIn_appendChild (p : Node → Bool) (hp : Shallow p) (x n : Node)
    (hx : allIn p x = true) (hn : allIn p n = true) : allIn p (appendChild x n) = true := by
  cases n with
  | elem t a cs =>
    simp only [allIn, Bool.and_eq_true] at hn
    simp only [appendChild, allIn, allNodes_append, Bool.and_eq_true]
    exact ⟨by rw [hp t a (cs ++ [x]) cs]; exact hn.1, hn.2, by
      rw [allNodes_cons, hx]; rfl⟩
  | text s => exact hn
  | doctype d => exact hn

theorem allIn_insertChildAt (p : Node → Bool) (hp : Shallow p) (i : Nat) (x n : Node)
    (hx : allIn p x = true) (hn : allIn p n = true) : allIn p (insertChildAt i x n) = true := by
  cases n with
  | elem t a cs =>
    simp only [allIn, Bool.and_eq_true] at hn
    simp only [insertChildAt, allIn, Bool.and_eq_true]
    exact ⟨by rw [hp t a (pyInsertIdx x i cs) cs]; exact hn.1,
      allNodes_pyInsertIdx p x hx i cs hn.2⟩
  | text s => exact hn
  | doctype d => exact hn

theorem isHead_elem (n : Node) (h : isHeadTag n = true) :
    ∃ a cs, n = .elem "head" a cs := by
  cases n with
  | elem t a cs =>
    simp only [isHeadTag, beq_iff_eq] at h
    exact ⟨a, cs, by rw [h]⟩
  | text s => exact Bool.noConfusion h
  | doctype d => exact Bool.noConfusion h

theorem isHtml_elem (n : Node) (h : isHtmlTag n = true) :
    ∃ a cs, n = .elem "html" a cs := by
  cases n with
  | elem t a cs =>
    simp only [isHtmlTag, beq_iff_eq] at h
    exact ⟨a, cs, by rw [h]⟩
  | text s => exact Bool.noConfusion h
  | doctype d => exact Bool.noConfusion h

theorem head_not_tw (n : Node) (h : isHeadTag n = true) : isTwScript n = false := by
  obtain ⟨a, cs, rfl⟩ := isHead_elem n h
  rfl

/-- `insertChild0`, `appendChild`, `insertChildAt` keep a head a head. -/
theorem isHead_insertChild0 (x n : Node) (h : isHeadTag n = true) :
    isHeadTag (insertChild0 x n) = true := by
  obtain ⟨a, cs, rfl⟩ := isHead_elem n h
  rfl

theorem isHead_appendChild (x n : Node) (h : isHeadTag n = true) :
    isHeadTag (appendChild x n) = true := by
  obtain ⟨a, cs, rfl⟩ := isHead_elem n h
  rfl

theorem isHead_insertChildAt (i : Nat) (x n : Node) (h : isHeadTag n = true) :
    isHeadTag (insertChildAt i x n) = true := by
  obtain ⟨a, cs, rfl⟩ := isHead_elem n h
  rfl

end HtmlSanitizationService

namespace HtmlSanitizationService

theorem pB_filter_stable (q : Node → Bool) (t : String) (a : List (String × String))
    (cs : List Node) (h : pB (.elem t a cs) = true) :
    pB (.elem t a (filterForest q cs)) = true :=
  pB_elem_stable t a cs _ (fun hcs => by rw [hcs]; rfl) h

theorem pB_update_stable (q : Node → Bool) (f : Node → Node) (t : String)
    (a : List (String × String)) (cs cs' : List Node)
    (hrec : updateFirstA q f cs = some cs') (h : pB (.elem t a cs) = true) :
    pB (.elem t a cs') = true :=
  pB_elem_stable t a cs cs'
    (fun hcs => by rw [hcs] at hrec; exact Option.noConfusion hrec) h

theorem pB_strip_stable (t : String) (a : List (String × String)) (cs : List Node)
    (h : pB (.elem t a cs) = true) :
    pB (.elem t (a.filter fun kv => !(pyStartsWith kv.1 "on"))
        (stripOnForest cs)) = true := by
  simp only [pB, Bool.or_eq_true, Bool.not_eq_true'] at h ⊢
  rcases h with h | h
  · left
    rw [strip_inv_isTwScript t a cs (stripOnForest cs)]
    exact h
  · rw [beq_iff_eq] at h
    injection h with ht ha hc
    subst ht
    subst ha
    subst hc
    right
    rfl

/-- The facts established by the full pipeline runs of steps 2–10. -/
structure PipeFacts (F : List Node) : Prop where
  pa : allNodes pA F = true
  pb : allNodes pB F = true
  onA : allNodes noOnAttrs F = true
  sty : allNodes (fun n => !isStyleTag n) F = true
  htmlPos : 0 < countNodes isHtmlTag F
  headPos : 0 < countNodes isHeadTag F
  tw1 : countNodes isTwScript F = 1
  csPos : 0 < countNodes isCharsetMeta F
  vpPos : 0 < countNodes isViewportMeta F
  roots : F.all (fun n => !isTwScript n) = true
  headTw : ∃ a cs, findNode isHeadTag F = some (.elem "head" a cs) ∧ twNew ∈ cs

end HtmlSanitizationService

namespace HtmlSanitizationService

theorem step6_facts (t : List Node) :
    allNodes pA (step6 (step5 (step4 (step3 (step2 t))))) = true ∧
    allNodes noOnAttrs (step6 (step5 (step4 (step3 (step2 t))))) = true ∧
    allNodes (fun n => !isStyleTag n) (step6 (step5 (step4 (step3 (step2 t))))) = true ∧
    allNodes (fun n => !isTwScript n) (step6 (step5 (step4 (step3 (step2 t))))) = true ∧
    0 < countNodes isHtmlTag (step6 (step5 (step4 (step3 (step2 t))))) ∧
    0 < countNodes isHeadTag (step6 (step5 (step4 (step3 (step2 t))))) := by
  -- step 2: all scripts removed unless allow-listed; no Tailwind script survives
  have h2clear : allNodes (fun n => !scriptRemovable n) (step2 t) = true :=
    filterForest_clears _ shallow_scriptRemovable t
  have h2pA : allNodes pA (step2 t) = true := by
    refine allNodes_mono _ _ (fun n hn => ?_) _ h2clear
    simp only [Bool.not_eq_true'] at hn
    simp only [pA, hn]
    match hisTw : isTwScript n with
    | false => rfl
    | true => rw [isTw_removable n hisTw] at hn; exact Bool.noConfusion hn
  have h2tw : allNodes (fun n => !isTwScript n) (step2 t) = true := by
    refine allNodes_mono _ _ (fun n hn => ?_) _ h2clear
    simp only [Bool.not_eq_true'] at hn ⊢
    match hisTw : isTwScript n with
    | false => rfl
    | true => rw [isTw_removable n hisTw] at hn; exact Bool.noConfusion hn
  -- step 3
  have h3pA : allNodes pA (step3 (step2 t)) = true := by
    refine stripOnForest_all pA (fun t' a cs h => ?_) _ h2pA
    simp only [pA] at h ⊢
    rw [strip_inv_scriptRemovable t' a cs (stripOnForest cs),
      strip_inv_isTwScript t' a cs (stripOnForest cs)]
    exact h
  have h3tw : allNodes (fun n => !isTwScript n) (step3 (step2 t)) = true := by
    refine stripOnForest_all _ (fun t' a cs h => ?_) _ h2tw
    rw [Bool.not_eq_true'] at h ⊢
    rw [strip_inv_isTwScript t' a cs (stripOnForest cs)]
    exact h
  have h3on : allNodes noOnAttrs (step3 (step2 t)) = true := stripOnForest_clears _
  -- step 4
  have h4sty : allNodes (fun n => !isStyleTag n) (step4 (step3 (step2 t))) = true :=
    filterForest_clears _ shallow_isStyleTag _
  have h4pA : allNodes pA (step4 (step3 (step2 t))) = true := by
    refine filterForest_preserves pA _ (fun t' a cs h => ?_) _ h3pA
    rw [shallow_pA t' a (filterForest isStyleTag cs) cs]
    exact h
  have h4tw : allNodes (fun n => !isTwScript n) (step4 (step3 (step2 t))) = true := by
    refine filterForest_preserves _ _ (fun t' a cs h => ?_) _ h3tw
    rw [Bool.not_eq_true'] at h ⊢
    rw [shallow_isTwScript t' a (filterForest isStyleTag cs) cs]
    exact h
  have h4on : allNodes noOnAttrs (step4 (step3 (step2 t))) = true := by
    refine filterForest_preserves _ _ (fun t' a cs h => ?_) _ h3on
    rw [shallow_noOnAttrs t' a (filterForest isStyleTag cs) cs]
    exact h
  -- step 5
  have h5 : allNodes pA (step5 (step4 (step3 (step2 t)))) = true ∧
      allNodes noOnAttrs (step5 (step4 (step3 (step2 t)))) = true ∧
      allNodes (fun n => !isStyleTag n) (step5 (step4 (step3 (step2 t)))) = true ∧
      allNodes (fun n => !isTwScript n) (step5 (step4 (step3 (step2 t)))) = true ∧
      0 < countNodes isHtmlTag (step5 (step4 (step3 (step2 t)))) := by
    match hfh : findNode isHtmlTag (step4 (step3 (step2 t))) with
    | some x =>
      rw [step5_found hfh]
      exact ⟨h4pA, h4on, h4sty, h4tw, findNode_some_count_pos _ _ x hfh⟩
    | none =>
      rw [step5_wrap hfh]
      refine ⟨?_, ?_, ?_, ?_, ?_⟩
      · rw [allNodes_cons, allIn, Bool.and_eq_true, Bool.and_eq_true]
        exact ⟨⟨by rw [shallow_pA "html" _ _ []]; decide, h4pA⟩, rfl⟩
      · rw [allNodes_cons, allIn, Bool.and_eq_true, Bool.and_eq_true]
        exact ⟨⟨by rw [shallow_noOnAttrs "html" _ _ []]; decide, h4on⟩, rfl⟩
      · rw [allNodes_cons, allIn, Bool.and_eq_true, Bool.and_eq_true]
        exact ⟨⟨by rw [shallow_isStyleTag "html" _ _ []]; decide, h4sty⟩, rfl⟩
      · rw [allNodes_cons, allIn, Bool.and_eq_true, Bool.and_eq_true]
        exact ⟨⟨by rw [shallow_isTwScript "html" _ _ []]; decide, h4tw⟩, rfl⟩
      · rw [countNodes_cons, countNodes_elem]
        simp [isHtmlTag]
  obtain ⟨h5pA, h5on, h5sty, h5tw, h5html⟩ := h5
  -- step 6
  match hfh : findNode isHeadTag (step5 (step4 (step3 (step2 t)))) with
  | some x =>
    rw [step6_found hfh]
    exact ⟨h5pA, h5on, h5sty, h5tw, h5html, findNode_some_count_pos _ _ x hfh⟩
  | none =>
    obtain ⟨hh, hfind, hhtml⟩ := findNode_isSome_of_count isHtmlTag _ h5html
    have hupd : updateFirstA isHtmlTag (insertChild0 (.elem "head" [] [])) 
        (step5 (step4 (step3 (step2 t)))) ≠ none := by
      rw [Ne, updateFirstA_none_iff, hfind]
      simp
    match hrec : updateFirstA isHtmlTag (insertChild0 (.elem "head" [] []))
        (step5 (step4 (step3 (step2 t)))) with
    | none => exact absurd hrec hupd
    | some F6 =>
      rw [step6_insert hfh]
      have hF6 : updateFirst isHtmlTag (insertChild0 (.elem "head" [] []))
          (step5 (step4 (step3 (step2 t)))) = F6 := by
        rw [updateFirst, hrec]; rfl
      rw [hF6]
      have helem := isHtml_elem hh hhtml
      obtain ⟨aH, csH, rfl⟩ := helem
      have hcount := fun (p : Node → Bool) (hp : Shallow p) =>
        updateFirstA_count p isHtmlTag (insertChild0 (.elem "head" [] [])) hp _ F6 hrec
      refine ⟨?_, ?_, ?_, ?_, ?_, ?_⟩
      · refine updateFirstA_all pA _ _ (fun t' a cs cs' _ h => by
          rw [shallow_pA t' a cs' cs]; exact h)
          (fun n hn hq => ?_) _ F6 hrec h5pA
        obtain ⟨a, cs, rfl⟩ := isHtml_elem n hq
        refine allIn_insertChild0 pA shallow_pA _ _ (by decide) hn
      · refine updateFirstA_all noOnAttrs _ _ (fun t' a cs cs' _ h => by
          rw [shallow_noOnAttrs t' a cs' cs]; exact h)
          (fun n hn hq => ?_) _ F6 hrec h5on
        exact allIn_insertChild0 _ shallow_noOnAttrs _ _ (by decide) hn
      · refine updateFirstA_all _ _ _ (fun t' a cs cs' _ h => by
          rw [Bool.not_eq_true'] at h ⊢
          rw [shallow_isStyleTag t' a cs' cs]; exact h)
          (fun n hn hq => ?_) _ F6 hrec h5sty
        exact allIn_insertChild0 _ (shallow_not _ shallow_isStyleTag) _ _ (by decide) hn
      · refine updateFirstA_all _ _ _ (fun t' a cs cs' _ h => by
          rw [Bool.not_eq_true'] at h ⊢
          rw [shallow_isTwScript t' a cs' cs]; exact h)
          (fun n hn hq => ?_) _ F6 hrec h5tw
        exact allIn_insertChild0 _ (shallow_not _ shallow_isTwScript) _ _ (by decide) hn
      · obtain ⟨h', hfind', hcnt⟩ := hcount isHtmlTag shallow_isHtmlTag
        rw [hfind] at hfind'
        obtain rfl : Node.elem "html" aH csH = h' := by
          simpa using hfind'
        rw [count_insertChild0 isHtmlTag shallow_isHtmlTag _ _ ⟨_, _, _, rfl⟩] at hcnt
        omega
      · obtain ⟨h', hfind', hcnt⟩ := hcount isHeadTag shallow_isHeadTag
        rw [hfind] at hfind'
        obtain rfl : Node.elem "html" aH csH = h' := by
          simpa using hfind'
        rw [count_insertChild0 isHeadTag shallow_isHeadTag _ _ ⟨_, _, _, rfl⟩] at hcnt
        have : countNodes isHeadTag [Node.elem "head" [] []] = 1 := by decide
        omega

end HtmlSanitizationService

namespace HtmlSanitizationService

/-- All facts the claims need about a full run of steps 2–10, for every
parse tree; moreover step 10 never fires (steps 2 and 7 leave exactly one
Tailwind script), so the pipeline equals its first nine steps. -/
theorem sanitizeSteps_facts (t : List Node) : PipeFacts (sanitizeSteps t) ∧
    sanitizeSteps t = step9 (step8 (step7 (step6 (step5 (step4 (step3 (step2 t))))))) := by
  obtain ⟨h6pA, h6on, h6sty, h6tw, h6html, h6head⟩ := step6_facts t
  have h6pB : allNodes pB (step6 (step5 (step4 (step3 (step2 t))))) = true := by
    refine allNodes_mono _ _ (fun n hn => ?_) _ h6tw
    rw [Bool.not_eq_true'] at hn
    exact pB_of_notTw hn
  have h6twcnt : countNodes isTwScript (step6 (step5 (step4 (step3 (step2 t))))) = 0 :=
    countNodes_eq_zero_of_allNot _ _ h6tw
  have h6roots : (step6 (step5 (step4 (step3 (step2 t))))).all (fun n => !isTwScript n) = true :=
    roots_of_allNodes _ _ h6tw
  -- step 7 appends the canonical Tailwind script to the first head
  have h7eq : step7 (step6 (step5 (step4 (step3 (step2 t)))))
      = updateFirst isHeadTag (appendChild twNew) (step6 (step5 (step4 (step3 (step2 t))))) :=
    step7_append (findNode_none_of_allNot _ _ h6tw)
  obtain ⟨hh, hfind, hhead⟩ := findNode_isSome_of_count isHeadTag _ h6head
  have hupd : updateFirstA isHeadTag (appendChild twNew)
      (step6 (step5 (step4 (step3 (step2 t))))) ≠ none := by
    rw [Ne, updateFirstA_none_iff, hfind]
    simp
  match hrec : updateFirstA isHeadTag (appendChild twNew)
      (step6 (step5 (step4 (step3 (step2 t))))) with
  | none => exact absurd hrec hupd
  | some F7 =>
  have hF7 : step7 (step6 (step5 (step4 (step3 (step2 t))))) = F7 := by
    rw [h7eq, updateFirst, hrec]; rfl
  obtain ⟨a7, cs7, rfl⟩ := isHead_elem hh hhead
  have hcount7 := fun (p : Node → Bool) (hp : Shallow p) =>
    updateFirstA_count p isHeadTag (appendChild twNew) hp _ F7 hrec
  have h7pA : allNodes pA F7 = true := by
    refine updateFirstA_all pA _ _ (fun t' a cs cs' _ h => by
      rw [shallow_pA t' a cs' cs]; exact h) (fun n hn hq => ?_) _ F7 hrec h6pA
    exact allIn_appendChild pA shallow_pA _ _ (by decide) hn
  have h7pB : allNodes pB F7 = true := by
    refine updateFirstA_all pB _ _ (fun t' a cs cs' hr h => pB_update_stable _ _ t' a cs cs' hr h)
      (fun n hn hq => ?_) _ F7 hrec h6pB
    obtain ⟨a, cs, rfl⟩ := isHead_elem n hq
    simp only [appendChild, allIn, Bool.and_eq_true]
    refine ⟨?_, ?_⟩
    · simp [pB, isTwScript, isScriptTag]
    · rw [allNodes_append]
      simp only [allIn, Bool.and_eq_true] at hn
      rw [hn.2]
      simp only [Bool.true_and]
      rw [allNodes_cons]
      have : allIn pB twNew = true := by decide
      rw [this]
      rfl
  have h7on : allNodes noOnAttrs F7 = true := by
    refine updateFirstA_all noOnAttrs _ _ (fun t' a cs cs' _ h => by
      rw [shallow_noOnAttrs t' a cs' cs]; exact h) (fun n hn hq => ?_) _ F7 hrec h6on
    exact allIn_appendChild _ shallow_noOnAttrs _ _ (by decide) hn
  have h7sty : allNodes (fun n => !isStyleTag n) F7 = true := by
    refine updateFirstA_all _ _ _ (fun t' a cs cs' _ h => by
      rw [Bool.not_eq_true'] at h ⊢
      rw [shallow_isStyleTag t' a cs' cs]; exact h) (fun n hn hq => ?_) _ F7 hrec h6sty
    exact allIn_appendChild _ (shallow_not _ shallow_isStyleTag) _ _ (by decide) hn
  have h7html : 0 < countNodes isHtmlTag F7 := by
    obtain ⟨h', hfind', hcnt⟩ := hcount7 isHtmlTag shallow_isHtmlTag
    rw [hfind] at hfind'
    obtain rfl : Node.elem "head" a7 cs7 = h' := by simpa using hfind'
    rw [count_appendChild isHtmlTag shallow_isHtmlTag _ _ ⟨_, _, _, rfl⟩] at hcnt
    have : countNodes isHtmlTag [twNew] = 0 := by decide
    omega
  have h7head : 0 < countNodes isHeadTag F7 := by
    obtain ⟨h', hfind', hcnt⟩ := hcount7 isHeadTag shallow_isHeadTag
    rw [hfind] at hfind'
    obtain rfl : Node.elem "head" a7 cs7 = h' := by simpa using hfind'
    rw [count_appendChild isHeadTag shallow_isHeadTag _ _ ⟨_, _, _, rfl⟩] at hcnt
    have : countNodes isHeadTag [twNew] = 0 := by decide
    have hpos : 0 < countNodes isHeadTag [Node.elem "head" a7 cs7] := by
      rw [countNodes_elem]
      simp [isHeadTag]
    omega
  have h7tw : countNodes isTwScript F7 = 1 := by
    obtain ⟨h', hfind', hcnt⟩ := hcount7 isTwScript shallow_isTwScript
    rw [hfind] at hfind'
    obtain rfl : Node.elem "head" a7 cs7 = h' := by simpa using hfind'
    rw [count_appendChild isTwScript shallow_isTwScript _ _ ⟨_, _, _, rfl⟩] at hcnt
    have : countNodes isTwScript [twNew] = 1 := by decide
    omega
  have h7roots : F7.all (fun n => !isTwScript n) = true := by
    refine updateFirstA_roots _ _ _ (shallow_not _ shallow_isTwScript)
      (fun n hq hn => ?_) _ F7 hrec h6roots
    rw [Bool.not_eq_true']
    exact head_not_tw _ (isHead_appendChild twNew n hq)
  have h7headTw : ∃ a cs, findNode isHeadTag F7 = some (.elem "head" a cs) ∧ twNew ∈ cs := by
    obtain ⟨h', hfind', hpres⟩ := updateFirstA_find isHeadTag (appendChild twNew)
      shallow_isHeadTag _ F7 hrec
    rw [hfind] at hfind'
    obtain rfl : Node.elem "head" a7 cs7 = h' := by simpa using hfind'
    refine ⟨a7, cs7 ++ [twNew], hpres (isHead_appendChild _ _ hhead), by simp⟩
  clear hcount7 hupd hrec hfind hhead h6pA h6pB h6on h6sty h6tw h6twcnt h6roots h6html h6head
  -- step 8
  have h8 : allNodes pA (step8 F7) = true ∧ allNodes pB (step8 F7) = true ∧
      allNodes noOnAttrs (step8 F7) = true ∧
      allNodes (fun n => !isStyleTag n) (step8 F7) = true ∧
      0 < countNodes isHtmlTag (step8 F7) ∧ 0 < countNodes isHeadTag (step8 F7) ∧
      countNodes isTwScript (step8 F7) = 1 ∧ 0 < countNodes isCharsetMeta (step8 F7) ∧
      (step8 F7).all (fun n => !isTwScript n) = true ∧
      (∃ a cs, findNode isHeadTag (step8 F7) = some (.elem "head" a cs) ∧ twNew ∈ cs) := by
    match hfc : findNode isCharsetMeta F7 with
    | some x =>
      rw [step8_found hfc]
      exact ⟨h7pA, h7pB, h7on, h7sty, h7html, h7head, h7tw,
        findNode_some_count_pos _ _ x hfc, h7roots, h7headTw⟩
    | none =>
      obtain ⟨a8, cs8, hfind8, htw8⟩ := h7headTw
      have hupd : updateFirstA isHeadTag (insertChild0 charsetNew) F7 ≠ none := by
        rw [Ne, updateFirstA_none_iff, hfind8]
        simp
      match hrec : updateFirstA isHeadTag (insertChild0 charsetNew) F7 with
      | none => exact absurd hrec hupd
      | some F8 =>
      have hF8 : step8 F7 = F8 := by
        rw [step8_insert hfc, updateFirst, hrec]; rfl
      rw [hF8]
      have hcount8 := fun (p : Node → Bool) (hp : Shallow p) =>
        updateFirstA_count p isHeadTag (insertChild0 charsetNew) hp _ F8 hrec
      have hhd : isHeadTag (Node.elem "head" a8 cs8) = true := by simp [isHeadTag]
      refine ⟨?_, ?_, ?_, ?_, ?_, ?_, ?_, ?_, ?_, ?_⟩
      · refine updateFirstA_all pA _ _ (fun t' a cs cs' _ h => by
          rw [shallow_pA t' a cs' cs]; exact h) (fun n hn hq => ?_) _ F8 hrec h7pA
        exact allIn_insertChild0 pA shallow_pA _ _ (by decide) hn
      · refine updateFirstA_all pB _ _
          (fun t' a cs cs' hr h => pB_update_stable _ _ t' a cs cs' hr h)
          (fun n hn hq => ?_) _ F8 hrec h7pB
        obtain ⟨a, cs, rfl⟩ := isHead_elem n hq
        simp only [insertChild0, allIn, Bool.and_eq_true]
        refine ⟨by simp [pB, isTwScript, isScriptTag], ?_⟩
        rw [allNodes_cons]
        simp only [allIn, Bool.and_eq_true] at hn
        rw [hn.2]
        have : allIn pB charsetNew = true := by decide
        rw [this]
        rfl
      · refine updateFirstA_all noOnAttrs _ _ (fun t' a cs cs' _ h => by
          rw [shallow_noOnAttrs t' a cs' cs]; exact h) (fun n hn hq => ?_) _ F8 hrec h7on
        exact allIn_insertChild0 _ shallow_noOnAttrs _ _ (by decide) hn
      · refine updateFirstA_all _ _ _ (fun t' a cs cs' _ h => by
          rw [Bool.not_eq_true'] at h ⊢
          rw [shallow_isStyleTag t' a cs' cs]; exact h) (fun n hn hq => ?_) _ F8 hrec h7sty
        exact allIn_insertChild0 _ (shallow_not _ shallow_isStyleTag) _ _ (by decide) hn
      · obtain ⟨h', hfind', hcnt⟩ := hcount8 isHtmlTag shallow_isHtmlTag
        rw [hfind8] at hfind'
        obtain rfl : Node.elem "head" a8 cs8 = h' := by simpa using hfind'
        rw [count_insertChild0 isHtmlTag shallow_isHtmlTag _ _ ⟨_, _, _, rfl⟩] at hcnt
        have : countNodes isHtmlTag [charsetNew] = 0 := by decide
        omega
      · obtain ⟨h', hfind', hcnt⟩ := hcount8 isHeadTag shallow_isHeadTag
        rw [hfind8] at hfind'
        obtain rfl : Node.elem "head" a8 cs8 = h' := by simpa using hfind'
        rw [count_insertChild0 isHeadTag shallow_isHeadTag _ _ ⟨_, _, _, rfl⟩] at hcnt
        have hpos : 0 < countNodes isHeadTag [Node.elem "head" a8 cs8] := by
          rw [countNodes_elem]
          simp [isHeadTag]
        omega
      · obtain ⟨h', hfind', hcnt⟩ := hcount8 isTwScript shallow_isTwScript
        rw [hfind8] at hfind'
        obtain rfl : Node.elem "head" a8 cs8 = h' := by simpa using hfind'
        rw [count_insertChild0 isTwScript shallow_isTwScript _ _ ⟨_, _, _, rfl⟩] at hcnt
        have : countNodes isTwScript [charsetNew] = 0 := by decide
        omega
      · obtain ⟨h', hfind', hcnt⟩ := hcount8 isCharsetMeta shallow_isCharsetMeta
        rw [hfind8] at hfind'
        obtain rfl : Node.elem "head" a8 cs8 = h' := by simpa using hfind'
        rw [count_insertChild0 isCharsetMeta shallow_isCharsetMeta _ _ ⟨_, _, _, rfl⟩] at hcnt
        have : countNodes isCharsetMeta [charsetNew] = 1 := by decide
        omega
      · refine updateFirstA_roots _ _ _ (shallow_not _ shallow_isTwScript)
          (fun n hq hn => ?_) _ F8 hrec h7roots
        rw [Bool.not_eq_true']
        exact head_not_tw _ (isHead_insertChild0 charsetNew n hq)
      · obtain ⟨h', hfind', hpres⟩ := updateFirstA_find isHeadTag (insertChild0 charsetNew)
          shallow_isHeadTag _ F8 hrec
        rw [hfind8] at hfind'
        obtain rfl : Node.elem "head" a8 cs8 = h' := by simpa using hfind'
        exact ⟨a8, charsetNew :: cs8, hpres (isHead_insertChild0 _ _ hhd), by simp [htw8]⟩
  obtain ⟨h8pA, h8pB, h8on, h8sty, h8html, h8head, h8tw, h8cs, h8roots, h8headTw⟩ := h8
  -- step 9
  have h9 : allNodes pA (step9 (step8 F7)) = true ∧ allNodes pB (step9 (step8 F7)) = true ∧
      allNodes noOnAttrs (step9 (step8 F7)) = true ∧
      allNodes (fun n => !isStyleTag n) (step9 (step8 F7)) = true ∧
      0 < countNodes isHtmlTag (step9 (step8 F7)) ∧
      0 < countNodes isHeadTag (step9 (step8 F7)) ∧
      countNodes isTwScript (step9 (step8 F7)) = 1 ∧
      0 < countNodes isCharsetMeta (step9 (step8 F7)) ∧
      0 < countNodes isViewportMeta (step9 (step8 F7)) ∧
      (step9 (step8 F7)).all (fun n => !isTwScript n) = true ∧
      (∃ a cs, findNode isHeadTag (step9 (step8 F7)) = some (.elem "head" a cs) ∧
        twNew ∈ cs) := by
    match hfv : findNode isViewportMeta (step8 F7) with
    | some x =>
      rw [step9_found hfv]
      exact ⟨h8pA, h8pB, h8on, h8sty, h8html, h8head, h8tw, h8cs,
        findNode_some_count_pos _ _ x hfv, h8roots, h8headTw⟩
    | none =>
      obtain ⟨a9, cs9, hfind9, htw9⟩ := h8headTw
      have hupd : updateFirstA isHeadTag (insertChildAt 1 viewportNew) (step8 F7) ≠ none := by
        rw [Ne, updateFirstA_none_iff, hfind9]
        simp
      match hrec : updateFirstA isHeadTag (insertChildAt 1 viewportNew) (step8 F7) with
      | none => exact absurd hrec hupd
      | some F9 =>
      have hF9 : step9 (step8 F7) = F9 := by
        rw [step9_insert hfv, updateFirst, hrec]; rfl
      rw [hF9]
      have hcount9 := fun (p : Node → Bool) (hp : Shallow p) =>
        updateFirstA_count p isHeadTag (insertChildAt 1 viewportNew) hp _ F9 hrec
      have hhd : isHeadTag (Node.elem "head" a9 cs9) = true := by simp [isHeadTag]
      refine ⟨?_, ?_, ?_, ?_, ?_, ?_, ?_, ?_, ?_, ?_, ?_⟩
      · refine updateFirstA_all pA _ _ (fun t' a cs cs' _ h => by
          rw [shallow_pA t' a cs' cs]; exact h) (fun n hn hq => ?_) _ F9 hrec h8pA
        exact allIn_insertChildAt pA shallow_pA _ _ _ (by decide) hn
      · refine updateFirstA_all pB _ _
          (fun t' a cs cs' hr h => pB_update_stable _ _ t' a cs cs' hr h)
          (fun n hn hq => ?_) _ F9 hrec h8pB
        obtain ⟨a, cs, rfl⟩ := isHead_elem n hq
        simp only [insertChildAt, allIn, Bool.and_eq_true]
        refine ⟨by simp [pB, isTwScript, isScriptTag], ?_⟩
        simp only [allIn, Bool.and_eq_true] at hn
        exact allNodes_pyInsertIdx pB viewportNew (by decide) 1 cs hn.2
      · refine updateFirstA_all noOnAttrs _ _ (fun t' a cs cs' _ h => by
          rw [shallow_noOnAttrs t' a cs' cs]; exact h) (fun n hn hq => ?_) _ F9 hrec h8on
        exact allIn_insertChildAt _ shallow_noOnAttrs _ _ _ (by decide) hn
      · refine updateFirstA_all _ _ _ (fun t' a cs cs' _ h => by
          rw [Bool.not_eq_true'] at h ⊢
          rw [shallow_isStyleTag t' a cs' cs]; exact h) (fun n hn hq => ?_) _ F9 hrec h8sty
        exact allIn_insertChildAt _ (shallow_not _ shallow_isStyleTag) _ _ _ (by decide) hn
      · obtain ⟨h', hfind', hcnt⟩ := hcount9 isHtmlTag shallow_isHtmlTag
        rw [hfind9] at hfind'
        obtain rfl : Node.elem "head" a9 cs9 = h' := by simpa using hfind'
        rw [count_insertChildAt isHtmlTag shallow_isHtmlTag _ _ _ ⟨_, _, _, rfl⟩] at hcnt
        have : countNodes isHtmlTag [viewportNew] = 0 := by decide
        omega
      · obtain ⟨h', hfind', hcnt⟩ := hcount9 isHeadTag shallow_isHeadTag
        rw [hfind9] at hfind'
        obtain rfl : Node.elem "head" a9 cs9 = h' := by simpa using hfind'
        rw [count_insertChildAt isHeadTag shallow_isHeadTag _ _ _ ⟨_, _, _, rfl⟩] at hcnt
        have hpos : 0 < countNodes isHeadTag [Node.elem "head" a9 cs9] := by
          rw [countNodes_elem]
          simp [isHeadTag]
        omega
      · obtain ⟨h', hfind', hcnt⟩ := hcount9 isTwScript shallow_isTwScript
        rw [hfind9] at hfind'
        obtain rfl : Node.elem "head" a9 cs9 = h' := by simpa using hfind'
        rw [count_insertChildAt isTwScript shallow_isTwScript _ _ _ ⟨_, _, _, rfl⟩] at hcnt
        have : countNodes isTwScript [viewportNew] = 0 := by decide
        omega
      · obtain ⟨h', hfind', hcnt⟩ := hcount9 isCharsetMeta shallow_isCharsetMeta
        rw [hfind9] at hfind'
        obtain rfl : Node.elem "head" a9 cs9 = h' := by simpa using hfind'
        rw [count_insertChildAt isCharsetMeta shallow_isCharsetMeta _ _ _ ⟨_, _, _, rfl⟩] at hcnt
        have : countNodes isCharsetMeta [viewportNew] = 0 := by decide
        omega
      · obtain ⟨h', hfind', hcnt⟩ := hcount9 isViewportMeta shallow_isViewportMeta
        rw [hfind9] at hfind'
        obtain rfl : Node.elem "head" a9 cs9 = h' := by simpa using hfind'
        rw [count_insertChildAt isViewportMeta shallow_isViewportMeta _ _ _ ⟨_, _, _, rfl⟩] at hcnt
        have : countNodes isViewportMeta [viewportNew] = 1 := by decide
        omega
      · refine updateFirstA_roots _ _ _ (shallow_not _ shallow_isTwScript)
          (fun n hq hn => ?_) _ F9 hrec h8roots
        rw [Bool.not_eq_true']
        exact head_not_tw _ (isHead_insertChildAt 1 viewportNew n hq)
      · obtain ⟨h', hfind', hpres⟩ := updateFirstA_find isHeadTag (insertChildAt 1 viewportNew)
          shallow_isHeadTag _ F9 hrec
        rw [hfind9] at hfind'
        obtain rfl : Node.elem "head" a9 cs9 = h' := by simpa using hfind'
        exact ⟨a9, pyInsertIdx viewportNew 1 cs9, hpres (isHead_insertChildAt _ _ _ hhd),
          mem_pyInsertIdx_of_mem _ _ 1 cs9 htw9⟩
  obtain ⟨h9pA, h9pB, h9on, h9sty, h9html, h9head, h9tw, h9cs, h9vp, h9roots, h9headTw⟩ := h9
  -- step 10 is the identity: exactly one Tailwind script exists
  have h10 : sanitizeSteps t = step9 (step8 F7) := by
    rw [sanitizeSteps, hF7]
    exact step10_id (by omega)
  rw [h10]
  refine ⟨⟨h9pA, h9pB, h9on, h9sty, h9html, h9head, h9tw, h9cs, h9vp, h9roots, h9headTw⟩, ?_⟩
  rw [hF7]

end HtmlSanitizationService

namespace HtmlSanitizationService

/-- C2: for every raw input — whether it contains zero, one, or several
inclusions of the Tailwind CDN resource — the output of sanitize contains
exactly one script node referencing that resource
(`isTwScript` is the predicate of the source's
`find_all('script', src=lambda x: x and TAILWIND_CDN in x)`), and the
canonical Tailwind script is a child of the head element. -/
theorem C2_exactly_one_tailwind_script_in_head (t : List Node) :
    countNodes isTwScript (sanitizeSteps t) = 1 ∧
    ∃ a cs, findNode isHeadTag (sanitizeSteps t) = some (.elem "head" a cs) ∧ twNew ∈ cs := by
  obtain ⟨⟨_, _, _, _, _, _, h1, _, _, _, h2⟩, _⟩ := sanitizeSteps_facts t
  exact ⟨h1, h2⟩

end HtmlSanitizationService

/- A zero match count means no node satisfies the predicate. -/
mutual
theorem allNot_of_findAll_nil (p : Node → Bool) :
    ∀ F, findAllNodes p F = [] → allNodes (fun n => !p n) F = true
  | [], _ => rfl
  | n :: ns, h => by
    simp only [findAllNodes, List.append_eq_nil] at h
    simp only [allNodes, Bool.and_eq_true]
    exact ⟨allNotIn_of_findAllIn_nil p n h.1, allNot_of_findAll_nil p ns h.2⟩
theorem allNotIn_of_findAllIn_nil (p : Node → Bool) :
    ∀ m, findAllIn p m = [] → allIn (fun n => !p n) m = true
  | .elem t a cs, h => by
    by_cases hc : p (.elem t a cs)
    · simp [findAllIn, hc] at h
    · simp only [findAllIn, hc, if_neg, List.nil_append] at h
      simp only [allIn, Bool.and_eq_true]
      exact ⟨by rw [Bool.not_eq_true']; exact Bool.eq_false_iff.mpr hc,
        allNot_of_findAll_nil p cs h⟩
  | .text s, h => by
    by_cases hc : p (.text s)
    · simp [findAllIn, hc] at h
    · show (!p (.text s)) = true
      rw [Bool.not_eq_true']
      exact Bool.eq_false_iff.mpr hc
  | .doctype d, h => by
    by_cases hc : p (.doctype d)
    · simp [findAllIn, hc] at h
    · show (!p (.doctype d)) = true
      rw [Bool.not_eq_true']
      exact Bool.eq_false_iff.mpr hc
end

theorem allNot_of_countNodes_eq_zero (p : Node → Bool) (F : List Node)
    (h : countNodes p F = 0) : allNodes (fun n => !p n) F = true := by
  rw [countNodes, List.length_eq_zero] at h
  exact allNot_of_findAll_nil p F h

/- The node returned by `find` satisfies the search predicate, and any
all-nodes invariant of the forest. -/
theorem findNode_sat (p : Node → Bool) (F : List Node) (x : Node)
    (h : findNode p F = some x) : p x = true := by
  rw [findNode_eq_head] at h
  match hA : findAllNodes p F with
  | [] => rw [hA] at h; exact Option.noConfusion h
  | m :: ms =>
    rw [hA] at h
    simp only [List.head?_cons, Option.some.injEq] at h
    subst h
    exact findAll_pred p F m (by rw [hA]; exact List.mem_cons_self _ _)

theorem findNode_sat_all (p q : Node → Bool) (F : List Node) (x : Node)
    (hall : allNodes q F = true) (h : findNode p F = some x) : q x = true := by
  rw [findNode_eq_head] at h
  match hA : findAllNodes p F with
  | [] => rw [hA] at h; exact Option.noConfusion h
  | m :: ms =>
    rw [hA] at h
    simp only [List.head?_cons, Option.some.injEq] at h
    subst h
    exact (findAll_sat p q F hall m (by rw [hA]; exact List.mem_cons_self _ _)).1

theorem findNode_cons_pos (p : Node → Bool) (n : Node) (ns : List Node) (h : p n = true) :
    findNode p (n :: ns) = some n := by
  simp [findNode, h]

namespace HtmlSanitizationService

/-- When the input lacks head, charset and viewport, sanitize builds a fresh
head whose children are exactly the charset meta, the viewport meta and the
Tailwind script (in that order); and it never creates a body element: a
body-free input stays body-free. -/
theorem sanitizeSteps_missing_shell (t : List Node)
    (hH : countNodes isHeadTag t = 0)
    (hC : countNodes isCharsetMeta t = 0)
    (hV : countNodes isViewportMeta t = 0)
    (hB : countNodes isBodyTag t = 0) :
    findNode isHeadTag (sanitizeSteps t)
      = some (.elem "head" [] [charsetNew, viewportNew, twNew]) ∧
    countNodes isHeadTag (sanitizeSteps t) = 1 ∧
    countNodes isCharsetMeta (sanitizeSteps t) = 1 ∧
    countNodes isViewportMeta (sanitizeSteps t) = 1 ∧
    countNodes isBodyTag (sanitizeSteps t) = 0 := by
  obtain ⟨_, _, _, h6tw, _, _⟩ := step6_facts t
  have hHn := allNot_of_countNodes_eq_zero isHeadTag t hH
  have hCn := allNot_of_countNodes_eq_zero isCharsetMeta t hC
  have hVn := allNot_of_countNodes_eq_zero isViewportMeta t hV
  have hBn := allNot_of_countNodes_eq_zero isBodyTag t hB
  -- steps 2–4 only remove nodes or strip attributes that these predicates
  -- do not inspect
  have h2H : allNodes (fun n => !isHeadTag n) (step2 t) = true :=
    filterForest_preserves (fun n => !isHeadTag n) _ (fun _ _ _ hh => hh) t hHn
  have h2C : allNodes (fun n => !isCharsetMeta n) (step2 t) = true :=
    filterForest_preserves (fun n => !isCharsetMeta n) _ (fun _ _ _ hh => hh) t hCn
  have h2V : allNodes (fun n => !isViewportMeta n) (step2 t) = true :=
    filterForest_preserves (fun n => !isViewportMeta n) _ (fun _ _ _ hh => hh) t hVn
  have h2B : allNodes (fun n => !isBodyTag n) (step2 t) = true :=
    filterForest_preserves (fun n => !isBodyTag n) _ (fun _ _ _ hh => hh) t hBn
  have h3H : allNodes (fun n => !isHeadTag n) (step3 (step2 t)) = true :=
    stripOnForest_all (fun n => !isHeadTag n) (fun _ _ _ hh => hh) _ h2H
  have h3C : allNodes (fun n => !isCharsetMeta n) (step3 (step2 t)) = true := by
    refine stripOnForest_all _ (fun t' a cs hh => ?_) _ h2C
    rw [Bool.not_eq_true'] at hh ⊢
    rw [strip_inv_isCharsetMeta t' a cs (stripOnForest cs)]
    exact hh
  have h3V : allNodes (fun n => !isViewportMeta n) (step3 (step2 t)) = true := by
    refine stripOnForest_all _ (fun t' a cs hh => ?_) _ h2V
    rw [Bool.not_eq_true'] at hh ⊢
    rw [strip_inv_isViewportMeta t' a cs (stripOnForest cs)]
    exact hh
  have h3B : allNodes (fun n => !isBodyTag n) (step3 (step2 t)) = true :=
    stripOnForest_all (fun n => !isBodyTag n) (fun _ _ _ hh => hh) _ h2B
  have h4H : allNodes (fun n => !isHeadTag n) (step4 (step3 (step2 t))) = true :=
    filterForest_preserves (fun n => !isHeadTag n) _ (fun _ _ _ hh => hh) _ h3H
  have h4C : allNodes (fun n => !isCharsetMeta n) (step4 (step3 (step2 t))) = true :=
    filterForest_preserves (fun n => !isCharsetMeta n) _ (fun _ _ _ hh => hh) _ h3C
  have h4V : allNodes (fun n => !isViewportMeta n) (step4 (step3 (step2 t))) = true :=
    filterForest_preserves (fun n => !isViewportMeta n) _ (fun _ _ _ hh => hh) _ h3V
  have h4B : allNodes (fun n => !isBodyTag n) (step4 (step3 (step2 t))) = true :=
    filterForest_preserves (fun n => !isBodyTag n) _ (fun _ _ _ hh => hh) _ h3B
  -- step 5
  have h5 : allNodes (fun n => !isHeadTag n) (step5 (step4 (step3 (step2 t)))) = true ∧
      allNodes (fun n => !isCharsetMeta n) (step5 (step4 (step3 (step2 t)))) = true ∧
      allNodes (fun n => !isViewportMeta n) (step5 (step4 (step3 (step2 t)))) = true ∧
      allNodes (fun n => !isBodyTag n) (step5 (step4 (step3 (step2 t)))) = true ∧
      ∃ x, findNode isHtmlTag (step5 (step4 (step3 (step2 t)))) = some x := by
    match hfh : findNode isHtmlTag (step4 (step3 (step2 t))) with
    | some x =>
      rw [step5_found hfh]
      exact ⟨h4H, h4C, h4V, h4B, x, hfh⟩
    | none =>
      rw [step5_wrap hfh]
      refine ⟨?_, ?_, ?_, ?_, ?_⟩
      · rw [allNodes_cons, allIn, Bool.and_eq_true, Bool.and_eq_true]
        exact ⟨⟨by rw [shallow_isHeadTag "html" _ _ []]; decide, h4H⟩, rfl⟩
      · rw [allNodes_cons, allIn, Bool.and_eq_true, Bool.and_eq_true]
        exact ⟨⟨by rw [shallow_isCharsetMeta "html" _ _ []]; decide, h4C⟩, rfl⟩
      · rw [allNodes_cons, allIn, Bool.and_eq_true, Bool.and_eq_true]
        exact ⟨⟨by rw [shallow_isViewportMeta "html" _ _ []]; decide, h4V⟩, rfl⟩
      · rw [allNodes_cons, allIn, Bool.and_eq_true, Bool.and_eq_true]
        exact ⟨⟨by rw [shallow_isBodyTag "html" _ _ []]; decide, h4B⟩, rfl⟩
      · exact ⟨_, findNode_cons_pos isHtmlTag _ _ rfl⟩
  obtain ⟨h5H, h5C, h5V, h5B, x5, hfindHtml⟩ := h5
  have h5Hcnt : countNodes isHeadTag (step5 (step4 (step3 (step2 t)))) = 0 :=
    countNodes_eq_zero_of_allNot _ _ h5H
  have hx5 : isHtmlTag x5 = true := findNode_sat isHtmlTag _ x5 hfindHtml
  obtain ⟨aH, csH, rfl⟩ := isHtml_elem x5 hx5
  -- step 6: the fresh empty head is inserted, and it is the only head
  have hfh6 : findNode isHeadTag (step5 (step4 (step3 (step2 t)))) = none :=
    findNode_none_of_allNot _ _ h5H
  have hupd6 : updateFirstA isHtmlTag (insertChild0 (.elem "head" [] []))
      (step5 (step4 (step3 (step2 t)))) ≠ none := by
    rw [Ne, updateFirstA_none_iff, hfindHtml]
    simp
  match hrec6 : updateFirstA isHtmlTag (insertChild0 (.elem "head" [] []))
      (step5 (step4 (step3 (step2 t)))) with
  | none => exact absurd hrec6 hupd6
  | some F6 =>
  have hF6 : step6 (step5 (step4 (step3 (step2 t)))) = F6 := by
    rw [step6_insert hfh6, updateFirst, hrec6]; rfl
  rw [hF6] at h6tw
  have h6Hcnt : countNodes isHeadTag F6 = 1 := by
    obtain ⟨h', hf', hc'⟩ := updateFirstA_count isHeadTag isHtmlTag _ shallow_isHeadTag _ F6 hrec6
    rw [hfindHtml] at hf'
    obtain rfl : Node.elem "html" aH csH = h' := by simpa using hf'
    rw [count_insertChild0 isHeadTag shallow_isHeadTag _ _ ⟨_, _, _, rfl⟩] at hc'
    have : countNodes isHeadTag [Node.elem "head" [] []] = 1 := by decide
    omega
  have h6C : allNodes (fun n => !isCharsetMeta n) F6 = true := by
    refine updateFirstA_all (fun n => !isCharsetMeta n) isHtmlTag _ (fun t' a cs cs' _ h => h)
      (fun n hn hq => ?_) _ F6 hrec6 h5C
    exact allIn_insertChild0 _ (shallow_not _ shallow_isCharsetMeta) _ _ (by decide) hn
  have h6V : allNodes (fun n => !isViewportMeta n) F6 = true := by
    refine updateFirstA_all (fun n => !isViewportMeta n) isHtmlTag _ (fun t' a cs cs' _ h => h)
      (fun n hn hq => ?_) _ F6 hrec6 h5V
    exact allIn_insertChild0 _ (shallow_not _ shallow_isViewportMeta) _ _ (by decide) hn
  have h6B : allNodes (fun n => !isBodyTag n) F6 = true := by
    refine updateFirstA_all (fun n => !isBodyTag n) isHtmlTag _ (fun t' a cs cs' _ h => h)
      (fun n hn hq => ?_) _ F6 hrec6 h5B
    exact allIn_insertChild0 _ (shallow_not _ shallow_isBodyTag) _ _ (by decide) hn
  have h6uniq : allNodes (fun n => !isHeadTag n || Node.beq n (Node.elem "head" [] []))
      F6 = true := by
    refine updateFirstA_all _ isHtmlTag _ (fun t' a cs cs' hr h => ?_) (fun n hn hq => ?_)
      _ F6 hrec6
      (allNodes_mono _ _ (fun n hn => by rw [Bool.or_eq_true]; exact Or.inl hn) _ h5H)
    · rw [Bool.or_eq_true] at h ⊢
      rcases h with h | h
      · exact Or.inl h
      · rw [Node.beq_iff] at h
        injection h with h1 h2 h3
        subst h3
        simp [updateFirstA] at hr
    · obtain ⟨a, cs, rfl⟩ := isHtml_elem n hq
      simp only [allIn, Bool.and_eq_true] at hn
      simp only [insertChild0, allIn, Bool.and_eq_true]
      refine ⟨?_, ?_⟩
      · rw [Bool.or_eq_true]
        left
        rfl
      · rw [allNodes_cons]
        have h1 : allIn (fun n => !isHeadTag n || Node.beq n (Node.elem "head" [] []))
            (Node.elem "head" [] []) = true := by decide
        rw [h1, hn.2]
        rfl
  have h6headfind : findNode isHeadTag F6 = some (Node.elem "head" [] []) := by
    obtain ⟨hh, hfind, hhead⟩ := findNode_isSome_of_count isHeadTag F6 (by omega)
    have huniq := findNode_sat_all isHeadTag _ F6 hh h6uniq hfind
    rw [Bool.or_eq_true] at huniq
    rcases huniq with hx | hx
    · rw [Bool.not_eq_true', hhead] at hx
      exact Bool.noConfusion hx
    · rw [Node.beq_iff] at hx
      subst hx
      exact hfind
  have h6Tcnt : countNodes isTwScript F6 = 0 := countNodes_eq_zero_of_allNot _ _ h6tw
  -- step 7: the canonical Tailwind script is appended to the fresh head
  have h7eq : step7 F6 = updateFirst isHeadTag (appendChild twNew) F6 :=
    step7_append (findNode_none_of_allNot _ _ h6tw)
  have hupd7 : updateFirstA isHeadTag (appendChild twNew) F6 ≠ none := by
    rw [Ne, updateFirstA_none_iff, h6headfind]
    simp
  match hrec7 : updateFirstA isHeadTag (appendChild twNew) F6 with
  | none => exact absurd hrec7 hupd7
  | some F7 =>
  have hF7 : step7 F6 = F7 := by rw [h7eq, updateFirst, hrec7]; rfl
  have h7headfind : findNode isHeadTag F7 = some (Node.elem "head" [] [twNew]) := by
    obtain ⟨h', hfind', hpres⟩ := updateFirstA_find isHeadTag (appendChild twNew)
      shallow_isHeadTag _ F7 hrec7
    rw [h6headfind] at hfind'
    obtain rfl : Node.elem "head" [] [] = h' := by simpa using hfind'
    exact hpres (by decide)
  have h7Hcnt : countNodes isHeadTag F7 = 1 := by
    obtain ⟨h', hf', hc'⟩ := updateFirstA_count isHeadTag isHeadTag _ shallow_isHeadTag _ F7 hrec7
    rw [h6headfind] at hf'
    obtain rfl : Node.elem "head" [] [] = h' := by simpa using hf'
    have e1 : countNodes isHeadTag [Node.elem "head" [] []] = 1 := by decide
    have e2 : countNodes isHeadTag [appendChild twNew (Node.elem "head" [] [])] = 1 := by decide
    omega
  have h7Tcnt : countNodes isTwScript F7 = 1 := by
    obtain ⟨h', hf', hc'⟩ := updateFirstA_count isTwScript isHeadTag _ shallow_isTwScript _ F7 hrec7
    rw [h6headfind] at hf'
    obtain rfl : Node.elem "head" [] [] = h' := by simpa using hf'
    have e1 : countNodes isTwScript [Node.elem "head" [] []] = 0 := by decide
    have e2 : countNodes isTwScript [appendChild twNew (Node.elem "head" [] [])] = 1 := by decide
    omega
  have h7C : allNodes (fun n => !isCharsetMeta n) F7 = true := by
    refine updateFirstA_all (fun n => !isCharsetMeta n) isHeadTag _ (fun t' a cs cs' _ h => h)
      (fun n hn hq => ?_) _ F7 hrec7 h6C
    exact allIn_appendChild _ (shallow_not _ shallow_isCharsetMeta) _ _ (by decide) hn
  have h7V : allNodes (fun n => !isViewportMeta n) F7 = true := by
    refine updateFirstA_all (fun n => !isViewportMeta n) isHeadTag _ (fun t' a cs cs' _ h => h)
      (fun n hn hq => ?_) _ F7 hrec7 h6V
    exact allIn_appendChild _ (shallow_not _ shallow_isViewportMeta) _ _ (by decide) hn
  have h7B : allNodes (fun n => !isBodyTag n) F7 = true := by
    refine updateFirstA_all (fun n => !isBodyTag n) isHeadTag _ (fun t' a cs cs' _ h => h)
      (fun n hn hq => ?_) _ F7 hrec7 h6B
    exact allIn_appendChild _ (shallow_not _ shallow_isBodyTag) _ _ (by decide) hn
  -- step 8: no charset anywhere, so one is inserted first in the head
  have hfc8 : findNode isCharsetMeta F7 = none := findNode_none_of_allNot _ _ h7C
  have h8eq : step8 F7 = updateFirst isHeadTag (insertChild0 charsetNew) F7 :=
    step8_insert hfc8
  have hupd8 : updateFirstA isHeadTag (insertChild0 charsetNew) F7 ≠ none := by
    rw [Ne, updateFirstA_none_iff, h7headfind]
    simp
  match hrec8 : updateFirstA isHeadTag (insertChild0 charsetNew) F7 with
  | none => exact absurd hrec8 hupd8
  | some F8 =>
  have hF8 : step8 F7 = F8 := by rw [h8eq, updateFirst, hrec8]; rfl
  have h8headfind : findNode isHeadTag F8
      = some (Node.elem "head" [] [charsetNew, twNew]) := by
    obtain ⟨h', hfind', hpres⟩ := updateFirstA_find isHeadTag (insertChild0 charsetNew)
      shallow_isHeadTag _ F8 hrec8
    rw [h7headfind] at hfind'
    obtain rfl : Node.elem "head" [] [twNew] = h' := by simpa using hfind'
    exact hpres (by decide)
  have h8Hcnt : countNodes isHeadTag F8 = 1 := by
    obtain ⟨h', hf', hc'⟩ := updateFirstA_count isHeadTag isHeadTag _ shallow_isHeadTag _ F8 hrec8
    rw [h7headfind] at hf'
    obtain rfl : Node.elem "head" [] [twNew] = h' := by simpa using hf'
    have e1 : countNodes isHeadTag [Node.elem "head" [] [twNew]] = 1 := by decide
    have e2 : countNodes isHeadTag
      [insertChild0 charsetNew (Node.elem "head" [] [twNew])] = 1 := by decide
    omega
  have h8Ccnt : countNodes isCharsetMeta F8 = 1 := by
    obtain ⟨h', hf', hc'⟩ := updateFirstA_count isCharsetMeta isHeadTag _
      shallow_isCharsetMeta _ F8 hrec8
    rw [h7headfind] at hf'
    obtain rfl : Node.elem "head" [] [twNew] = h' := by simpa using hf'
    have e0 : countNodes isCharsetMeta F7 = 0 := countNodes_eq_zero_of_allNot _ _ h7C
    have e1 : countNodes isCharsetMeta [Node.elem "head" [] [twNew]] = 0 := by decide
    have e2 : countNodes isCharsetMeta
      [insertChild0 charsetNew (Node.elem "head" [] [twNew])] = 1 := by decide
    omega
  have h8Tcnt : countNodes isTwScript F8 = 1 := by
    obtain ⟨h', hf', hc'⟩ := updateFirstA_count isTwScript isHeadTag _ shallow_isTwScript _ F8 hrec8
    rw [h7headfind] at hf'
    obtain rfl : Node.elem "head" [] [twNew] = h' := by simpa using hf'
    have e1 : countNodes isTwScript [Node.elem "head" [] [twNew]] = 1 := by decide
    have e2 : countNodes isTwScript
      [insertChild0 charsetNew (Node.elem "head" [] [twNew])] = 1 := by decide
    omega
  have h8V : allNodes (fun n => !isViewportMeta n) F8 = true := by
    refine updateFirstA_all (fun n => !isViewportMeta n) isHeadTag _ (fun t' a cs cs' _ h => h)
      (fun n hn hq => ?_) _ F8 hrec8 h7V
    exact allIn_insertChild0 _ (shallow_not _ shallow_isViewportMeta) _ _ (by decide) hn
  have h8B : allNodes (fun n => !isBodyTag n) F8 = true := by
    refine updateFirstA_all (fun n => !isBodyTag n) isHeadTag _ (fun t' a cs cs' _ h => h)
      (fun n hn hq => ?_) _ F8 hrec8 h7B
    exact allIn_insertChild0 _ (shallow_not _ shallow_isBodyTag) _ _ (by decide) hn
  -- step 9: no viewport anywhere, so one is inserted at index 1 of the head
  have hfv9 : findNode isViewportMeta F8 = none := findNode_none_of_allNot _ _ h8V
  have h9eq : step9 F8 = updateFirst isHeadTag (insertChildAt 1 viewportNew) F8 :=
    step9_insert hfv9
  have hupd9 : updateFirstA isHeadTag (insertChildAt 1 viewportNew) F8 ≠ none := by
    rw [Ne, updateFirstA_none_iff, h8headfind]
    simp
  match hrec9 : updateFirstA isHeadTag (insertChildAt 1 viewportNew) F8 with
  | none => exact absurd hrec9 hupd9
  | some F9 =>
  have hF9 : step9 F8 = F9 := by rw [h9eq, updateFirst, hrec9]; rfl
  have h9headfind : findNode isHeadTag F9
      = some (Node.elem "head" [] [charsetNew, viewportNew, twNew]) := by
    obtain ⟨h', hfind', hpres⟩ := updateFirstA_find isHeadTag (insertChildAt 1 viewportNew)
      shallow_isHeadTag _ F9 hrec9
    rw [h8headfind] at hfind'
    obtain rfl : Node.elem "head" [] [charsetNew, twNew] = h' := by simpa using hfind'
    exact hpres (by decide)
  have h9Hcnt : countNodes isHeadTag F9 = 1 := by
    obtain ⟨h', hf', hc'⟩ := updateFirstA_count isHeadTag isHeadTag _ shallow_isHeadTag _ F9 hrec9
    rw [h8headfind] at hf'
    obtain rfl : Node.elem "head" [] [charsetNew, twNew] = h' := by simpa using hf'
    have e1 : countNodes isHeadTag [Node.elem "head" [] [charsetNew, twNew]] = 1 := by decide
    have e2 : countNodes isHeadTag
      [insertChildAt 1 viewportNew (Node.elem "head" [] [charsetNew, twNew])] = 1 := by decide
    omega
  have h9Ccnt : countNodes isCharsetMeta F9 = 1 := by
    obtain ⟨h', hf', hc'⟩ := updateFirstA_count isCharsetMeta isHeadTag _
      shallow_isCharsetMeta _ F9 hrec9
    rw [h8headfind] at hf'
    obtain rfl : Node.elem "head" [] [charsetNew, twNew] = h' := by simpa using hf'
    have e1 : countNodes isCharsetMeta [Node.elem "head" [] [charsetNew, twNew]] = 1 := by decide
    have e2 : countNodes isCharsetMeta
      [insertChildAt 1 viewportNew (Node.elem "head" [] [charsetNew, twNew])] = 1 := by decide
    omega
  have h9Vcnt : countNodes isViewportMeta F9 = 1 := by
    obtain ⟨h', hf', hc'⟩ := updateFirstA_count isViewportMeta isHeadTag _
      shallow_isViewportMeta _ F9 hrec9
    rw [h8headfind] at hf'
    obtain rfl : Node.elem "head" [] [charsetNew, twNew] = h' := by simpa using hf'
    have e0 : countNodes isViewportMeta F8 = 0 := countNodes_eq_zero_of_allNot _ _ h8V
    have e1 : countNodes isViewportMeta [Node.elem "head" [] [charsetNew, twNew]] = 0 := by decide
    have e2 : countNodes isViewportMeta
      [insertChildAt 1 viewportNew (Node.elem "head" [] [charsetNew, twNew])] = 1 := by decide
    omega
  have h9Tcnt : countNodes isTwScript F9 = 1 := by
    obtain ⟨h', hf', hc'⟩ := updateFirstA_count isTwScript isHeadTag _ shallow_isTwScript _ F9 hrec9
    rw [h8headfind] at hf'
    obtain rfl : Node.elem "head" [] [charsetNew, twNew] = h' := by simpa using hf'
    have e1 : countNodes isTwScript [Node.elem "head" [] [charsetNew, twNew]] = 1 := by decide
    have e2 : countNodes isTwScript
      [insertChildAt 1 viewportNew (Node.elem "head" [] [charsetNew, twNew])] = 1 := by decide
    omega
  have h9B : allNodes (fun n => !isBodyTag n) F9 = true := by
    refine updateFirstA_all (fun n => !isBodyTag n) isHeadTag _ (fun t' a cs cs' _ h => h)
      (fun n hn hq => ?_) _ F9 hrec9 h8B
    exact allIn_insertChildAt _ (shallow_not _ shallow_isBodyTag) _ _ _ (by decide) hn
  -- step 10 is the identity: only one Tailwind script exists
  have hout : sanitizeSteps t = F9 := by
    rw [sanitizeSteps, hF6, hF7, hF8, hF9]
    exact step10_id (by omega)
  rw [hout]
  exact ⟨h9headfind, h9Hcnt, h9Ccnt, h9Vcnt, countNodes_eq_zero_of_allNot _ _ h9B⟩

end HtmlSanitizationService

namespace HtmlSanitizationService

/-- C7 counterexample: the input `<p>Hello</p>` lacks head, body, charset and
viewport, yet the sanitized output contains zero body elements, not exactly
one — `sanitize` never creates a body element and never moves root-level
content into one. -/
theorem C7_counterexample :
    countNodes isHeadTag [Node.elem "p" [] [.text "Hello"]] = 0 ∧
    countNodes isBodyTag [Node.elem "p" [] [.text "Hello"]] = 0 ∧
    countNodes isCharsetMeta [Node.elem "p" [] [.text "Hello"]] = 0 ∧
    countNodes isViewportMeta [Node.elem "p" [] [.text "Hello"]] = 0 ∧
    countNodes isBodyTag (sanitizeSteps [Node.elem "p" [] [.text "Hello"]]) = 0 := by
  decide

/-- C7 (amended): for every raw input lacking a head element, a charset
declaration, a viewport declaration and a body element, the output of
sanitize contains exactly one head, exactly one charset meta and exactly
one viewport meta, with the head being exactly
`<head><meta charset="UTF-8"><meta name="viewport" ...><script src=TAILWIND_CDN></head>`
(charset first, viewport directly after it); however, contrary to the
original claim, no body element is created: the output contains zero body
elements. -/
theorem C7_missing_structure_singletons (t : List Node)
    (hH : countNodes isHeadTag t = 0)
    (hC : countNodes isCharsetMeta t = 0)
    (hV : countNodes isViewportMeta t = 0)
    (hB : countNodes isBodyTag t = 0) :
    findNode isHeadTag (sanitizeSteps t)
      = some (.elem "head" [] [charsetNew, viewportNew, twNew]) ∧
    countNodes isHeadTag (sanitizeSteps t) = 1 ∧
    countNodes isCharsetMeta (sanitizeSteps t) = 1 ∧
    countNodes isViewportMeta (sanitizeSteps t) = 1 ∧
    countNodes isBodyTag (sanitizeSteps t) = 0 :=
  sanitizeSteps_missing_shell t hH hC hV hB

/-- C7 witness: the amended theorem evaluated at `<p>Hello</p>`. -/
theorem C7_witness :
    findNode isHeadTag (sanitizeSteps [Node.elem "p" [] [.text "Hello"]])
      = some (.elem "head" [] [charsetNew, viewportNew, twNew]) ∧
    countNodes isHeadTag (sanitizeSteps [Node.elem "p" [] [.text "Hello"]]) = 1 ∧
    countNodes isCharsetMeta (sanitizeSteps [Node.elem "p" [] [.text "Hello"]]) = 1 ∧
    countNodes isViewportMeta (sanitizeSteps [Node.elem "p" [] [.text "Hello"]]) = 1 ∧
    countNodes isBodyTag (sanitizeSteps [Node.elem "p" [] [.text "Hello"]]) = 0 :=
  C7_missing_structure_singletons [Node.elem "p" [] [.text "Hello"]]
    (by decide) (by decide) (by decide) (by decide)

end HtmlSanitizationService

namespace HtmlSanitizationService

/-- A script node that step 2 of `sanitize` keeps: a script tag whose src
does not mention the Tailwind CDN but contains an allow-listed substring. -/
def keepScript (n : Node) : Bool := isScriptTag n && !scriptRemovable n

/-- An inline script: a script tag without a src attribute. -/
def inlineScript (n : Node) : Bool := isScriptTag n && (getAttr n "src").isNone

/-- Text-node test. -/
def isTextNode : Node → Bool
  | .text _ => true
  | _ => false

/-- All direct children of a node are plain text — true of script and style
bodies in any tree built by an HTML parser. -/
def childrenTextOnly : Node → Bool
  | .elem _ _ cs => cs.all isTextNode
  | _ => true

theorem shallow_keepScript : Shallow keepScript := fun t a cs cs' => by
  simp only [keepScript, shallow_isScriptTag t a cs cs', shallow_scriptRemovable t a cs cs']

theorem strip_inv_keepScript (t : String) (a : List (String × String)) (cs cs' : List Node) :
    keepScript (.elem t (a.filter fun kv => !(pyStartsWith kv.1 "on")) cs')
      = keepScript (.elem t a cs) := by
  have h1 : isScriptTag (.elem t (a.filter fun kv => !(pyStartsWith kv.1 "on")) cs')
      = isScriptTag (.elem t a cs) := rfl
  simp only [keepScript, h1, strip_inv_scriptRemovable t a cs cs']

theorem countNodes_text_nil (p : Node → Bool) (hp : ∀ s, p (.text s) = false) :
    ∀ cs, cs.all isTextNode = true → countNodes p cs = 0
  | [], _ => rfl
  | n :: ns, h => by
    simp only [List.all_cons, Bool.and_eq_true] at h
    match n, h.1 with
    | .text s, _ =>
      rw [countNodes_cons, countNodes_text_nil p hp ns h.2]
      simp [countNodes, findAllNodes, findAllIn, hp s]
    | .elem t' a' cs', hF => exact absurd hF (by simp [isTextNode])
    | .doctype d, hF => exact absurd hF (by simp [isTextNode])

theorem filterForest_all_text (q : Node → Bool) :
    ∀ cs, cs.all isTextNode = true → (filterForest q cs).all isTextNode = true
  | [], _ => rfl
  | n :: ns, h => by
    simp only [List.all_cons, Bool.and_eq_true] at h
    have hrec := filterForest_all_text q ns h.2
    match n, h.1 with
    | .text s, _ =>
      by_cases hq : q (.text s) <;> simp [filterForest, filterTree, hq, hrec, isTextNode]
    | .elem t' a' cs', hF => exact absurd hF (by simp [isTextNode])
    | .doctype d, hF => exact absurd hF (by simp [isTextNode])

theorem stripOnForest_all_text :
    ∀ cs, cs.all isTextNode = true → (stripOnForest cs).all isTextNode = true
  | [], _ => rfl
  | n :: ns, h => by
    simp only [List.all_cons, Bool.and_eq_true] at h
    have hrec := stripOnForest_all_text ns h.2
    match n, h.1 with
    | .text s, _ => simp [stripOnForest, stripOnNode, hrec, isTextNode]
    | .elem t' a' cs', hF => exact absurd hF (by simp [isTextNode])
    | .doctype d, hF => exact absurd hF (by simp [isTextNode])

end HtmlSanitizationService

/- Two all-nodes invariants combine pointwise. -/
mutual
theorem allNodes_and (p q : Node → Bool) :
    ∀ F, allNodes p F = true → allNodes q F = true →
      allNodes (fun n => p n && q n) F = true
  | [], _, _ => rfl
  | n :: ns, hp, hq => by
    simp only [allNodes, Bool.and_eq_true] at hp hq ⊢
    exact ⟨allIn_and p q n hp.1 hq.1, allNodes_and p q ns hp.2 hq.2⟩
theorem allIn_and (p q : Node → Bool) :
    ∀ n, allIn p n = true → allIn q n = true → allIn (fun n => p n && q n) n = true
  | .elem t a cs, hp, hq => by
    simp only [allIn, Bool.and_eq_true] at hp hq ⊢
    exact ⟨⟨hp.1, hq.1⟩, allNodes_and p q cs hp.2 hq.2⟩
  | .text s, hp, hq => by
    have hp' : p (.text s) = true := hp
    have hq' : q (.text s) = true := hq
    show (p (.text s) && q (.text s)) = true
    rw [hp', hq']
    rfl
  | .doctype d, hp, hq => by
    have hp' : p (.doctype d) = true := hp
    have hq' : q (.doctype d) = true := hq
    show (p (.doctype d) && q (.doctype d)) = true
    rw [hp', hq']
    rfl
end

namespace HtmlSanitizationService

/-- Scripts kept by the allow-list survive the whole pipeline unchanged in
number, provided every script and style body is plain text (as in any tree
produced by an HTML parser). -/
theorem sanitizeSteps_keep_count (t : List Node)
    (hWF : allNodes (fun n => !(isScriptTag n || isStyleTag n) || childrenTextOnly n)
      t = true) :
    countNodes keepScript (sanitizeSteps t) = countNodes keepScript t := by
  obtain ⟨_, h9eq⟩ := sanitizeSteps_facts t
  obtain ⟨_, _, _, h6tw, _, _⟩ := step6_facts t
  -- step 2 removes only script subtrees that hold no kept script
  have cond2 : allNodes (fun n => !scriptRemovable n || (countNodes keepScript [n] == 0))
      t = true := by
    refine allNodes_mono _ _ (fun n hn => ?_) _ hWF
    rw [Bool.or_eq_true] at hn ⊢
    match hrem : scriptRemovable n with
    | false => exact Or.inl rfl
    | true =>
      refine Or.inr ?_
      have hscript : isScriptTag n = true := by
        have h' := hrem
        rw [scriptRemovable, Bool.and_eq_true] at h'
        exact h'.1
      rcases hn with hL | hR
      · rw [hscript] at hL
        simp at hL
      · cases n with
        | elem tg a cs =>
          have hkeep : keepScript (.elem tg a cs) = false := by
            rw [keepScript, hrem]
            simp
          have hcs : countNodes keepScript cs = 0 :=
            countNodes_text_nil keepScript (fun s => rfl) cs hR
          rw [countNodes_elem, hkeep, hcs]
          decide
        | text s => exact absurd hscript (by simp [isScriptTag])
        | doctype d => exact absurd hscript (by simp [isScriptTag])
  have count2 : countNodes keepScript (step2 t) = countNodes keepScript t :=
    filterForest_count keepScript scriptRemovable shallow_keepScript t cond2
  -- the text-only shape survives steps 2 and 3
  have hWF2 : allNodes (fun n => !(isScriptTag n || isStyleTag n) || childrenTextOnly n)
      (step2 t) = true := by
    refine filterForest_preserves _ scriptRemovable (fun t' a cs h => ?_) t hWF
    rw [Bool.or_eq_true] at h ⊢
    rcases h with hL | hR
    · exact Or.inl hL
    · exact Or.inr (filterForest_all_text scriptRemovable cs hR)
  have hWF3 : allNodes (fun n => !(isScriptTag n || isStyleTag n) || childrenTextOnly n)
      (step3 (step2 t)) = true := by
    refine stripOnForest_all _ (fun t' a cs h => ?_) _ hWF2
    rw [Bool.or_eq_true] at h ⊢
    rcases h with hL | hR
    · exact Or.inl hL
    · exact Or.inr (stripOnForest_all_text cs hR)
  have count3 : countNodes keepScript (step3 (step2 t)) = countNodes keepScript (step2 t) :=
    stripOnForest_count keepScript shallow_keepScript
      (fun tg a cs => strip_inv_keepScript tg a cs cs) (step2 t)
  -- step 4 removes only style subtrees, which hold no kept script either
  have cond4 : allNodes (fun n => !isStyleTag n || (countNodes keepScript [n] == 0))
      (step3 (step2 t)) = true := by
    refine allNodes_mono _ _ (fun n hn => ?_) _ hWF3
    rw [Bool.or_eq_true] at hn ⊢
    match hsty : isStyleTag n with
    | false => exact Or.inl rfl
    | true =>
      refine Or.inr ?_
      cases n with
      | elem tg a cs =>
        have htg : tg = "style" := by
          have h' : (tg == "style") = true := hsty
          exact eq_of_beq h'
        subst htg
        rcases hn with hL | hR
        · rw [Bool.not_eq_true'] at hL
          rw [show (isScriptTag (Node.elem "style" a cs) || isStyleTag (Node.elem "style" a cs))
            = isStyleTag (Node.elem "style" a cs) from rfl, hsty] at hL
          exact Bool.noConfusion hL
        · have hkeep : keepScript (.elem "style" a cs) = false := rfl
          have hcs : countNodes keepScript cs = 0 :=
            countNodes_text_nil keepScript (fun s => rfl) cs hR
          rw [countNodes_elem, hkeep, hcs]
          decide
      | text s => exact absurd hsty (by simp [isStyleTag])
      | doctype d => exact absurd hsty (by simp [isStyleTag])
  have count4 : countNodes keepScript (step4 (step3 (step2 t)))
      = countNodes keepScript (step3 (step2 t)) :=
    filterForest_count keepScript isStyleTag shallow_keepScript _ cond4
  -- step 5 at most wraps everything in an html element, which is not a script
  have count5 : countNodes keepScript (step5 (step4 (step3 (step2 t))))
      = countNodes keepScript (step4 (step3 (step2 t))) := by
    match hfh : findNode isHtmlTag (step4 (step3 (step2 t))) with
    | some x => rw [step5_found hfh]
    | none =>
      rw [step5_wrap hfh, countNodes_elem]
      have : keepScript (.elem "html" [("lang", "en")] (step4 (step3 (step2 t)))) = false := rfl
      rw [this]
      simp
  -- steps 6–9 only insert non-script or Tailwind-src nodes
  have countUpd : ∀ (q : Node → Bool) (f : Node → Node) (F : List Node),
      (∀ h, q h = true → countNodes keepScript [f h] = countNodes keepScript [h]) →
      countNodes keepScript (updateFirst q f F) = countNodes keepScript F := by
    intro q f F hf
    rw [updateFirst]
    match hrec : updateFirstA q f F with
    | none => rfl
    | some F' =>
      show countNodes keepScript F' = countNodes keepScript F
      obtain ⟨h, hfind, hc⟩ := updateFirstA_count keepScript q f shallow_keepScript F F' hrec
      have hq : q h = true := findNode_sat q F h hfind
      rw [hf h hq] at hc
      omega
  have count6 : countNodes keepScript (step6 (step5 (step4 (step3 (step2 t)))))
      = countNodes keepScript (step5 (step4 (step3 (step2 t)))) := by
    match hfh : findNode isHeadTag (step5 (step4 (step3 (step2 t)))) with
    | some x => rw [step6_found hfh]
    | none =>
      rw [step6_insert hfh]
      refine countUpd isHtmlTag _ _ (fun h hq => ?_)
      obtain ⟨a, cs, rfl⟩ := isHtml_elem h hq
      rw [count_insertChild0 keepScript shallow_keepScript _ _ ⟨_, _, _, rfl⟩]
      have : countNodes keepScript [Node.elem "head" [] []] = 0 := by decide
      omega
  have count7 : countNodes keepScript (step7 (step6 (step5 (step4 (step3 (step2 t))))))
      = countNodes keepScript (step6 (step5 (step4 (step3 (step2 t))))) := by
    rw [step7_append (findNode_none_of_allNot _ _ h6tw)]
    refine countUpd isHeadTag _ _ (fun h hq => ?_)
    obtain ⟨a, cs, rfl⟩ := isHead_elem h hq
    rw [count_appendChild keepScript shallow_keepScript _ _ ⟨_, _, _, rfl⟩]
    have : countNodes keepScript [twNew] = 0 := by decide
    omega
  have count8 : countNodes keepScript
        (step8 (step7 (step6 (step5 (step4 (step3 (step2 t)))))))
      = countNodes keepScript (step7 (step6 (step5 (step4 (step3 (step2 t)))))) := by
    match hfc : findNode isCharsetMeta (step7 (step6 (step5 (step4 (step3 (step2 t)))))) with
    | some x => rw [step8_found hfc]
    | none =>
      rw [step8_insert hfc]
      refine countUpd isHeadTag _ _ (fun h hq => ?_)
      obtain ⟨a, cs, rfl⟩ := isHead_elem h hq
      rw [count_insertChild0 keepScript shallow_keepScript _ _ ⟨_, _, _, rfl⟩]
      have : countNodes keepScript [charsetNew] = 0 := by decide
      omega
  have count9 : countNodes keepScript
        (step9 (step8 (step7 (step6 (step5 (step4 (step3 (step2 t))))))))
      = countNodes keepScript
        (step8 (step7 (step6 (step5 (step4 (step3 (step2 t))))))) := by
    match hfv : findNode isViewportMeta
        (step8 (step7 (step6 (step5 (step4 (step3 (step2 t))))))) with
    | some x => rw [step9_found hfv]
    | none =>
      rw [step9_insert hfv]
      refine countUpd isHeadTag _ _ (fun h hq => ?_)
      obtain ⟨a, cs, rfl⟩ := isHead_elem h hq
      rw [count_insertChildAt keepScript shallow_keepScript _ _ _ ⟨_, _, _, rfl⟩]
      have : countNodes keepScript [viewportNew] = 0 := by decide
      omega
  rw [h9eq, count9, count8, count7, count6, count5, count4, count3, count2]

end HtmlSanitizationService

namespace HtmlSanitizationService

/-- C1 counterexample: a script whose URL contains the allow-listed Tailwind
substring (`https://cdn.tailwindcss.com/extra.js`) is NOT kept: step 2
removes every Tailwind-matching script and step 7 re-injects only the
canonical `<script src="https://cdn.tailwindcss.com">`, so the claim that
any script with an allow-listed substring anywhere in its URL is kept is
false. -/
theorem C1_counterexample :
    ALLOWED_SCRIPTS.any
      (fun allowed => strContains "https://cdn.tailwindcss.com/extra.js" allowed) = true ∧
    countNodes (fun n => isScriptTag n && (srcOf n == "https://cdn.tailwindcss.com/extra.js"))
      [Node.elem "script" [("src", "https://cdn.tailwindcss.com/extra.js")] []] = 1 ∧
    countNodes (fun n => isScriptTag n && (srcOf n == "https://cdn.tailwindcss.com/extra.js"))
      (sanitizeSteps
        [Node.elem "script" [("src", "https://cdn.tailwindcss.com/extra.js")] []]) = 0 := by
  decide

theorem inline_removable {n : Node} (h : inlineScript n = true) :
    scriptRemovable n = true := by
  rw [inlineScript, Bool.and_eq_true] at h
  obtain ⟨hs, hsrc⟩ := h
  cases n with
  | elem tg a cs =>
    rw [Option.isNone_iff_eq_none] at hsrc
    have hsrcOf : srcOf (.elem tg a cs) = "" := by rw [srcOf, hsrc]; rfl
    simp only [scriptRemovable, hs, Bool.true_and, hsrcOf]
    decide
  | text s => exact absurd hs (by simp [isScriptTag])
  | doctype d => exact absurd hs (by simp [isScriptTag])

/-- C1 (amended): for every raw input, (1) every script-bearing node the
allow-list policy marks removable — any Tailwind-matching script as well as
any script with no allow-listed substring in its src — is gone from the
sanitized output except the single canonical Tailwind inclusion; (2) no
inline script (script tag without src) survives; (3) scripts the policy
keeps (allow-listed, non-Tailwind src) are preserved in number, provided
script and style bodies are plain text; and (4) in the spec's scenario the
sanitized output of `<p>Hello</p><script>alert(1)</script>` does not
contain the substring `alert(1)`. Contrary to the original claim,
Tailwind-matching URLs are removed rather than kept (see the
counterexample). -/
theorem C1_script_allowlist_policy (t : List Node)
    (hWF : allNodes (fun n => !(isScriptTag n || isStyleTag n) || childrenTextOnly n)
      t = true) :
    allNodes (fun n => !scriptRemovable n || n == twNew) (sanitizeSteps t) = true ∧
    countNodes inlineScript (sanitizeSteps t) = 0 ∧
    countNodes keepScript (sanitizeSteps t) = countNodes keepScript t ∧
    strContains (sanitize [.elem "p" [] [.text "Hello"], .elem "script" [] [.text "alert(1)"]])
      "alert(1)" = false := by
  obtain ⟨facts, _⟩ := sanitizeSteps_facts t
  have hpp := allNodes_and pA pB _ facts.pa facts.pb
  have h1 : allNodes (fun n => !scriptRemovable n || n == twNew) (sanitizeSteps t) = true := by
    refine allNodes_mono _ _ (fun n hn => ?_) _ hpp
    rw [Bool.and_eq_true] at hn
    obtain ⟨ha, hb⟩ := hn
    rw [pA, beq_iff_eq] at ha
    rw [pB, Bool.or_eq_true] at hb
    rw [Bool.or_eq_true]
    match hrem : scriptRemovable n with
    | false => exact Or.inl rfl
    | true =>
      rw [hrem] at ha
      rcases hb with hb | hb
      · rw [Bool.not_eq_true'] at hb
        have h' : isTwScript n = true := ha.symm
        rw [h'] at hb
        exact Bool.noConfusion hb
      · exact Or.inr hb
  refine ⟨h1, ?_, sanitizeSteps_keep_count t hWF, by decide⟩
  refine countNodes_eq_zero_of_allNot _ _ ?_
  refine allNodes_mono _ _ (fun n hn => ?_) _ h1
  rw [Bool.or_eq_true] at hn
  match hin : inlineScript n with
  | false => rfl
  | true =>
    rcases hn with hn | hn
    · rw [Bool.not_eq_true', inline_removable hin] at hn
      exact Bool.noConfusion hn
    · rw [beq_iff_eq] at hn
      subst hn
      exact absurd hin (by decide)

/-- C1 witness: the amended theorem evaluated at the parse tree of the
scenario input `<p>Hello</p><script>alert(1)</script>`. -/
theorem C1_witness :
    allNodes (fun n => !scriptRemovable n || n == twNew)
      (sanitizeSteps [.elem "p" [] [.text "Hello"],
        .elem "script" [] [.text "alert(1)"]]) = true ∧
    countNodes inlineScript
      (sanitizeSteps [.elem "p" [] [.text "Hello"],
        .elem "script" [] [.text "alert(1)"]]) = 0 ∧
    countNodes keepScript
        (sanitizeSteps [.elem "p" [] [.text "Hello"],
          .elem "script" [] [.text "alert(1)"]])
      = countNodes keepScript [.elem "p" [] [.text "Hello"],
          .elem "script" [] [.text "alert(1)"]] ∧
    strContains (sanitize [.elem "p" [] [.text "Hello"], .elem "script" [] [.text "alert(1)"]])
      "alert(1)" = false :=
  C1_script_allowlist_policy
    [.elem "p" [] [.text "Hello"], .elem "script" [] [.text "alert(1)"]] (by decide)

end HtmlSanitizationService

/-! ## Toolkit for the sanitize-reparse analysis (claim C9) -/

theorem allNodes_dropLeadWs (p : Node → Bool) :
    ∀ F, allNodes p F = true → allNodes p (dropLeadWs F) = true
  | [], h => h
  | .text s :: ns, h => by
    rw [dropLeadWs]
    by_cases hws : s.data.all isPyWs
    · rw [if_pos hws]
      rw [allNodes_cons, Bool.and_eq_true] at h
      exact allNodes_dropLeadWs p ns h.2
    · rw [if_neg hws]
      exact h
  | .elem t a cs :: ns, h => h
  | .doctype d :: ns, h => h

theorem allNodes_dropDoc (p : Node → Bool) :
    ∀ F, allNodes p F = true → allNodes p (dropDoc F) = true
  | [], h => h
  | .doctype d :: ns, h => by
    rw [dropDoc]
    by_cases hd : lowerL d.data = "html".data
    · rw [if_pos hd]
      rw [allNodes_cons, Bool.and_eq_true] at h
      exact h.2
    · rw [if_neg hd]
      exact h
  | .elem t a cs :: ns, h => h
  | .text s :: ns, h => h

theorem allNodes_dropLead (p : Node → Bool) (F : List Node) (h : allNodes p F = true) :
    allNodes p (dropLead F) = true :=
  allNodes_dropLeadWs p _ (allNodes_dropDoc p _ (allNodes_dropLeadWs p F h))

theorem all_dropLeadWs (pr : Node → Bool) :
    ∀ F, F.all pr = true → (dropLeadWs F).all pr = true
  | [], h => h
  | .text s :: ns, h => by
    rw [dropLeadWs]
    by_cases hws : s.data.all isPyWs
    · rw [if_pos hws]
      rw [List.all_cons, Bool.and_eq_true] at h
      exact all_dropLeadWs pr ns h.2
    · rw [if_neg hws]
      exact h
  | .elem t a cs :: ns, h => h
  | .doctype d :: ns, h => h

theorem all_dropDoc (pr : Node → Bool) :
    ∀ F, F.all pr = true → (dropDoc F).all pr = true
  | [], h => h
  | .doctype d :: ns, h => by
    rw [dropDoc]
    by_cases hd : lowerL d.data = "html".data
    · rw [if_pos hd]
      rw [List.all_cons, Bool.and_eq_true] at h
      exact h.2
    · rw [if_neg hd]
      exact h
  | .elem t a cs :: ns, h => h
  | .text s :: ns, h => h

theorem all_dropLead (pr : Node → Bool) (F : List Node) (h : F.all pr = true) :
    (dropLead F).all pr = true :=
  all_dropLeadWs pr _ (all_dropDoc pr _ (all_dropLeadWs pr F h))

theorem count_dropLeadWs (p : Node → Bool) (hp : ∀ s, p (.text s) = false) :
    ∀ F, countNodes p (dropLeadWs F) = countNodes p F
  | [] => rfl
  | .text s :: ns => by
    rw [dropLeadWs]
    by_cases hws : s.data.all isPyWs
    · rw [if_pos hws, count_dropLeadWs p hp ns, countNodes_cons]
      have h0 : countNodes p [Node.text s] = 0 := by
        simp [countNodes, findAllNodes, findAllIn, hp s]
      omega
    · rw [if_neg hws]
  | .elem t a cs :: ns => rfl
  | .doctype d :: ns => rfl

theorem count_dropDoc (p : Node → Bool) (hp : ∀ d, p (.doctype d) = false) :
    ∀ F, countNodes p (dropDoc F) = countNodes p F
  | [] => rfl
  | .doctype d :: ns => by
    rw [dropDoc]
    by_cases hd : lowerL d.data = "html".data
    · rw [if_pos hd, countNodes_cons]
      have h0 : countNodes p [Node.doctype d] = 0 := by
        simp [countNodes, findAllNodes, findAllIn, hp d]
      omega
    · rw [if_neg hd]
  | .elem t a cs :: ns => rfl
  | .text s :: ns => rfl

theorem count_dropLead (p : Node → Bool) (hpt : ∀ s, p (.text s) = false)
    (hpd : ∀ d, p (.doctype d) = false) (F : List Node) :
    countNodes p (dropLead F) = countNodes p F := by
  rw [dropLead, count_dropLeadWs p hpt, count_dropDoc p hpd, count_dropLeadWs p hpt]

/- Filtering with pointwise-equal predicates gives the same forest. -/
mutual
theorem filterForest_congr (q q' : Node → Bool) :
    ∀ F, allNodes (fun n => q n == q' n) F = true → filterForest q F = filterForest q' F
  | [], _ => rfl
  | n :: ns, h => by
    rw [allNodes_cons, Bool.and_eq_true] at h
    simp only [filterForest]
    rw [filterTree_congr q q' n h.1, filterForest_congr q q' ns h.2]
theorem filterTree_congr (q q' : Node → Bool) :
    ∀ n, allIn (fun n => q n == q' n) n = true → filterTree q n = filterTree q' n
  | .elem t a cs, h => by
    simp only [allIn, Bool.and_eq_true, beq_iff_eq] at h
    simp only [filterTree, h.1, filterForest_congr q q' cs h.2]
  | .text s, h => by
    have h' : q (.text s) = q' (.text s) := by
      have hb : (q (.text s) == q' (.text s)) = true := h
      exact eq_of_beq hb
    simp only [filterTree, h']
  | .doctype d, h => by
    have h' : q (.doctype d) = q' (.doctype d) := by
      have hb : (q (.doctype d) == q' (.doctype d)) = true := h
      exact eq_of_beq hb
    simp only [filterTree, h']
end

theorem updateFirstA_cons_skip (q : Node → Bool) (f : Node → Node) (n : Node) (ns : List Node)
    (hq : q n = false) (hin : updateInA q f n = none) :
    updateFirstA q f (n :: ns) = (updateFirstA q f ns).map (n :: ·) := by
  simp only [updateFirstA, hq, Bool.false_eq_true, if_neg, not_false_eq_true, hin]

theorem updateFirst_cons_skip (q : Node → Bool) (f : Node → Node) (n : Node) (ns : List Node)
    (hq : q n = false) (hin : updateInA q f n = none) :
    updateFirst q f (n :: ns) = n :: updateFirst q f ns := by
  rw [updateFirst, updateFirst, updateFirstA_cons_skip q f n ns hq hin]
  match updateFirstA q f ns with
  | none => rfl
  | some ns' => rfl

theorem findNode_cons_skip (p : Node → Bool) (n : Node) (ns : List Node)
    (hp : p n = false) (hin : findIn p n = none) :
    findNode p (n :: ns) = findNode p ns := by
  simp only [findNode, hp, Bool.false_eq_true, if_neg, not_false_eq_true, hin]

/- Removing what an update added: filtering `q`-nodes out of the updated
forest recovers the original, when the original held no `q`-node and the
update turns its target `n` into something that filters back to `n`. -/
mutual
theorem filterForest_undo_update (q p : Node → Bool) (f : Node → Node) (hqs : Shallow q)
    (hf : ∀ n, p n = true → allIn (fun m => !q m) n = true → filterTree q (f n) = some n) :
    ∀ F F', updateFirstA p f F = some F' → allNodes (fun m => !q m) F = true →
      filterForest q F' = F
  | [], F' => by simp [updateFirstA]
  | n :: ns, F' => by
    simp only [updateFirstA, allNodes, Bool.and_eq_true]
    by_cases hp : p n
    · simp only [hp, if_pos, Option.some.injEq]
      rintro rfl ⟨h1, h2⟩
      simp only [filterForest]
      rw [hf n hp h1, filterForest_id q ns h2]
    · simp only [hp, Bool.false_eq_true, if_neg, not_false_eq_true]
      match hin : updateInA p f n with
      | some n' =>
        simp only [Option.some.injEq]
        rintro rfl ⟨h1, h2⟩
        simp only [filterForest]
        rw [filterTree_undo_update q p f hqs hf n n' hin h1, filterForest_id q ns h2]
      | none =>
        match hrec : updateFirstA p f ns with
        | some ns' =>
          simp only [Option.map_some', Option.some.injEq]
          rintro rfl ⟨h1, h2⟩
          simp only [filterForest]
          rw [filterTree_id q n h1, filterForest_undo_update q p f hqs hf ns ns' hrec h2]
        | none => simp
theorem filterTree_undo_update (q p : Node → Bool) (f : Node → Node) (hqs : Shallow q)
    (hf : ∀ n, p n = true → allIn (fun m => !q m) n = true → filterTree q (f n) = some n) :
    ∀ n n', updateInA p f n = some n' → allIn (fun m => !q m) n = true →
      filterTree q n' = some n
  | .elem t a cs, n' => by
    simp only [updateInA, allIn, Bool.and_eq_true]
    match hrec : updateFirstA p f cs with
    | some cs' =>
      simp only [Option.map_some', Option.some.injEq]
      rintro rfl ⟨h1, h2⟩
      rw [Bool.not_eq_true'] at h1
      have hq' : q (.elem t a cs') = false := by rw [hqs t a cs' cs]; exact h1
      simp only [filterTree, hq', Bool.false_eq_true, if_neg, not_false_eq_true,
        Option.some.injEq]
      rw [filterForest_undo_update q p f hqs hf cs cs' hrec h2]
    | none => simp
  | .text s, n' => by simp [updateInA]
  | .doctype d, n' => by simp [updateInA]
end

/-- A whitespace-only text node (what `html.parser` produces for the blank
between serialized roots and what `dropLeadWs` elides). -/
def wsText : Node → Bool
  | .text s => s.data.all isPyWs
  | _ => false

/-- The forest is empty or starts with something other than a
whitespace-only text node. -/
def firstNotWs : List Node → Bool
  | [] => true
  | n :: _ => !wsText n

theorem firstNotWs_dropLeadWs : ∀ F, firstNotWs (dropLeadWs F) = true
  | [] => rfl
  | .text s :: ns => by
    rw [dropLeadWs]
    by_cases hws : s.data.all isPyWs
    · rw [if_pos hws]
      exact firstNotWs_dropLeadWs ns
    · rw [if_neg hws]
      simp [firstNotWs, wsText, hws]
  | .elem t a cs :: ns => rfl
  | .doctype d :: ns => rfl

theorem dropLeadWs_id_of : ∀ F, firstNotWs F = true → dropLeadWs F = F
  | [], _ => rfl
  | .text s :: ns, h => by
    have hws : s.data.all isPyWs = false := by
      have h' : (!wsText (Node.text s)) = true := h
      rw [Bool.not_eq_true'] at h'
      exact h'
    rw [dropLeadWs, if_neg (by rw [hws]; exact Bool.false_ne_true)]
  | .elem t a cs :: ns, _ => rfl
  | .doctype d :: ns, _ => rfl

theorem firstNotWs_filter (q : Node → Bool) :
    ∀ F, F.all (fun n => !q n) = true → firstNotWs F = true →
      firstNotWs (filterForest q F) = true
  | [], _, _ => rfl
  | n :: ns, hall, h => by
    rw [List.all_cons, Bool.and_eq_true] at hall
    have hq : q n = false := by
      have := hall.1
      rw [Bool.not_eq_true'] at this
      exact this
    cases n with
    | elem t a cs =>
      simp only [filterForest, filterTree, hq, Bool.false_eq_true, if_neg, not_false_eq_true]
      rfl
    | text s =>
      simp only [filterForest, filterTree, hq, Bool.false_eq_true, if_neg, not_false_eq_true]
      exact h
    | doctype d =>
      simp only [filterForest, filterTree, hq, Bool.false_eq_true, if_neg, not_false_eq_true]
      rfl

theorem firstNotWs_updateFirstA (q : Node → Bool) (f : Node → Node)
    (helem : ∀ n, q n = true → ∃ t a cs, f n = .elem t a cs) :
    ∀ F F', updateFirstA q f F = some F' → firstNotWs F = true → firstNotWs F' = true
  | [], F' => by simp [updateFirstA]
  | n :: ns, F' => by
    simp only [updateFirstA]
    by_cases hq : q n
    · simp only [hq, if_pos, Option.some.injEq]
      rintro rfl h
      obtain ⟨t, a, cs, hfe⟩ := helem n hq
      simp [firstNotWs, hfe, wsText]
    · simp only [hq, Bool.false_eq_true, if_neg, not_false_eq_true]
      match hin : updateInA q f n with
      | some n' =>
        simp only [Option.some.injEq]
        rintro rfl h
        match n, hin with
        | .elem t a cs, hin =>
          simp only [updateInA] at hin
          match hcs : updateFirstA q f cs with
          | some cs' =>
            rw [hcs] at hin
            simp only [Option.map_some', Option.some.injEq] at hin
            subst hin
            rfl
          | none =>
            rw [hcs] at hin
            simp at hin
      | none =>
        match hrec : updateFirstA q f ns with
        | some ns' =>
          simp only [Option.map_some', Option.some.injEq]
          rintro rfl h
          exact h
        | none => simp

theorem firstNotWs_updateFirst (q : Node → Bool) (f : Node → Node)
    (helem : ∀ n, q n = true → ∃ t a cs, f n = .elem t a cs)
    (F : List Node) (h : firstNotWs F = true) :
    firstNotWs (updateFirst q f F) = true := by
  rw [updateFirst]
  match hrec : updateFirstA q f F with
  | none => exact h
  | some F' => exact firstNotWs_updateFirstA q f helem F F' hrec h

namespace HtmlSanitizationService

/-- Re-sanitizing the parse of a sanitize output: step 2 re-removes the one
Tailwind script, steps 3–6 and 8–10 are the identity, and step 7 re-appends
a fresh canonical Tailwind script to the first head. -/
theorem sanitizeSteps_reparse (F : List Node) (hF : PipeFacts F) :
    sanitizeSteps (.doctype "html" :: .text "\n" :: dropLead F)
      = .doctype "html" :: .text "\n" ::
        updateFirst isHeadTag (appendChild twNew)
          (filterForest isTwScript (dropLead F)) := by
  obtain ⟨hpa, hpb, hon, hsty, hhtml, hhead, htw1, hcs, hvp, hroots, hheadTw⟩ := hF
  have hRpa : allNodes pA (dropLead F) = true := allNodes_dropLead pA F hpa
  have hRpb : allNodes pB (dropLead F) = true := allNodes_dropLead pB F hpb
  have hRon : allNodes noOnAttrs (dropLead F) = true := allNodes_dropLead _ F hon
  have hRsty : allNodes (fun n => !isStyleTag n) (dropLead F) = true :=
    allNodes_dropLead _ F hsty
  have hRhtml : 0 < countNodes isHtmlTag (dropLead F) := by
    rw [count_dropLead isHtmlTag (fun s => rfl) (fun d => rfl)]
    exact hhtml
  have hRhead : 0 < countNodes isHeadTag (dropLead F) := by
    rw [count_dropLead isHeadTag (fun s => rfl) (fun d => rfl)]
    exact hhead
  have hRcs : 0 < countNodes isCharsetMeta (dropLead F) := by
    rw [count_dropLead isCharsetMeta (fun s => rfl) (fun d => rfl)]
    exact hcs
  have hRvp : 0 < countNodes isViewportMeta (dropLead F) := by
    rw [count_dropLead isViewportMeta (fun s => rfl) (fun d => rfl)]
    exact hvp
  -- every Tailwind script in the reparsed tree is the childless canonical
  -- one, so filtering them out changes no other count
  have condOf : ∀ (p : Node → Bool), countNodes p [twNew] = 0 →
      allNodes (fun n => !isTwScript n || (countNodes p [n] == 0)) (dropLead F) = true := by
    intro p hp0
    refine allNodes_mono _ _ (fun n hn => ?_) _ hRpb
    rw [pB, Bool.or_eq_true] at hn
    rw [Bool.or_eq_true]
    rcases hn with hn | hn
    · exact Or.inl hn
    · rw [beq_iff_eq] at hn
      subst hn
      exact Or.inr (by rw [hp0]; rfl)
  have cntDN : ∀ (p : Node → Bool), countNodes p [Node.doctype "html"] = 0 →
      countNodes p [Node.text "\n"] = 0 →
      ∀ X, countNodes p (Node.doctype "html" :: Node.text "\n" :: X) = countNodes p X := by
    intro p h1 h2 X
    rw [countNodes_cons p (Node.doctype "html") (Node.text "\n" :: X), h1,
      countNodes_cons p (Node.text "\n") X, h2]
    omega
  set V := filterForest isTwScript (dropLead F) with hVdef
  have hVhtml : 0 < countNodes isHtmlTag V := by
    rw [hVdef, filterForest_count isHtmlTag isTwScript shallow_isHtmlTag _
      (condOf isHtmlTag (by decide))]
    exact hRhtml
  have hVhead : 0 < countNodes isHeadTag V := by
    rw [hVdef, filterForest_count isHeadTag isTwScript shallow_isHeadTag _
      (condOf isHeadTag (by decide))]
    exact hRhead
  have hVcs : 0 < countNodes isCharsetMeta V := by
    rw [hVdef, filterForest_count isCharsetMeta isTwScript shallow_isCharsetMeta _
      (condOf isCharsetMeta (by decide))]
    exact hRcs
  have hVvp : 0 < countNodes isViewportMeta V := by
    rw [hVdef, filterForest_count isViewportMeta isTwScript shallow_isViewportMeta _
      (condOf isViewportMeta (by decide))]
    exact hRvp
  have hVtwAll : allNodes (fun n => !isTwScript n) V = true := by
    rw [hVdef]
    exact filterForest_clears isTwScript shallow_isTwScript _
  have hVon : allNodes noOnAttrs V = true := by
    rw [hVdef]
    exact filterForest_preserves noOnAttrs isTwScript (fun _ _ _ h => h) _ hRon
  have hVsty : allNodes (fun n => !isStyleTag n) V = true := by
    rw [hVdef]
    exact filterForest_preserves (fun n => !isStyleTag n) isTwScript (fun _ _ _ h => h) _ hRsty
  -- step 2
  have hcongr : filterForest scriptRemovable (dropLead F)
      = filterForest isTwScript (dropLead F) :=
    filterForest_congr scriptRemovable isTwScript (dropLead F) hRpa
  have h2 : step2 (.doctype "html" :: .text "\n" :: dropLead F)
      = .doctype "html" :: .text "\n" :: V := by
    show filterForest scriptRemovable (.doctype "html" :: .text "\n" :: dropLead F)
      = .doctype "html" :: .text "\n" :: V
    simp only [filterForest, filterTree]
    rw [if_neg (by decide), if_neg (by decide), hcongr]
  -- step 3
  have h3 : step3 (.doctype "html" :: .text "\n" :: V)
      = .doctype "html" :: .text "\n" :: V := by
    refine stripOnForest_id _ ?_
    rw [allNodes_cons, allNodes_cons, hVon]
    decide
  -- step 4
  have h4 : step4 (.doctype "html" :: .text "\n" :: V)
      = .doctype "html" :: .text "\n" :: V := by
    refine filterForest_id _ _ ?_
    rw [allNodes_cons, allNodes_cons, hVsty]
    decide
  -- step 5
  have hchtml : 0 < countNodes isHtmlTag (.doctype "html" :: .text "\n" :: V) := by
    rw [cntDN isHtmlTag (by decide) (by decide) V]
    omega
  obtain ⟨x5, hx5, _⟩ := findNode_isSome_of_count isHtmlTag _ hchtml
  have h5 : step5 (.doctype "html" :: .text "\n" :: V)
      = .doctype "html" :: .text "\n" :: V := step5_found hx5
  -- step 6
  have hchead : 0 < countNodes isHeadTag (.doctype "html" :: .text "\n" :: V) := by
    rw [cntDN isHeadTag (by decide) (by decide) V]
    omega
  obtain ⟨x6, hx6, _⟩ := findNode_isSome_of_count isHeadTag _ hchead
  have h6 : step6 (.doctype "html" :: .text "\n" :: V)
      = .doctype "html" :: .text "\n" :: V := step6_found hx6
  -- step 7
  have hnotw : allNodes (fun n => !isTwScript n) (.doctype "html" :: .text "\n" :: V) = true := by
    rw [allNodes_cons, allNodes_cons, hVtwAll]
    decide
  have h7 : step7 (.doctype "html" :: .text "\n" :: V)
      = updateFirst isHeadTag (appendChild twNew) (.doctype "html" :: .text "\n" :: V) :=
    step7_append (findNode_none_of_allNot _ _ hnotw)
  have hskip : updateFirst isHeadTag (appendChild twNew) (.doctype "html" :: .text "\n" :: V)
      = .doctype "html" :: .text "\n" :: updateFirst isHeadTag (appendChild twNew) V := by
    rw [updateFirst_cons_skip isHeadTag (appendChild twNew) (Node.doctype "html")
        (Node.text "\n" :: V) (by decide) rfl,
      updateFirst_cons_skip isHeadTag (appendChild twNew) (Node.text "\n") V (by decide) rfl]
  obtain ⟨hh, hfindh, hheadh⟩ := findNode_isSome_of_count isHeadTag V hVhead
  have hupdW : updateFirstA isHeadTag (appendChild twNew) V ≠ none := by
    rw [Ne, updateFirstA_none_iff, hfindh]
    simp
  match hrecW : updateFirstA isHeadTag (appendChild twNew) V with
  | none => exact absurd hrecW hupdW
  | some W =>
  have hW : updateFirst isHeadTag (appendChild twNew) V = W := by
    rw [updateFirst, hrecW]; rfl
  obtain ⟨aW, csW, rfl⟩ := isHead_elem hh hheadh
  have cntW : ∀ (p : Node → Bool), Shallow p →
      countNodes p W = countNodes p V + countNodes p [twNew] := by
    intro p hp
    obtain ⟨h', hf', hc'⟩ := updateFirstA_count p isHeadTag _ hp _ W hrecW
    rw [hfindh] at hf'
    obtain rfl : Node.elem "head" aW csW = h' := by simpa using hf'
    rw [count_appendChild p hp _ _ ⟨_, _, _, rfl⟩] at hc'
    omega
  have hWcs : 0 < countNodes isCharsetMeta W := by
    rw [cntW _ shallow_isCharsetMeta]
    omega
  have hWvp : 0 < countNodes isViewportMeta W := by
    rw [cntW _ shallow_isViewportMeta]
    omega
  have hWtw : countNodes isTwScript W = 1 := by
    rw [cntW _ shallow_isTwScript]
    have e0 : countNodes isTwScript V = 0 := countNodes_eq_zero_of_allNot _ _ hVtwAll
    have e1 : countNodes isTwScript [twNew] = 1 := by decide
    omega
  -- step 8
  have hccs : 0 < countNodes isCharsetMeta (.doctype "html" :: .text "\n" :: W) := by
    rw [cntDN isCharsetMeta (by decide) (by decide) W]
    omega
  obtain ⟨x8, hx8, _⟩ := findNode_isSome_of_count isCharsetMeta _ hccs
  have h8 : step8 (.doctype "html" :: .text "\n" :: W)
      = .doctype "html" :: .text "\n" :: W := step8_found hx8
  -- step 9
  have hcvp : 0 < countNodes isViewportMeta (.doctype "html" :: .text "\n" :: W) := by
    rw [cntDN isViewportMeta (by decide) (by decide) W]
    omega
  obtain ⟨x9, hx9, _⟩ := findNode_isSome_of_count isViewportMeta _ hcvp
  have h9 : step9 (.doctype "html" :: .text "\n" :: W)
      = .doctype "html" :: .text "\n" :: W := step9_found hx9
  -- step 10
  have h10 : step10 (.doctype "html" :: .text "\n" :: W)
      = .doctype "html" :: .text "\n" :: W := by
    refine step10_id ?_
    rw [cntDN isTwScript (by decide) (by decide) W]
    omega
  rw [sanitizeSteps, h2, h3, h4, h5, h6, h7, hskip, hW, h8, h9, h10]

end HtmlSanitizationService

namespace HtmlSanitizationService

/-- C9 counterexample: sanitize is NOT idempotent up to whitespace.  For
`<html><head></head><body><meta charset="utf-8"><p>x</p></body></html>` the
first pass leaves head children `[tailwind, viewport]`, but the second pass
removes and re-appends the Tailwind script, producing `[viewport, tailwind]`
— a reordering that survives whitespace erasure. -/
theorem C9_counterexample :
    ¬ eqUpToWs
      (sanitize (reparseOutput [.elem "html" [] [.elem "head" [] [],
        .elem "body" [] [.elem "meta" [("charset", "utf-8")] [],
          .elem "p" [] [.text "x"]]]]))
      (sanitize [.elem "html" [] [.elem "head" [] [],
        .elem "body" [] [.elem "meta" [("charset", "utf-8")] [],
          .elem "p" [] [.text "x"]]]]) := by
  decide

/-- C9 (amended): one sanitize pass is not idempotent up to whitespace (see
the counterexample, where the second pass reorders the head), but the
process stabilizes at the second pass: for every input, re-sanitizing the
re-parsed second-pass output reproduces the second-pass parse tree — and
hence its rendered document — exactly, not merely up to whitespace. -/
theorem C9_stabilizes_after_second_pass (t : List Node) :
    sanitizeSteps (.doctype "html" :: .text "\n"
        :: dropLead (sanitizeSteps (reparseOutput t)))
      = sanitizeSteps (reparseOutput t) ∧
    sanitize (.doctype "html" :: .text "\n"
        :: dropLead (sanitizeSteps (reparseOutput t)))
      = sanitize (reparseOutput t) := by
  set V1 := filterForest isTwScript (dropLead (sanitizeSteps t)) with hV1
  set W1 := updateFirst isHeadTag (appendChild twNew) V1 with hW1
  have hm1 : sanitizeSteps (reparseOutput t)
      = .doctype "html" :: .text "\n" :: W1 := by
    rw [hW1, hV1]
    exact sanitizeSteps_reparse (sanitizeSteps t) (sanitizeSteps_facts t).1
  have hm2 := sanitizeSteps_reparse (sanitizeSteps (reparseOutput t))
    (sanitizeSteps_facts (reparseOutput t)).1
  -- the reparse of the second pass is exactly W1 again
  have hfnwR : firstNotWs (dropLead (sanitizeSteps t)) = true := by
    rw [dropLead]
    exact firstNotWs_dropLeadWs _
  have hrootsR : (dropLead (sanitizeSteps t)).all (fun n => !isTwScript n) = true :=
    all_dropLead _ _ (sanitizeSteps_facts t).1.roots
  have hfnwV : firstNotWs V1 = true := by
    rw [hV1]
    exact firstNotWs_filter isTwScript _ hrootsR hfnwR
  have hfnwW : firstNotWs W1 = true := by
    rw [hW1]
    refine firstNotWs_updateFirst isHeadTag (appendChild twNew) (fun n hq => ?_) V1 hfnwV
    obtain ⟨a, cs, rfl⟩ := isHead_elem n hq
    exact ⟨"head", a, cs ++ [twNew], rfl⟩
  have hDL : dropLead (sanitizeSteps (reparseOutput t)) = W1 := by
    rw [hm1]
    have e1 : dropLead (Node.doctype "html" :: Node.text "\n" :: W1) = dropLeadWs W1 := rfl
    rw [e1]
    exact dropLeadWs_id_of W1 hfnwW
  have hVtw : allNodes (fun m => !isTwScript m) V1 = true := by
    rw [hV1]
    exact filterForest_clears isTwScript shallow_isTwScript _
  have hf7 : ∀ n, isHeadTag n = true → allIn (fun m => !isTwScript m) n = true →
      filterTree isTwScript (appendChild twNew n) = some n := by
    intro n hq hn
    obtain ⟨a, cs, rfl⟩ := isHead_elem n hq
    rw [allIn, Bool.and_eq_true] at hn
    show filterTree isTwScript (.elem "head" a (cs ++ [twNew])) = _
    have hnot : isTwScript (Node.elem "head" a (cs ++ [twNew])) = false := rfl
    have htw0 : filterForest isTwScript [twNew] = [] := by decide
    simp only [filterTree, hnot, Bool.false_eq_true, if_neg, not_false_eq_true,
      Option.some.injEq]
    rw [filterForest_append, filterForest_id isTwScript cs hn.2, htw0, List.append_nil]
  have hVW : filterForest isTwScript W1 = V1 := by
    rw [hW1, updateFirst]
    match hrec : updateFirstA isHeadTag (appendChild twNew) V1 with
    | none =>
      show filterForest isTwScript V1 = V1
      exact filterForest_id _ _ hVtw
    | some W' =>
      show filterForest isTwScript W' = V1
      exact filterForest_undo_update isTwScript isHeadTag (appendChild twNew)
        shallow_isTwScript hf7 V1 W' hrec hVtw
  rw [hDL] at hm2
  rw [hVW] at hm2
  rw [← hW1] at hm2
  refine ⟨?_, ?_⟩
  · rw [hDL, hm1]
    exact hm2
  · rw [sanitize, sanitize, hDL, hm1, hm2]

end HtmlSanitizationService
